import Mathlib

/-! # Software rasterizer (flat / Gouraud / Phong sphere renderer)

A shallow embedding of the three programs `Q1.cpp` (flat shading), `Q2.cpp`
(Gouraud shading) and `Q3.cpp` (Phong shading), followed by theorems about
them.

Numbers.  The programs compute in `float`.  The embedding computes in an
arbitrary linearly ordered field `F` with a floor function (`ℚ` for
evaluation, `ℝ` for the statements that need square roots and trigonometry):
every float operation is read as the exact operation, and every float
constant as the decimal it is written as.  The functions the programs take
from `<cmath>` (`std::sqrt`, `std::pow`, `sinf`, `cosf`) and the constant
`M_PI` are collected in the structure `CMath`, a parameter of the embedding:
the theorems that need them say what they assume of them, or fix them to the
real functions, with `M_PI` the number pi or its decimal in the source.

Division.  A float division by a non-zero divisor is the exact quotient.  The
barycentric weights are quotients by a denominator that is zero for a
degenerate triangle; there the program's behaviour is fixed by the IEEE
special values, which are modelled by the type `Ieee`.

Rounding.  Where a property depends on the rounding of the float operations,
two further devices are used.  The pixel loops are also given with their
arithmetic left open (`rasterizeOf`): the outcome of the inside test, the depth
and the colour at a pixel are arbitrary computed values, so that a theorem on
`rasterizeOf` holds whatever the rounding.  And the projection and the
barycentric weights are also given in binary32 arithmetic, operation by
operation (`Bin`, `applyTransform32`, `Q1.rasterizeTriangle32`), for
evaluation on concrete triangles.
-/

namespace Raster

/-! ## Constants and the vector type -/

/-- Width of both buffers: `const int WIDTH = 512`. -/
def WIDTH : ℕ := 512

/-- Height of both buffers: `const int HEIGHT = 512`. -/
def HEIGHT : ℕ := 512

/-- The parts of `<cmath>` the programs call.  `M_PI` is the constant pi,
`sqrt` is `std::sqrt`, `pow` is `std::pow`, `sinf` and `cosf` are the
single-precision sine and cosine. -/
structure CMath (F : Type) where
  M_PI : F
  sqrt : F → F
  pow : F → F → F
  sinf : F → F
  cosf : F → F

/-- The struct `Vec3`: three float components. -/
structure Vec3 (F : Type) where
  x : F
  y : F
  z : F
deriving DecidableEq

namespace Vec3

variable {F : Type} [LinearOrderedField F]

/-- Constructor `Vec3()` with the default arguments: the zero vector. -/
def zero : Vec3 F := ⟨0, 0, 0⟩

/-- Operator `operator+`. -/
def add (a v : Vec3 F) : Vec3 F := ⟨a.x + v.x, a.y + v.y, a.z + v.z⟩

/-- Operator `operator-`. -/
def sub (a v : Vec3 F) : Vec3 F := ⟨a.x - v.x, a.y - v.y, a.z - v.z⟩

/-- Operator `operator*(float s)`. -/
def scale (a : Vec3 F) (s : F) : Vec3 F := ⟨a.x * s, a.y * s, a.z * s⟩

/-- Method `cross`. -/
def cross (a v : Vec3 F) : Vec3 F :=
  ⟨a.y * v.z - a.z * v.y, a.z * v.x - a.x * v.z, a.x * v.y - a.y * v.x⟩

/-- Method `dot`. -/
def dot (a v : Vec3 F) : F := a.x * v.x + a.y * v.y + a.z * v.z

/-- Method `normalize`: `len > 0 ? (*this) * (1.0f / len) : Vec3()`. -/
def normalize (m : CMath F) (a : Vec3 F) : Vec3 F :=
  let len := m.sqrt (a.x * a.x + a.y * a.y + a.z * a.z)
  if 0 < len then a.scale (1 / len) else zero

end Vec3

/-! ## IEEE special values of a quotient -/

/-- The value of a float expression that may have divided by zero: a finite
number, plus or minus infinity, or not-a-number. -/
inductive Ieee (F : Type) where
  | fin (q : F)
  | pinf
  | ninf
  | nan

namespace Ieee

variable {F : Type} [LinearOrderedField F]

/-- The quotient `a / b` of two finite floats.  With `b` non-zero it is the
exact quotient.  With `b` zero it is an infinity carrying the sign of `a`, or
not-a-number when `a` is zero too.  (The zero divisor is taken as `+0`; with
`-0` both infinities swap, which changes nothing below: the inside test needs
`w0` and `w1` to be the same infinity `+inf`, and then `w2` is `-inf`.) -/
def div (a b : F) : Ieee F :=
  if b = 0 then (if 0 < a then pinf else if a < 0 then ninf else nan)
  else fin (a / b)

/-- The quotient `a / b` as `div`, with a zero divisor taken as `-0`: the
infinity then carries the opposite sign. -/
def divNeg (a b : F) : Ieee F :=
  if b = 0 then (if 0 < a then ninf else if a < 0 then pinf else nan)
  else fin (a / b)

/-- The difference `a - b`. -/
def sub : Ieee F → Ieee F → Ieee F
  | fin a, fin b => fin (a - b)
  | fin _, pinf => ninf
  | fin _, ninf => pinf
  | pinf, fin _ => pinf
  | pinf, ninf => pinf
  | ninf, fin _ => ninf
  | ninf, pinf => ninf
  | _, _ => nan

/-- The comparison `a >= 0`; false for not-a-number. -/
def ge0 : Ieee F → Bool
  | fin a => decide (0 ≤ a)
  | pinf => true
  | _ => false

/-- The number a finite value stands for (zero for the special values, which
never reach an arithmetic operation: see `baryInside_iff`). -/
def val : Ieee F → F
  | fin a => a
  | _ => 0

end Ieee

/-! ## Buffers -/

/-- A `HEIGHT` by `WIDTH` array, indexed `[y][x]`. -/
abbrev Grid (α : Type) := Fin HEIGHT → Fin WIDTH → α

namespace Grid

variable {α : Type}

/-- The cell `g[y][x]` for `int` indices; `none` outside the array. -/
def get? (g : Grid α) (y x : ℤ) : Option α :=
  if h : 0 ≤ y ∧ y < HEIGHT ∧ 0 ≤ x ∧ x < WIDTH then
    some (g ⟨y.toNat, by have := h.2.1; omega⟩ ⟨x.toNat, by have := h.2.2.2; omega⟩)
  else none

/-- The assignment `g[y][x] = v` for `int` indices: the cell whose row is `y`
and whose column is `x` takes the value `v`. -/
def set (g : Grid α) (y x : ℤ) (v : α) : Grid α :=
  fun r c => if (r.val : ℤ) = y ∧ (c.val : ℤ) = x then v else g r c

end Grid

/-- The two global arrays: `framebuffer[HEIGHT][WIDTH][3]` of bytes and
`zbuffer[HEIGHT][WIDTH]` of floats, where `⊤` is `+infinity`. -/
structure Buffers (F : Type) where
  framebuffer : Grid (ℕ × ℕ × ℕ)
  zbuffer : Grid (WithTop F)

/-- The values of `for (int i = lo; i < hi; ++i)`. -/
def loopLt (lo hi : ℤ) : List ℤ :=
  (List.range (hi - lo).toNat).map (fun (k : ℕ) => lo + (k : ℤ))

/-- The values of `for (int i = lo; i <= hi; ++i)`. -/
def loopLe (lo hi : ℤ) : List ℤ := loopLt lo (hi + 1)

section Pipeline

variable {F : Type} [LinearOrderedField F] [FloorRing F]

/-- Function `clearBuffers`: every cell of the colour buffer becomes `0, 0, 0` and
every depth cell `+infinity`. -/
def clearBuffers (b : Buffers F) : Buffers F :=
  (loopLt 0 HEIGHT).foldl
    (fun b y => (loopLt 0 WIDTH).foldl
      (fun b x => { framebuffer := b.framebuffer.set y x (0, 0, 0)
                    zbuffer := b.zbuffer.set y x ⊤ }) b) b

/-- Library function `std::clamp(v, lo, hi)`. -/
def clamp (v lo hi : F) : F := if v < lo then lo else if hi < v then hi else v

/-- One channel of `setPixel`:
`(unsigned char)(std::pow(std::clamp(c, 0.0f, 1.0f), 1.0f / 2.2f) * 255.0f)`.
The conversion to `unsigned char` truncates. -/
def encodeChannel (m : CMath F) (c : F) : ℕ :=
  ⌊m.pow (clamp c 0 1) (1 / (22 / 10)) * 255⌋₊

/-- The three bytes `setPixel` stores for a linear colour. -/
def encodeColor (m : CMath F) (color : Vec3 F) : ℕ × ℕ × ℕ :=
  (encodeChannel m color.x, encodeChannel m color.y, encodeChannel m color.z)

/-- Function `setPixel`, acting on the colour buffer. -/
def setPixel (m : CMath F) (fb : Grid (ℕ × ℕ × ℕ)) (x y : ℤ) (color : Vec3 F) :
    Grid (ℕ × ℕ × ℕ) :=
  if x < 0 ∨ x ≥ WIDTH ∨ y < 0 ∨ y ≥ HEIGHT then fb
  else fb.set y x (encodeColor m color)

/-- Function `applyTransform`: perspective projection, division by `w = -v.z`, and the
map to pixel coordinates.  The result is returned instead of written back.
For `v.z = 0` the program divides by zero and the quotients here are Lean's
`x / 0 = 0`; the theorems on the projection assume `v.z` non-zero, and the
theorems on the rasterizer hold for whatever screen-space vertices it is
given. -/
def applyTransform (v : Vec3 F) : Vec3 F :=
  let l : F := -(1 / 10)
  let r : F := 1 / 10
  let b : F := -(1 / 10)
  let t : F := 1 / 10
  let n : F := -(1 / 10)
  let f : F := -1000
  let x := (2 * n * v.x) / (r - l)
  let y := (2 * n * v.y) / (t - b)
  let z := (f + n) / (f - n) * v.z + (2 * f * n) / (f - n)
  let w := -v.z
  let x := x / w
  let y := y / w
  let z := z / w
  ⟨((x + 1) * (1 / 2)) * WIDTH, ((y + 1) * (1 / 2)) * HEIGHT, z⟩

/-! ## The rasterizer -/

/-- Local `denom` of the pixel loop. -/
def baryDenom (v0 v1 v2 : Vec3 F) : F :=
  (v1.y - v2.y) * (v0.x - v2.x) + (v2.x - v1.x) * (v0.y - v2.y)

/-- The weight `w0` at pixel `(x, y)`. -/
def baryW0 (v0 v1 v2 : Vec3 F) (x y : ℤ) : Ieee F :=
  Ieee.div ((v1.y - v2.y) * ((x : F) - v2.x) + (v2.x - v1.x) * ((y : F) - v2.y))
    (baryDenom v0 v1 v2)

/-- The weight `w1` at pixel `(x, y)`. -/
def baryW1 (v0 v1 v2 : Vec3 F) (x y : ℤ) : Ieee F :=
  Ieee.div ((v2.y - v0.y) * ((x : F) - v2.x) + (v0.x - v2.x) * ((y : F) - v2.y))
    (baryDenom v0 v1 v2)

/-- The weight `w2 = 1.0f - w0 - w1` at pixel `(x, y)`. -/
def baryW2 (v0 v1 v2 : Vec3 F) (x y : ℤ) : Ieee F :=
  Ieee.sub (Ieee.sub (Ieee.fin 1) (baryW0 v0 v1 v2 x y)) (baryW1 v0 v1 v2 x y)

/-- The inside test `w0 >= 0 && w1 >= 0 && w2 >= 0`. -/
def baryInside (v0 v1 v2 : Vec3 F) (x y : ℤ) : Bool :=
  (baryW0 v0 v1 v2 x y).ge0 && (baryW1 v0 v1 v2 x y).ge0 && (baryW2 v0 v1 v2 x y).ge0

/-- The interpolated depth `z = w0 * v0.z + w1 * v1.z + w2 * v2.z`. -/
def interpDepth (v0 v1 v2 : Vec3 F) (x y : ℤ) : F :=
  (baryW0 v0 v1 v2 x y).val * v0.z + (baryW1 v0 v1 v2 x y).val * v1.z
    + (baryW2 v0 v1 v2 x y).val * v2.z

/-- The body of the pixel loop, shared by `rasterizeTriangle` of `Q1.cpp` and
`Q2.cpp` and by `rasterizePhong` of `Q3.cpp`, which differ only in the colour
they pass to `setPixel`: `shade w0 w1 w2` is that colour. -/
def pixelStep (m : CMath F) (shade : F → F → F → Vec3 F) (v0 v1 v2 : Vec3 F)
    (b : Buffers F) (x y : ℤ) : Buffers F :=
  if baryInside v0 v1 v2 x y then
    let z := interpDepth v0 v1 v2 x y
    match b.zbuffer.get? y x with
    | some d =>
      if (z : WithTop F) < d then
        { zbuffer := b.zbuffer.set y x (z : WithTop F)
          framebuffer := setPixel m b.framebuffer x y
            (shade (baryW0 v0 v1 v2 x y).val (baryW1 v0 v1 v2 x y).val
              (baryW2 v0 v1 v2 x y).val) }
      else b
    | none => b
  else b

/-- Local `minX`: `std::max(1, (int)std::floor(std::min({v0.x, v1.x, v2.x})))`. -/
def boxMinX (v0 v1 v2 : Vec3 F) : ℤ := max 1 ⌊min v0.x (min v1.x v2.x)⌋

/-- Local `maxX`: `std::min(WIDTH - 2, (int)std::ceil(std::max({v0.x, v1.x, v2.x})))`. -/
def boxMaxX (v0 v1 v2 : Vec3 F) : ℤ := min ((WIDTH : ℤ) - 2) ⌈max v0.x (max v1.x v2.x)⌉

/-- Local `minY`: `std::max(1, (int)std::floor(std::min({v0.y, v1.y, v2.y})))`. -/
def boxMinY (v0 v1 v2 : Vec3 F) : ℤ := max 1 ⌊min v0.y (min v1.y v2.y)⌋

/-- Local `maxY`: `std::min(HEIGHT - 2, (int)std::ceil(std::max({v0.y, v1.y, v2.y})))`. -/
def boxMaxY (v0 v1 v2 : Vec3 F) : ℤ := min ((HEIGHT : ℤ) - 2) ⌈max v0.y (max v1.y v2.y)⌉

/-- The two nested pixel loops over the clamped bounding box of the
screen-space triangle `v0 v1 v2`. -/
def rasterizeScreen (m : CMath F) (shade : F → F → F → Vec3 F) (v0 v1 v2 : Vec3 F)
    (b : Buffers F) : Buffers F :=
  (loopLe (boxMinY v0 v1 v2) (boxMaxY v0 v1 v2)).foldl
    (fun b y => (loopLe (boxMinX v0 v1 v2) (boxMaxX v0 v1 v2)).foldl
      (fun b x => pixelStep m shade v0 v1 v2 b x y) b) b

/-! ## Mesh and shading, shared parts -/

/-- The element `vertices[i]` for an `int` index (the zero vector outside the
vector, where the program's access is undefined). -/
def vertexAt (vs : List (Vec3 F)) (i : ℤ) : Vec3 F :=
  if i < 0 then Vec3.zero else vs.getD i.toNat Vec3.zero

/-- The index triples the three `createSphere` functions push: the two pole
fans, then the quad strips between adjacent rings, two triangles per quad.
The values `top` and `bottom` are the indices of the two pole vertices. -/
def sphereIndices (width height top bottom : ℤ) (indices : List (ℤ × ℤ × ℤ)) :
    List (ℤ × ℤ × ℤ) :=
  let indices := (loopLt 0 width).foldl
    (fun ind i =>
      (ind ++ [(top, i, (i + 1).tmod width)]) ++
        [(bottom, (height - 3) * width + (i + 1).tmod width, (height - 3) * width + i)])
    indices
  (loopLt 0 (height - 3)).foldl
    (fun ind j => (loopLt 0 width).foldl
      (fun ind i =>
        let idx := j * width + i
        let next := (i + 1).tmod width
        (ind ++ [(idx, (j + 1) * width + next, (j + 1) * width + i)]) ++
          [(idx, j * width + next, (j + 1) * width + next)])
      ind)
    indices

/-- The ambient, diffuse and specular sum `ka * Ia + kd * diffuse + ks * specular`
with the constants `Ia = 0.2`, `ka = (0, 1, 0)`, `kd = (0, 0.5, 0)` and
`ks = (0.5, 0.5, 0.5)`, for `diffuse = max(0, N.L)` and
`specular = pow(max(0, R.V), 32)`. -/
def phongSum (m : CMath F) (N L R V : Vec3 F) : Vec3 F :=
  let Ia : F := 2 / 10
  let ka : Vec3 F := ⟨0, 1, 0⟩
  let kd : Vec3 F := ⟨0, 5 / 10, 0⟩
  let ks : Vec3 F := ⟨5 / 10, 5 / 10, 5 / 10⟩
  let diffuse := max 0 (N.dot L)
  let specular := m.pow (max 0 (R.dot V)) 32
  ((ka.scale Ia).add (kd.scale diffuse)).add (ks.scale specular)

namespace Q1

/-- The globals `vertices` and `indices` of `Q1.cpp`. -/
structure Mesh (F : Type) where
  vertices : List (Vec3 F)
  indices : List (ℤ × ℤ × ℤ)

/-- Function `createSphere` of `Q1.cpp`; it appends to the two globals. -/
def createSphere (m : CMath F) (width height : ℤ) (mesh : Mesh F) : Mesh F :=
  let radius : F := 2
  let vertices := (loopLt 1 (height - 1)).foldl
    (fun vs (j : ℤ) =>
      let theta := m.M_PI * (j : F) / ((height : F) - 1)
      (loopLt 0 width).foldl
        (fun vs (i : ℤ) =>
          let phi := 2 * m.M_PI * (i : F) / (width : F) + m.M_PI
          let x := -radius * m.sinf theta * m.cosf phi
          let y := radius * m.cosf theta
          let z := -radius * m.sinf theta * m.sinf phi
          vs ++ [⟨x, y, z - 7⟩])
        vs)
    mesh.vertices
  let vertices := vertices ++ [⟨0, radius, -7⟩]
  let vertices := vertices ++ [⟨0, -radius, -7⟩]
  let top : ℤ := (vertices.length : ℤ) - 2
  let bottom : ℤ := (vertices.length : ℤ) - 1
  { vertices := vertices
    indices := sphereIndices width height top bottom mesh.indices }

/-- Function `computeFlatColor`. -/
def computeFlatColor (m : CMath F) (v0 v1 v2 : Vec3 F) : Vec3 F :=
  let centroid := ((v0.add v1).add v2).scale (1 / 3)
  let N := ((v1.sub v0).cross (v2.sub v0)).normalize m
  let N := if 0 < N.dot ⟨0, 0, -1⟩ then N.scale (-1) else N
  let light : Vec3 F := ⟨-4, 4, -3⟩
  let rotatedLight : Vec3 F := ⟨-light.x, -light.y, light.z⟩
  let L := (rotatedLight.sub centroid).normalize m
  let V := ((⟨0, 0, 0⟩ : Vec3 F).sub centroid).normalize m
  let R := (N.scale (2 * N.dot L)).sub L
  phongSum m N L R V

/-- Function `rasterizeTriangle` of `Q1.cpp`: one colour for the whole
triangle. -/
def rasterizeTriangle (m : CMath F) (v0 v1 v2 color : Vec3 F) (b : Buffers F) :
    Buffers F :=
  rasterizeScreen m (fun _ _ _ => color)
    (applyTransform v0) (applyTransform v1) (applyTransform v2) b

/-- Function `render` of `Q1.cpp`. -/
def render (m : CMath F) (mesh : Mesh F) (b : Buffers F) : Buffers F :=
  mesh.indices.foldl
    (fun b tri =>
      let v0 := vertexAt mesh.vertices tri.1
      let v1 := vertexAt mesh.vertices tri.2.1
      let v2 := vertexAt mesh.vertices tri.2.2
      let color := computeFlatColor m v0 v1 v2
      rasterizeTriangle m v0 v1 v2 color b)
    (clearBuffers b)

end Q1

namespace Q2

/-- The globals `vertices`, `vertexNormals` and `indices` of `Q2.cpp` and
`Q3.cpp`. -/
structure Mesh (F : Type) where
  vertices : List (Vec3 F)
  vertexNormals : List (Vec3 F)
  indices : List (ℤ × ℤ × ℤ)

/-- The statement `vertexNormals[i] += normal` for an `int` index (nothing
changes for an index outside the vector, where the program's access is
undefined). -/
def addNormal (vn : List (Vec3 F)) (i : ℤ) (normal : Vec3 F) : List (Vec3 F) :=
  if i < 0 then vn else vn.set i.toNat ((vertexAt vn i).add normal)

/-- Function `createSphere` of `Q2.cpp` (and, word for word, of `Q3.cpp`); it
clears the three globals first, so it takes no mesh. -/
def createSphere (m : CMath F) (width height : ℤ) : Mesh F :=
  let radius : F := 2
  let start : List (Vec3 F) × List (Vec3 F) := ([], [])
  let vn := (loopLt 1 (height - 1)).foldl
    (fun vn (j : ℤ) =>
      let theta := m.M_PI * (j : F) / ((height : F) - 1)
      (loopLt 0 width).foldl
        (fun vn (i : ℤ) =>
          let phi := 2 * m.M_PI * (i : F) / (width : F)
          let x := radius * m.sinf theta * m.cosf phi
          let y := radius * m.cosf theta
          let z := radius * m.sinf theta * m.sinf phi
          (vn.1 ++ [⟨x, y, z - 7⟩], vn.2 ++ [⟨0, 0, 0⟩]))
        vn)
    start
  let vertices := (vn.1 ++ [⟨0, radius, -7⟩]) ++ [⟨0, -radius, -7⟩]
  let vertexNormals := (vn.2 ++ [⟨0, 0, 0⟩]) ++ [⟨0, 0, 0⟩]
  let top : ℤ := (vertices.length : ℤ) - 2
  let bottom : ℤ := (vertices.length : ℤ) - 1
  let indices := sphereIndices width height top bottom []
  let vertexNormals := indices.foldl
    (fun vns tri =>
      let v0 := vertexAt vertices tri.1
      let v1 := vertexAt vertices tri.2.1
      let v2 := vertexAt vertices tri.2.2
      let normal := ((v1.sub v0).cross (v2.sub v0)).normalize m
      addNormal (addNormal (addNormal vns tri.1 normal) tri.2.1 normal) tri.2.2 normal)
    vertexNormals
  { vertices := vertices
    vertexNormals := vertexNormals.map (fun n => n.normalize m)
    indices := indices }

/-- Function `computeLighting` of `Q2.cpp`. -/
def computeLighting (m : CMath F) (pos normal : Vec3 F) : Vec3 F :=
  let N := normal.normalize m
  let light : Vec3 F := ⟨-4, 4, -3⟩
  let rotatedLight : Vec3 F := ⟨-light.x, -light.y, light.z⟩
  let L := (rotatedLight.sub pos).normalize m
  let V := ((⟨0, 0, 0⟩ : Vec3 F).sub pos).normalize m
  let R := (N.scale (2 * N.dot L)).sub L
  phongSum m N L R V

/-- Function `rasterizeTriangle` of `Q2.cpp`: the three vertex colours are
interpolated with the barycentric weights. -/
def rasterizeTriangle (m : CMath F) (v0 c0 v1 c1 v2 c2 : Vec3 F) (b : Buffers F) :
    Buffers F :=
  rasterizeScreen m (fun w0 w1 w2 => ((c0.scale w0).add (c1.scale w1)).add (c2.scale w2))
    (applyTransform v0) (applyTransform v1) (applyTransform v2) b

/-- Function `render` of `Q2.cpp`. -/
def render (m : CMath F) (mesh : Mesh F) (b : Buffers F) : Buffers F :=
  mesh.indices.foldl
    (fun b tri =>
      let v0 := vertexAt mesh.vertices tri.1
      let v1 := vertexAt mesh.vertices tri.2.1
      let v2 := vertexAt mesh.vertices tri.2.2
      let c0 := computeLighting m v0 (vertexAt mesh.vertexNormals tri.1)
      let c1 := computeLighting m v1 (vertexAt mesh.vertexNormals tri.2.1)
      let c2 := computeLighting m v2 (vertexAt mesh.vertexNormals tri.2.2)
      rasterizeTriangle m v0 c0 v1 c1 v2 c2 b)
    (clearBuffers b)

end Q2

namespace Q3

/-- Function `computeLighting` of `Q3.cpp`: as in `Q2.cpp`, with the
reflection vector normalized. -/
def computeLighting (m : CMath F) (pos normal : Vec3 F) : Vec3 F :=
  let N := normal.normalize m
  let light : Vec3 F := ⟨-4, 4, -3⟩
  let L := (⟨-light.x, -light.y, light.z⟩ : Vec3 F).sub pos
  let L := L.normalize m
  let V := ((⟨0, 0, 0⟩ : Vec3 F).sub pos).normalize m
  let R := ((N.scale (2 * N.dot L)).sub L).normalize m
  phongSum m N L R V

/-- Function `rasterizePhong`: position and normal are interpolated with the
barycentric weights and lit per pixel. -/
def rasterizePhong (m : CMath F) (v0_scr n0 v1_scr n1 v2_scr n2 v0_cam v1_cam v2_cam : Vec3 F)
    (b : Buffers F) : Buffers F :=
  rasterizeScreen m
    (fun w0 w1 w2 =>
      let interpPos := ((v0_cam.scale w0).add (v1_cam.scale w1)).add (v2_cam.scale w2)
      let interpNormal := (((n0.scale w0).add (n1.scale w1)).add (n2.scale w2)).normalize m
      computeLighting m interpPos interpNormal)
    v0_scr v1_scr v2_scr b

/-- Function `render` of `Q3.cpp`. -/
def render (m : CMath F) (mesh : Q2.Mesh F) (b : Buffers F) : Buffers F :=
  mesh.indices.foldl
    (fun b tri =>
      let v0 := vertexAt mesh.vertices tri.1
      let v1 := vertexAt mesh.vertices tri.2.1
      let v2 := vertexAt mesh.vertices tri.2.2
      let n0 := vertexAt mesh.vertexNormals tri.1
      let n1 := vertexAt mesh.vertexNormals tri.2.1
      let n2 := vertexAt mesh.vertexNormals tri.2.2
      rasterizePhong m (applyTransform v0) n0 (applyTransform v1) n1 (applyTransform v2) n2
        v0 v1 v2 b)
    (clearBuffers b)

end Q3

/-! ## Notions used to state the properties -/

/-- The colour bytes and the depth stored for the pixel of row `r` and
column `c`. -/
def Buffers.cell (b : Buffers F) (r : Fin HEIGHT) (c : Fin WIDTH) : (ℕ × ℕ × ℕ) × WithTop F :=
  (b.framebuffer r c, b.zbuffer r c)

/-- What one visit of the pixel loop does to the cell of the visited pixel
`(x, y)`: when the inside test passes and the interpolated depth is strictly
below the stored one, the cell takes the encoded colour and that depth. -/
def stepCell (m : CMath F) (shade : F → F → F → Vec3 F) (v0 v1 v2 : Vec3 F) (x y : ℤ)
    (old : (ℕ × ℕ × ℕ) × WithTop F) : (ℕ × ℕ × ℕ) × WithTop F :=
  if baryInside v0 v1 v2 x y = true ∧ ((interpDepth v0 v1 v2 x y : F) : WithTop F) < old.2 then
    (encodeColor m (shade (baryW0 v0 v1 v2 x y).val (baryW1 v0 v1 v2 x y).val
      (baryW2 v0 v1 v2 x y).val), ((interpDepth v0 v1 v2 x y : F) : WithTop F))
  else old

/-- The pixel `(x, y)` is a candidate of the screen-space triangle: it lies in
the clamped bounding box the two loops run over. -/
def inBox (v0 v1 v2 : Vec3 F) (x y : ℤ) : Prop :=
  boxMinX v0 v1 v2 ≤ x ∧ x ≤ boxMaxX v0 v1 v2 ∧ boxMinY v0 v1 v2 ≤ y ∧ y ≤ boxMaxY v0 v1 v2

instance inBox.decidable (v0 v1 v2 : Vec3 F) (x y : ℤ) : Decidable (inBox v0 v1 v2 x y) := by
  unfold inBox
  infer_instance

/-- The screen-space triangle covers the pixel `(x, y)`: the pixel is a
candidate and passes the inside test. -/
def covers (v0 v1 v2 : Vec3 F) (x y : ℤ) : Prop :=
  inBox v0 v1 v2 x y ∧ baryInside v0 v1 v2 x y = true

instance covers.decidable (v0 v1 v2 : Vec3 F) (x y : ℤ) : Decidable (covers v0 v1 v2 x y) := by
  unfold covers
  infer_instance

/-- The point `(px, py)` lies in the closed triangle with corners `v0`, `v1`,
`v2` (screen x and y): it is a convex combination of the corners. -/
def inClosedTriangle (v0 v1 v2 : Vec3 F) (px py : F) : Prop :=
  ∃ a b c : F, 0 ≤ a ∧ 0 ≤ b ∧ 0 ≤ c ∧ a + b + c = 1 ∧
    a * v0.x + b * v1.x + c * v2.x = px ∧ a * v0.y + b * v1.y + c * v2.y = py

/-- The camera-space triangle covers the pixel `(x, y)` once projected. -/
def triCovers (v0 v1 v2 : Vec3 F) (x y : ℤ) : Prop :=
  covers (applyTransform v0) (applyTransform v1) (applyTransform v2) x y

instance triCovers.decidable (v0 v1 v2 : Vec3 F) (x y : ℤ) :
    Decidable (triCovers v0 v1 v2 x y) := by
  unfold triCovers
  infer_instance

/-- The interpolated depth of the projected camera-space triangle at the
pixel `(x, y)`. -/
def triDepth (v0 v1 v2 : Vec3 F) (x y : ℤ) : F :=
  interpDepth (applyTransform v0) (applyTransform v1) (applyTransform v2) x y

/-- The unit face normal the normal loop of `createSphere` computes for the
index triple `tri`. -/
def faceNormal (m : CMath F) (vertices : List (Vec3 F)) (tri : ℤ × ℤ × ℤ) : Vec3 F :=
  (((vertexAt vertices tri.2.1).sub (vertexAt vertices tri.1)).cross
    ((vertexAt vertices tri.2.2).sub (vertexAt vertices tri.1))).normalize m

/-- What the normal loop of `createSphere` does to the entry `k` of
`vertexNormals`, starting from the value `v`: each triple adds its face normal
once for every position at which it names `k`. -/
def accumAt (m : CMath F) (vertices : List (Vec3 F)) (k : ℤ) (tris : List (ℤ × ℤ × ℤ))
    (v : Vec3 F) : Vec3 F :=
  tris.foldl
    (fun v tri =>
      let v := if tri.1 = k then v.add (faceNormal m vertices tri) else v
      let v := if tri.2.1 = k then v.add (faceNormal m vertices tri) else v
      if tri.2.2 = k then v.add (faceNormal m vertices tri) else v)
    v

/-- The pixel `(x, y)` lies in the buffers without their outermost one-pixel
border, and between the floor of the smallest and the ceiling of the largest
screen coordinate of the triangle `s0 s1 s2`, in x and in y. -/
def insetBox (s0 s1 s2 : Vec3 F) (x y : ℤ) : Prop :=
  1 ≤ x ∧ x ≤ (WIDTH : ℤ) - 2 ∧ 1 ≤ y ∧ y ≤ (HEIGHT : ℤ) - 2 ∧
  ⌊min s0.x (min s1.x s2.x)⌋ ≤ x ∧ x ≤ ⌈max s0.x (max s1.x s2.x)⌉ ∧
  ⌊min s0.y (min s1.y s2.y)⌋ ≤ y ∧ y ≤ ⌈max s0.y (max s1.y s2.y)⌉

/-- The buffers `b2` differ from `b`, in colour or in depth, only at pixels
`(x, y)` that satisfy `P`. -/
def changesOnlyIn (P : ℤ → ℤ → Prop) (b b2 : Buffers F) : Prop :=
  ∀ (r : Fin HEIGHT) (c : Fin WIDTH), b2.cell r c ≠ b.cell r c → P (c.val : ℤ) (r.val : ℤ)

/-- The point lies on the sphere of radius 2 about `(0, 0, -7)`, in front of
the camera: its `z` is in `[-9, -5]` and the divisor `-z` is at least 5. -/
def onSphere (v : Vec3 F) : Prop :=
  v.x * v.x + v.y * v.y + (v.z + 7) * (v.z + 7) = 4 ∧ -9 ≤ v.z ∧ v.z ≤ -5 ∧ 5 ≤ -v.z

end Pipeline

/-! ## Edges of the mesh -/

/-- The three sides of a triangle, as pairs of its corners. -/
def triEdges {α : Type} (t : α × α × α) : List (α × α) :=
  [(t.1, t.2.1), (t.2.1, t.2.2), (t.2.2, t.1)]

/-- The pairs `e` and `e2` are the same undirected edge. -/
def sameEdge {α : Type} [DecidableEq α] (e e2 : α × α) : Bool :=
  decide ((e.1 = e2.1 ∧ e.2 = e2.2) ∨ (e.1 = e2.2 ∧ e.2 = e2.1))

/-- The number of triangles of the list that have the undirected edge `e` as
one of their sides. -/
def edgeCount {α : Type} [DecidableEq α] (ts : List (α × α × α)) (e : α × α) : ℕ :=
  ts.countP (fun t => (triEdges t).any (sameEdge e))

/-- The index `j * w + i` of the vertex with ring `j` and segment `i`. -/
def ringIndex (w : ℤ) (p : ℤ × ℤ) : ℤ := p.1 * w + p.2

/-- A triangle given by ring and segment of its corners, as an index triple. -/
def indexTriple (w : ℤ) (t : (ℤ × ℤ) × (ℤ × ℤ) × (ℤ × ℤ)) : ℤ × ℤ × ℤ :=
  (ringIndex w t.1, ringIndex w t.2.1, ringIndex w t.2.2)

/-- The labels of the triangles in the order `createSphere` pushes them: `(0, 0, i)`
and `(1, 0, i)` for the two fan triangles of segment `i`, then `(2, j, i)` and
`(3, j, i)` for the two triangles of the quad of ring `j` and segment `i`. -/
def triLabels (w h : ℤ) : List (ℤ × ℤ × ℤ) :=
  (loopLt 0 w).flatMap (fun (i : ℤ) => [(0, 0, i), (1, 0, i)]) ++
  (loopLt 0 (h - 3)).flatMap (fun (j : ℤ) => (loopLt 0 w).flatMap
    (fun (i : ℤ) => [(2, j, i), (3, j, i)]))

/-- The corners of the triangle with a given label, by ring and segment; the two
poles count as segments 0 and 1 of the ring `h - 2`. -/
def triCorners (w h : ℤ) (x : ℤ × ℤ × ℤ) : (ℤ × ℤ) × (ℤ × ℤ) × (ℤ × ℤ) :=
  let j := x.2.1
  let i := x.2.2
  let next := (i + 1).tmod w
  if x.1 = 0 then ((h - 2, 0), (0, i), (0, next))
  else if x.1 = 1 then ((h - 2, 1), (h - 3, next), (h - 3, i))
  else if x.1 = 2 then ((j, i), (j + 1, next), (j + 1, i))
  else ((j, i), (j, next), (j + 1, next))

/-- The label of the other triangle at side `k` (0, 1 or 2, in the order of
`triEdges`) of the triangle with label `x`. -/
def edgeMate (w h : ℤ) (x : ℤ × ℤ × ℤ) (k : ℕ) : ℤ × ℤ × ℤ :=
  let j := x.2.1
  let i := x.2.2
  let next := (i + 1).tmod w
  let prev := if i = 0 then w - 1 else i - 1
  if x.1 = 0 then
    (if k = 0 then (0, 0, prev)
     else if k = 1 then (if h = 3 then 1 else 3, 0, i)
     else (0, 0, next))
  else if x.1 = 1 then
    (if k = 0 then (1, 0, next)
     else if k = 1 then (if h = 3 then 0 else 2, if h = 3 then 0 else h - 4, i)
     else (1, 0, prev))
  else if x.1 = 2 then
    (if k = 0 then (3, j, i)
     else if k = 1 then (if j + 1 = h - 3 then 1 else 3, if j + 1 = h - 3 then 0 else j + 1, i)
     else (3, j, prev))
  else
    (if k = 0 then (if j = 0 then 0 else 2, if j = 0 then 0 else j - 1, i)
     else if k = 1 then (2, j, next)
     else (2, j, i))

/-- The number of triangles of the list that have the directed edge `e` as one
of their sides, in the order of their corners. -/
def dirEdgeCount {α : Type} [DecidableEq α] (ts : List (α × α × α)) (e : α × α) : ℕ :=
  ts.countP (fun t => decide (e ∈ triEdges t))

/-! ## The pixel loops with the arithmetic left open -/

/-- The body of the pixel loop of the three rasterizers with its arithmetic
left open: `inside` is the outcome of the test `w0 >= 0 && w1 >= 0 && w2 >= 0`
the program computes at the pixel `(x, y)`, `z` the interpolated depth it
computes there and `colour` the colour it passes to `setPixel`, whatever the
rounding of the operations that produce them. -/
def pixelStepOf {F : Type} [LinearOrderedField F] [FloorRing F] (m : CMath F) (inside : Bool)
    (z : F) (colour : Vec3 F) (b : Buffers F) (x y : ℤ) : Buffers F :=
  if inside then
    match b.zbuffer.get? y x with
    | some d =>
      if (z : WithTop F) < d then
        { zbuffer := b.zbuffer.set y x (z : WithTop F)
          framebuffer := setPixel m b.framebuffer x y colour }
      else b
    | none => b
  else b

/-- The two nested pixel loops `for y = minY..maxY`, `for x = minX..maxX` of the
three rasterizers with their arithmetic left open: `inside x y`, `depth x y` and
`colour x y` are the values the program computes at the pixel `(x, y)`. -/
def rasterizeOf {F : Type} [LinearOrderedField F] [FloorRing F] (m : CMath F)
    (inside : ℤ → ℤ → Bool) (depth : ℤ → ℤ → F) (colour : ℤ → ℤ → Vec3 F)
    (minX maxX minY maxY : ℤ) (b : Buffers F) : Buffers F :=
  (loopLe minY maxY).foldl
    (fun b y => (loopLe minX maxX).foldl
      (fun b x => pixelStepOf m (inside x y) (depth x y) (colour x y) b x y) b) b

/-- What one visit of the pixel loop does to the cell of the visited pixel, in
terms of the computed values of `pixelStepOf`. -/
def stepCellOf {F : Type} [LinearOrderedField F] [FloorRing F] (m : CMath F) (inside : Bool)
    (z : F) (colour : Vec3 F) (old : (ℕ × ℕ × ℕ) × WithTop F) : (ℕ × ℕ × ℕ) × WithTop F :=
  if inside = true ∧ (z : WithTop F) < old.2 then (encodeColor m colour, (z : WithTop F))
  else old

/-- The value is a finite number. -/
def Ieee.isFin {F : Type} : Ieee F → Bool
  | Ieee.fin _ => true
  | _ => false

/-- The inside test `w0 >= 0 && w1 >= 0 && w2 >= 0` on three computed weights. -/
def insideTest {F : Type} [LinearOrderedField F] (w0 w1 w2 : Ieee F) : Bool :=
  w0.ge0 && w1.ge0 && w2.ge0

/-! ## Binary32 arithmetic -/

/-- A finite binary floating-point value `m * 2 ^ e`, used to evaluate the
program in binary32 arithmetic (the type `float`): every operation below
returns the exact result rounded to 24 significant binary digits, to nearest,
ties to even.  The exponent range is not bounded (no overflow or underflow
occurs in the values computed below) and zero has no sign. -/
structure Bin where
  m : ℤ
  e : ℤ

namespace Bin

/-- The number of binary digits of `n` (for `n` below `2 ^ fuel`). -/
def bitLen : ℕ → ℕ → ℕ
  | 0, _ => 0
  | fuel + 1, n => if n = 0 then 0 else bitLen fuel (n / 2) + 1

/-- Rounding to 24 significant binary digits, to nearest, ties to even. -/
def round (a : Bin) : Bin :=
  let n := a.m.natAbs
  let s := bitLen 200 n - 24
  if s = 0 then a
  else
    let q := n / 2 ^ s
    let r := n % 2 ^ s
    let half := 2 ^ (s - 1)
    let q := if r < half then q else if half < r then q + 1 else if q % 2 = 0 then q else q + 1
    ⟨(if a.m < 0 then -(q : ℤ) else (q : ℤ)), a.e + (s : ℤ)⟩

/-- The mantissa of `a` at the exponent `e`, for `e` at most the exponent of `a`. -/
def mantAt (a : Bin) (e : ℤ) : ℤ := a.m * 2 ^ (a.e - e).toNat

/-- The value `-a`. -/
def neg (a : Bin) : Bin := ⟨-a.m, a.e⟩

/-- The `float` sum `a + b`. -/
def add (a b : Bin) : Bin :=
  round ⟨mantAt a (min a.e b.e) + mantAt b (min a.e b.e), min a.e b.e⟩

/-- The `float` difference `a - b`. -/
def sub (a b : Bin) : Bin :=
  round ⟨mantAt a (min a.e b.e) - mantAt b (min a.e b.e), min a.e b.e⟩

/-- The `float` product `a * b`. -/
def mul (a b : Bin) : Bin := round ⟨a.m * b.m, a.e + b.e⟩

/-- The `float` quotient `a / b` for a non-zero `b`: the quotient of the
mantissas is taken to 60 more binary digits, with one more digit that records
whether the division left a remainder, and rounded. -/
def div (a b : Bin) : Bin :=
  let n := a.m.natAbs * 2 ^ 60
  let d := b.m.natAbs
  let q := 2 * (n / d) + (if n % d = 0 then 0 else 1)
  round ⟨(if (a.m < 0) = (b.m < 0) then (q : ℤ) else -(q : ℤ)), a.e - b.e - 61⟩

/-- The comparison `a <= b`. -/
def le (a b : Bin) : Bool := decide (mantAt a (min a.e b.e) ≤ mantAt b (min a.e b.e))

/-- Library function `std::min` on two values. -/
def min2 (a b : Bin) : Bin := if le b a then b else a

/-- Library function `std::max` on two values. -/
def max2 (a b : Bin) : Bin := if le a b then b else a

/-- The conversion `(int)std::floor(a)`. -/
def floor (a : Bin) : ℤ := if 0 ≤ a.e then a.m * 2 ^ a.e.toNat else a.m / 2 ^ (-a.e).toNat

/-- The conversion `(int)std::ceil(a)`. -/
def ceil (a : Bin) : ℤ := -floor (neg a)

/-- The conversion of an `int` to `float` (exact for the integers used). -/
def ofInt (n : ℤ) : Bin := ⟨n, 0⟩

/-- The rational number `m * 2 ^ e`. -/
def toRat (a : Bin) : ℚ := (a.m : ℚ) * (2 : ℚ) ^ a.e

end Bin

/-- A `Vec3` of binary32 values. -/
structure BVec where
  x : Bin
  y : Bin
  z : Bin

/-- Function `applyTransform` in binary32 arithmetic, operation by operation. -/
def applyTransform32 (v : BVec) : BVec :=
  let l : Bin := Bin.neg (Bin.div (Bin.ofInt 1) (Bin.ofInt 10))
  let r : Bin := Bin.div (Bin.ofInt 1) (Bin.ofInt 10)
  let b : Bin := Bin.neg (Bin.div (Bin.ofInt 1) (Bin.ofInt 10))
  let t : Bin := Bin.div (Bin.ofInt 1) (Bin.ofInt 10)
  let n : Bin := Bin.neg (Bin.div (Bin.ofInt 1) (Bin.ofInt 10))
  let f : Bin := Bin.ofInt (-1000)
  let x := Bin.div (Bin.mul (Bin.mul (Bin.ofInt 2) n) v.x) (Bin.sub r l)
  let y := Bin.div (Bin.mul (Bin.mul (Bin.ofInt 2) n) v.y) (Bin.sub t b)
  let z := Bin.add (Bin.mul (Bin.div (Bin.add f n) (Bin.sub f n)) v.z)
    (Bin.div (Bin.mul (Bin.mul (Bin.ofInt 2) f) n) (Bin.sub f n))
  let w := Bin.neg v.z
  let x := Bin.div x w
  let y := Bin.div y w
  let z := Bin.div z w
  ⟨Bin.mul (Bin.mul (Bin.add x (Bin.ofInt 1)) ⟨1, -1⟩) (Bin.ofInt WIDTH),
    Bin.mul (Bin.mul (Bin.add y (Bin.ofInt 1)) ⟨1, -1⟩) (Bin.ofInt HEIGHT), z⟩

/-- Local `denom` of the pixel loop in binary32 arithmetic. -/
def baryDenom32 (v0 v1 v2 : BVec) : Bin :=
  Bin.add (Bin.mul (Bin.sub v1.y v2.y) (Bin.sub v0.x v2.x))
    (Bin.mul (Bin.sub v2.x v1.x) (Bin.sub v0.y v2.y))

/-- The weight `w0` at pixel `(x, y)` in binary32 arithmetic, for a non-zero
`denom`. -/
def baryW0_32 (v0 v1 v2 : BVec) (x y : ℤ) : Bin :=
  Bin.div (Bin.add (Bin.mul (Bin.sub v1.y v2.y) (Bin.sub (Bin.ofInt x) v2.x))
    (Bin.mul (Bin.sub v2.x v1.x) (Bin.sub (Bin.ofInt y) v2.y))) (baryDenom32 v0 v1 v2)

/-- The weight `w1` at pixel `(x, y)` in binary32 arithmetic, for a non-zero
`denom`. -/
def baryW1_32 (v0 v1 v2 : BVec) (x y : ℤ) : Bin :=
  Bin.div (Bin.add (Bin.mul (Bin.sub v2.y v0.y) (Bin.sub (Bin.ofInt x) v2.x))
    (Bin.mul (Bin.sub v0.x v2.x) (Bin.sub (Bin.ofInt y) v2.y))) (baryDenom32 v0 v1 v2)

/-- The weight `w2 = 1.0f - w0 - w1` in binary32 arithmetic. -/
def baryW2_32 (v0 v1 v2 : BVec) (x y : ℤ) : Bin :=
  Bin.sub (Bin.sub (Bin.ofInt 1) (baryW0_32 v0 v1 v2 x y)) (baryW1_32 v0 v1 v2 x y)

/-- The inside test `w0 >= 0 && w1 >= 0 && w2 >= 0` in binary32 arithmetic.  With
a zero `denom` the weights are infinities or not-a-number and the test fails
(see `insideTest_of_not_finite`). -/
def baryInside32 (v0 v1 v2 : BVec) (x y : ℤ) : Bool :=
  if (baryDenom32 v0 v1 v2).m = 0 then false
  else decide (0 ≤ (baryW0_32 v0 v1 v2 x y).m) && decide (0 ≤ (baryW1_32 v0 v1 v2 x y).m)
    && decide (0 ≤ (baryW2_32 v0 v1 v2 x y).m)

/-- The interpolated depth `z = w0 * v0.z + w1 * v1.z + w2 * v2.z` in binary32
arithmetic. -/
def interpDepth32 (v0 v1 v2 : BVec) (x y : ℤ) : Bin :=
  Bin.add (Bin.add (Bin.mul (baryW0_32 v0 v1 v2 x y) v0.z) (Bin.mul (baryW1_32 v0 v1 v2 x y) v1.z))
    (Bin.mul (baryW2_32 v0 v1 v2 x y) v2.z)

/-- Function `rasterizeTriangle` of `Q1.cpp` in binary32 arithmetic: the
projection, the loop bounds, the inside test and the depth are computed with
rounded operations; the two loops are those of `rasterizeOf`. -/
def Q1.rasterizeTriangle32 (m : CMath ℚ) (v0 v1 v2 : BVec) (color : Vec3 ℚ) (b : Buffers ℚ) :
    Buffers ℚ :=
  rasterizeOf m
    (fun x y => baryInside32 (applyTransform32 v0) (applyTransform32 v1) (applyTransform32 v2) x y)
    (fun x y => (interpDepth32 (applyTransform32 v0) (applyTransform32 v1)
      (applyTransform32 v2) x y).toRat)
    (fun _ _ => color)
    (max 1 (Bin.floor (Bin.min2 (applyTransform32 v0).x
      (Bin.min2 (applyTransform32 v1).x (applyTransform32 v2).x))))
    (min ((WIDTH : ℤ) - 2) (Bin.ceil (Bin.max2 (applyTransform32 v0).x
      (Bin.max2 (applyTransform32 v1).x (applyTransform32 v2).x))))
    (max 1 (Bin.floor (Bin.min2 (applyTransform32 v0).y
      (Bin.min2 (applyTransform32 v1).y (applyTransform32 v2).y))))
    (min ((HEIGHT : ℤ) - 2) (Bin.ceil (Bin.max2 (applyTransform32 v0).y
      (Bin.max2 (applyTransform32 v1).y (applyTransform32 v2).y))))
    b

/-! # Theorems -/

section Theorems

variable {F : Type} [LinearOrderedField F] [FloorRing F]

/-! ## Loops and cells -/

theorem Buffers.ext_cell {b1 b2 : Buffers F} (h : ∀ r c, b1.cell r c = b2.cell r c) : b1 = b2 := by
  cases b1 with
  | mk f1 z1 =>
    cases b2 with
    | mk f2 z2 =>
      have hf : f1 = f2 := by
        funext r c
        exact congrArg Prod.fst (h r c)
      have hz : z1 = z2 := by
        funext r c
        exact congrArg Prod.snd (h r c)
      rw [hf, hz]

theorem mem_loopLt (lo hi x : ℤ) : x ∈ loopLt lo hi ↔ lo ≤ x ∧ x < hi := by
  unfold loopLt
  simp only [List.mem_map, List.mem_range]
  constructor
  · rintro ⟨k, hk, rfl⟩
    omega
  · rintro ⟨h1, h2⟩
    exact ⟨(x - lo).toNat, by omega, by omega⟩

theorem nodup_loopLt (lo hi : ℤ) : (loopLt lo hi).Nodup := by
  unfold loopLt
  apply List.Nodup.map _ (List.nodup_range _)
  intro a b h
  simpa using h

theorem mem_loopLe (lo hi x : ℤ) : x ∈ loopLe lo hi ↔ lo ≤ x ∧ x ≤ hi := by
  unfold loopLe
  rw [mem_loopLt]
  omega

theorem nodup_loopLe (lo hi : ℤ) : (loopLe lo hi).Nodup := nodup_loopLt _ _

theorem foldl_row_cell (step : Buffers F → ℤ → ℤ → Buffers F)
    (upd : ℤ → ℤ → (ℕ × ℕ × ℕ) × WithTop F → (ℕ × ℕ × ℕ) × WithTop F)
    (H : ∀ b x y r c, (step b x y).cell r c =
      if (r.val : ℤ) = y ∧ (c.val : ℤ) = x then upd x y (b.cell r c) else b.cell r c)
    (y : ℤ) (xs : List ℤ) (hxs : xs.Nodup) (b : Buffers F) (r : Fin HEIGHT) (c : Fin WIDTH) :
    (xs.foldl (fun b x => step b x y) b).cell r c =
      if (r.val : ℤ) = y ∧ (c.val : ℤ) ∈ xs then upd c y (b.cell r c) else b.cell r c := by
  induction xs generalizing b with
  | nil => simp
  | cons x xs ih =>
    rw [List.nodup_cons] at hxs
    rw [List.foldl_cons, ih hxs.2, H]
    by_cases hy : (r.val : ℤ) = y
    · by_cases hx : (c.val : ℤ) = x
      · subst hy
        subst hx
        simp [hxs.1]
      · by_cases hm : (c.val : ℤ) ∈ xs
        · simp [hy, hx, hm]
        · simp [hy, hx, hm]
    · simp [hy]

theorem foldl_grid_cell (step : Buffers F → ℤ → ℤ → Buffers F)
    (upd : ℤ → ℤ → (ℕ × ℕ × ℕ) × WithTop F → (ℕ × ℕ × ℕ) × WithTop F)
    (H : ∀ b x y r c, (step b x y).cell r c =
      if (r.val : ℤ) = y ∧ (c.val : ℤ) = x then upd x y (b.cell r c) else b.cell r c)
    (ys xs : List ℤ) (hys : ys.Nodup) (hxs : xs.Nodup) (b : Buffers F)
    (r : Fin HEIGHT) (c : Fin WIDTH) :
    (ys.foldl (fun b y => xs.foldl (fun b x => step b x y) b) b).cell r c =
      if (r.val : ℤ) ∈ ys ∧ (c.val : ℤ) ∈ xs then upd c r (b.cell r c) else b.cell r c := by
  induction ys generalizing b with
  | nil => simp
  | cons y ys ih =>
    rw [List.nodup_cons] at hys
    rw [List.foldl_cons, ih hys.2, foldl_row_cell step upd H y xs hxs]
    by_cases hy : (r.val : ℤ) = y
    · subst hy
      by_cases hm : (c.val : ℤ) ∈ xs
      · simp [hm, hys.1]
      · simp [hm]
    · by_cases hm : (r.val : ℤ) ∈ ys
      · simp [hy, hm]
      · simp [hy, hm]


theorem Grid.get?_coe {α : Type} (g : Grid α) (r : Fin HEIGHT) (c : Fin WIDTH) :
    g.get? (r.val : ℤ) (c.val : ℤ) = some (g r c) := by
  unfold Grid.get?
  have hr := r.isLt
  have hc := c.isLt
  rw [dif_pos ⟨by omega, by omega, by omega, by omega⟩]
  simp

theorem setPixel_coe (m : CMath F) (fb : Grid (ℕ × ℕ × ℕ)) (r : Fin HEIGHT) (c : Fin WIDTH)
    (color : Vec3 F) :
    setPixel m fb (c.val : ℤ) (r.val : ℤ) color = fb.set r c (encodeColor m color) := by
  unfold setPixel
  have hr := r.isLt
  have hc := c.isLt
  rw [if_neg]
  omega

theorem pixelStep_cell (m : CMath F) (shade : F → F → F → Vec3 F) (v0 v1 v2 : Vec3 F)
    (b : Buffers F) (x y : ℤ) (r : Fin HEIGHT) (c : Fin WIDTH) :
    (pixelStep m shade v0 v1 v2 b x y).cell r c =
      if (r.val : ℤ) = y ∧ (c.val : ℤ) = x then stepCell m shade v0 v1 v2 x y (b.cell r c)
      else b.cell r c := by
  by_cases hrc : (r.val : ℤ) = y ∧ (c.val : ℤ) = x
  · obtain ⟨hy, hx⟩ := hrc
    subst hy
    subst hx
    simp only [and_self, if_true]
    unfold pixelStep stepCell
    by_cases hin : baryInside v0 v1 v2 (c.val : ℤ) (r.val : ℤ) = true
    · rw [if_pos hin, Grid.get?_coe, setPixel_coe]
      by_cases hz : ((interpDepth v0 v1 v2 (c.val : ℤ) (r.val : ℤ) : F) : WithTop F) < b.zbuffer r c
      · simp [Buffers.cell, hz, hin, Grid.set]
      · simp [Buffers.cell, hz, hin]
    · simp [hin]
  · rw [if_neg hrc]
    unfold pixelStep
    by_cases hin : baryInside v0 v1 v2 x y = true
    · simp only [hin, if_true]
      cases hg : b.zbuffer.get? y x with
      | none => rfl
      | some d =>
        simp only
        by_cases hz : ((interpDepth v0 v1 v2 x y : F) : WithTop F) < d
        · simp only [hz, if_true]
          have hs : setPixel m b.framebuffer x y
              (shade (baryW0 v0 v1 v2 x y).val (baryW1 v0 v1 v2 x y).val
                (baryW2 v0 v1 v2 x y).val) r c = b.framebuffer r c := by
            unfold setPixel
            split
            · rfl
            · simp [Grid.set, hrc]
          simp [Buffers.cell, Grid.set, hrc, hs]
        · simp [hz]
    · simp [hin]

theorem rasterizeScreen_cell (m : CMath F) (shade : F → F → F → Vec3 F) (v0 v1 v2 : Vec3 F)
    (b : Buffers F) (r : Fin HEIGHT) (c : Fin WIDTH) :
    (rasterizeScreen m shade v0 v1 v2 b).cell r c =
      if inBox v0 v1 v2 (c.val : ℤ) (r.val : ℤ)
      then stepCell m shade v0 v1 v2 (c.val : ℤ) (r.val : ℤ) (b.cell r c)
      else b.cell r c := by
  unfold rasterizeScreen
  rw [foldl_grid_cell (fun b x y => pixelStep m shade v0 v1 v2 b x y)
    (fun x y old => stepCell m shade v0 v1 v2 x y old)
    (fun b x y r c => pixelStep_cell m shade v0 v1 v2 b x y r c) _ _
    (nodup_loopLe _ _) (nodup_loopLe _ _)]
  simp only [mem_loopLe, inBox]
  by_cases h : boxMinX v0 v1 v2 ≤ (c.val : ℤ) ∧ (c.val : ℤ) ≤ boxMaxX v0 v1 v2 ∧
      boxMinY v0 v1 v2 ≤ (r.val : ℤ) ∧ (r.val : ℤ) ≤ boxMaxY v0 v1 v2
  · rw [if_pos h, if_pos ⟨⟨h.2.2.1, h.2.2.2⟩, ⟨h.1, h.2.1⟩⟩]
  · rw [if_neg h, if_neg (fun h2 => h ⟨h2.2.1, h2.2.2, h2.1.1, h2.1.2⟩)]

theorem clearBuffers_cell (b : Buffers F) (r : Fin HEIGHT) (c : Fin WIDTH) :
    (clearBuffers b).cell r c = ((0, 0, 0), ⊤) := by
  unfold clearBuffers
  rw [foldl_grid_cell
    (fun (b : Buffers F) x y => { framebuffer := b.framebuffer.set y x (0, 0, 0)
                                  zbuffer := b.zbuffer.set y x ⊤ })
    (fun _ _ _ => ((0, 0, 0), ⊤)) _ _ _ (nodup_loopLt _ _) (nodup_loopLt _ _)]
  · have hr := r.isLt
    have hc := c.isLt
    rw [if_pos]
    simp only [mem_loopLt]
    omega
  · intro b x y r c
    by_cases h : (r.val : ℤ) = y ∧ (c.val : ℤ) = x
    · simp [Buffers.cell, Grid.set, h]
    · simp [Buffers.cell, Grid.set, h]

/-! ## Barycentric weights -/

theorem baryInside_iff (v0 v1 v2 : Vec3 F) (x y : ℤ) :
    baryInside v0 v1 v2 x y = true ↔
      baryDenom v0 v1 v2 ≠ 0 ∧ 0 ≤ (baryW0 v0 v1 v2 x y).val ∧ 0 ≤ (baryW1 v0 v1 v2 x y).val ∧
        0 ≤ (baryW2 v0 v1 v2 x y).val := by
  unfold baryInside baryW2 baryW1 baryW0 Ieee.div
  by_cases hd : baryDenom v0 v1 v2 = 0
  · simp only [hd, if_true, ne_eq, not_true_eq_false, false_and, iff_false]
    split_ifs <;> simp [Ieee.sub, Ieee.ge0]
  · simp [hd, Ieee.sub, Ieee.ge0, Ieee.val, and_assoc]

/-- Claim C1.  For a screen-space triangle with non-zero barycentric
denominator and any pixel `(x, y)`, the three weights of the pixel loop are
finite numbers that sum to 1 and reproduce the pixel as the weighted sum of
the three vertices; and the pixel passes the inside test exactly when it lies
in the closed triangle. -/
theorem C1_barycentric_weights (v0 v1 v2 : Vec3 F) (x y : ℤ)
    (hd : baryDenom v0 v1 v2 ≠ 0) :
    ∃ w0 w1 w2 : F,
      baryW0 v0 v1 v2 x y = Ieee.fin w0 ∧ baryW1 v0 v1 v2 x y = Ieee.fin w1 ∧
      baryW2 v0 v1 v2 x y = Ieee.fin w2 ∧
      w0 + w1 + w2 = 1 ∧
      w0 * v0.x + w1 * v1.x + w2 * v2.x = (x : F) ∧
      w0 * v0.y + w1 * v1.y + w2 * v2.y = (y : F) ∧
      (baryInside v0 v1 v2 x y = true ↔ inClosedTriangle v0 v1 v2 (x : F) (y : F)) := by
  have h0 : baryW0 v0 v1 v2 x y = Ieee.fin
      (((v1.y - v2.y) * ((x : F) - v2.x) + (v2.x - v1.x) * ((y : F) - v2.y))
        / baryDenom v0 v1 v2) := by
    simp [baryW0, Ieee.div, hd]
  have h1 : baryW1 v0 v1 v2 x y = Ieee.fin
      (((v2.y - v0.y) * ((x : F) - v2.x) + (v0.x - v2.x) * ((y : F) - v2.y))
        / baryDenom v0 v1 v2) := by
    simp [baryW1, Ieee.div, hd]
  have h2 : baryW2 v0 v1 v2 x y = Ieee.fin
      (1 - ((v1.y - v2.y) * ((x : F) - v2.x) + (v2.x - v1.x) * ((y : F) - v2.y))
          / baryDenom v0 v1 v2
        - ((v2.y - v0.y) * ((x : F) - v2.x) + (v0.x - v2.x) * ((y : F) - v2.y))
          / baryDenom v0 v1 v2) := by
    simp [baryW2, h0, h1, Ieee.sub]
  have hx : ((v1.y - v2.y) * ((x : F) - v2.x) + (v2.x - v1.x) * ((y : F) - v2.y))
        / baryDenom v0 v1 v2 * v0.x
      + ((v2.y - v0.y) * ((x : F) - v2.x) + (v0.x - v2.x) * ((y : F) - v2.y))
        / baryDenom v0 v1 v2 * v1.x
      + (1 - ((v1.y - v2.y) * ((x : F) - v2.x) + (v2.x - v1.x) * ((y : F) - v2.y))
          / baryDenom v0 v1 v2
        - ((v2.y - v0.y) * ((x : F) - v2.x) + (v0.x - v2.x) * ((y : F) - v2.y))
          / baryDenom v0 v1 v2) * v2.x = (x : F) := by
    field_simp
    unfold baryDenom
    ring
  have hy : ((v1.y - v2.y) * ((x : F) - v2.x) + (v2.x - v1.x) * ((y : F) - v2.y))
        / baryDenom v0 v1 v2 * v0.y
      + ((v2.y - v0.y) * ((x : F) - v2.x) + (v0.x - v2.x) * ((y : F) - v2.y))
        / baryDenom v0 v1 v2 * v1.y
      + (1 - ((v1.y - v2.y) * ((x : F) - v2.x) + (v2.x - v1.x) * ((y : F) - v2.y))
          / baryDenom v0 v1 v2
        - ((v2.y - v0.y) * ((x : F) - v2.x) + (v0.x - v2.x) * ((y : F) - v2.y))
          / baryDenom v0 v1 v2) * v2.y = (y : F) := by
    field_simp
    unfold baryDenom
    ring
  refine ⟨_, _, _, h0, h1, h2, by ring, hx, hy, ?_⟩
  rw [baryInside_iff, h0, h1, h2]
  simp only [Ieee.val]
  constructor
  · rintro ⟨_, ha, hb, hc⟩
    exact ⟨_, _, _, ha, hb, hc, by ring, hx, hy⟩
  · rintro ⟨a, b, c, ha, hb, hc, hsum, hax, hay⟩
    have hc' : c = 1 - a - b := by linarith
    subst hc'
    have ea : ((v1.y - v2.y) * ((x : F) - v2.x) + (v2.x - v1.x) * ((y : F) - v2.y))
        / baryDenom v0 v1 v2 = a := by
      rw [div_eq_iff hd, ← hax, ← hay]
      unfold baryDenom
      ring
    have eb : ((v2.y - v0.y) * ((x : F) - v2.x) + (v0.x - v2.x) * ((y : F) - v2.y))
        / baryDenom v0 v1 v2 = b := by
      rw [div_eq_iff hd, ← hax, ← hay]
      unfold baryDenom
      ring
    rw [ea, eb]
    exact ⟨hd, ha, hb, hc⟩

/-- Claim C1, instance: the triangle `(0,0) (4,0) (0,4)` and the pixel `(1,1)`. -/
theorem C1_barycentric_weights_witness :
    baryDenom (⟨0, 0, 1⟩ : Vec3 ℚ) ⟨4, 0, 2⟩ ⟨0, 4, 3⟩ ≠ 0 ∧
    ∃ w0 w1 w2 : ℚ,
      baryW0 (⟨0, 0, 1⟩ : Vec3 ℚ) ⟨4, 0, 2⟩ ⟨0, 4, 3⟩ 1 1 = Ieee.fin w0 ∧
      baryW1 (⟨0, 0, 1⟩ : Vec3 ℚ) ⟨4, 0, 2⟩ ⟨0, 4, 3⟩ 1 1 = Ieee.fin w1 ∧
      baryW2 (⟨0, 0, 1⟩ : Vec3 ℚ) ⟨4, 0, 2⟩ ⟨0, 4, 3⟩ 1 1 = Ieee.fin w2 ∧
      w0 + w1 + w2 = 1 ∧
      w0 * (⟨0, 0, 1⟩ : Vec3 ℚ).x + w1 * (⟨4, 0, 2⟩ : Vec3 ℚ).x + w2 * (⟨0, 4, 3⟩ : Vec3 ℚ).x
        = ((1 : ℤ) : ℚ) ∧
      w0 * (⟨0, 0, 1⟩ : Vec3 ℚ).y + w1 * (⟨4, 0, 2⟩ : Vec3 ℚ).y + w2 * (⟨0, 4, 3⟩ : Vec3 ℚ).y
        = ((1 : ℤ) : ℚ) ∧
      (baryInside (⟨0, 0, 1⟩ : Vec3 ℚ) ⟨4, 0, 2⟩ ⟨0, 4, 3⟩ 1 1 = true ↔
        inClosedTriangle (⟨0, 0, 1⟩ : Vec3 ℚ) ⟨4, 0, 2⟩ ⟨0, 4, 3⟩ ((1 : ℤ) : ℚ) ((1 : ℤ) : ℚ)) :=
  ⟨by norm_num [baryDenom],
    C1_barycentric_weights (⟨0, 0, 1⟩ : Vec3 ℚ) ⟨4, 0, 2⟩ ⟨0, 4, 3⟩ 1 1 (by norm_num [baryDenom])⟩

/-! ## Depth test -/

theorem stepCell_of_not_inside (m : CMath F) (shade : F → F → F → Vec3 F) (v0 v1 v2 : Vec3 F)
    (x y : ℤ) (old : (ℕ × ℕ × ℕ) × WithTop F) (h : ¬ baryInside v0 v1 v2 x y = true) :
    stepCell m shade v0 v1 v2 x y old = old := by
  unfold stepCell
  rw [if_neg (fun hh => h hh.1)]

theorem stepCell_of_le (m : CMath F) (shade : F → F → F → Vec3 F) (v0 v1 v2 : Vec3 F)
    (x y : ℤ) (old : (ℕ × ℕ × ℕ) × WithTop F)
    (h : old.2 ≤ ((interpDepth v0 v1 v2 x y : F) : WithTop F)) :
    stepCell m shade v0 v1 v2 x y old = old := by
  unfold stepCell
  rw [if_neg (fun hh => not_lt.mpr h hh.2)]

theorem rasterizeScreen_cell_covers (m : CMath F) (shade : F → F → F → Vec3 F)
    (v0 v1 v2 : Vec3 F) (b : Buffers F) (r : Fin HEIGHT) (c : Fin WIDTH) :
    (rasterizeScreen m shade v0 v1 v2 b).cell r c =
      if covers v0 v1 v2 (c.val : ℤ) (r.val : ℤ) ∧
          ((interpDepth v0 v1 v2 (c.val : ℤ) (r.val : ℤ) : F) : WithTop F) < b.zbuffer r c
      then (encodeColor m (shade (baryW0 v0 v1 v2 (c.val : ℤ) (r.val : ℤ)).val
              (baryW1 v0 v1 v2 (c.val : ℤ) (r.val : ℤ)).val
              (baryW2 v0 v1 v2 (c.val : ℤ) (r.val : ℤ)).val),
            ((interpDepth v0 v1 v2 (c.val : ℤ) (r.val : ℤ) : F) : WithTop F))
      else b.cell r c := by
  rw [rasterizeScreen_cell]
  unfold covers stepCell
  by_cases hb : inBox v0 v1 v2 (c.val : ℤ) (r.val : ℤ)
  · simp [hb, Buffers.cell]
  · simp [hb]

theorem clearBuffers_zbuffer (b : Buffers F) (r : Fin HEIGHT) (c : Fin WIDTH) :
    (clearBuffers b).zbuffer r c = ⊤ := by
  have h := clearBuffers_cell b r c
  simp only [Buffers.cell, Prod.mk.injEq] at h
  exact h.2

theorem clearBuffers_eq (b : Buffers F) :
    clearBuffers b = ⟨fun _ _ => (0, 0, 0), fun _ _ => ⊤⟩ := by
  apply Buffers.ext_cell
  intro r c
  rw [clearBuffers_cell]
  rfl

theorem stepCell_comm (m : CMath F) (sa sb : F → F → F → Vec3 F) (a0 a1 a2 b0 b1 b2 : Vec3 F)
    (x y : ℤ) (old : (ℕ × ℕ × ℕ) × WithTop F)
    (h : baryInside a0 a1 a2 x y = true → baryInside b0 b1 b2 x y = true →
      interpDepth a0 a1 a2 x y ≠ interpDepth b0 b1 b2 x y) :
    stepCell m sb b0 b1 b2 x y (stepCell m sa a0 a1 a2 x y old) =
      stepCell m sa a0 a1 a2 x y (stepCell m sb b0 b1 b2 x y old) := by
  by_cases ha : baryInside a0 a1 a2 x y = true
  · by_cases hb : baryInside b0 b1 b2 x y = true
    · have hne := h ha hb
      obtain ⟨p, d⟩ := old
      unfold stepCell
      simp only [ha, hb, true_and]
      rcases lt_or_gt_of_ne hne with hlt | hgt
      · have h1 : ((interpDepth a0 a1 a2 x y : F) : WithTop F) <
            ((interpDepth b0 b1 b2 x y : F) : WithTop F) := WithTop.coe_lt_coe.mpr hlt
        by_cases hda : ((interpDepth a0 a1 a2 x y : F) : WithTop F) < d
        · by_cases hdb : ((interpDepth b0 b1 b2 x y : F) : WithTop F) < d
          · simp [hda, hdb, h1, not_lt.mpr (le_of_lt h1)]
          · simp [hda, hdb, not_lt.mpr (le_of_lt h1)]
        · have hdb : ¬ ((interpDepth b0 b1 b2 x y : F) : WithTop F) < d :=
            fun hh => hda (lt_trans h1 hh)
          simp [hda, hdb]
      · have h1 : ((interpDepth b0 b1 b2 x y : F) : WithTop F) <
            ((interpDepth a0 a1 a2 x y : F) : WithTop F) := WithTop.coe_lt_coe.mpr hgt
        by_cases hdb : ((interpDepth b0 b1 b2 x y : F) : WithTop F) < d
        · by_cases hda : ((interpDepth a0 a1 a2 x y : F) : WithTop F) < d
          · simp [hda, hdb, h1, not_lt.mpr (le_of_lt h1)]
          · simp [hda, hdb, not_lt.mpr (le_of_lt h1)]
        · have hda : ¬ ((interpDepth a0 a1 a2 x y : F) : WithTop F) < d :=
            fun hh => hdb (lt_trans h1 hh)
          simp [hda, hdb]
    · rw [stepCell_of_not_inside m sb b0 b1 b2 x y _ hb,
        stepCell_of_not_inside m sb b0 b1 b2 x y _ hb]
  · rw [stepCell_of_not_inside m sa a0 a1 a2 x y _ ha,
      stepCell_of_not_inside m sa a0 a1 a2 x y _ ha]

theorem rasterizeScreen_comm (m : CMath F) (sa sb : F → F → F → Vec3 F)
    (a0 a1 a2 b0 b1 b2 : Vec3 F) (buf : Buffers F)
    (h : ∀ x y : ℤ, covers a0 a1 a2 x y → covers b0 b1 b2 x y →
      interpDepth a0 a1 a2 x y ≠ interpDepth b0 b1 b2 x y) :
    rasterizeScreen m sb b0 b1 b2 (rasterizeScreen m sa a0 a1 a2 buf) =
      rasterizeScreen m sa a0 a1 a2 (rasterizeScreen m sb b0 b1 b2 buf) := by
  apply Buffers.ext_cell
  intro r c
  simp only [rasterizeScreen_cell]
  by_cases hA : inBox a0 a1 a2 (c.val : ℤ) (r.val : ℤ)
  · by_cases hB : inBox b0 b1 b2 (c.val : ℤ) (r.val : ℤ)
    · simp only [if_pos hA, if_pos hB]
      exact stepCell_comm m sa sb a0 a1 a2 b0 b1 b2 _ _ _
        (fun ha hb => h _ _ ⟨hA, ha⟩ ⟨hB, hb⟩)
    · simp only [if_pos hA, if_neg hB]
  · simp only [if_neg hA]

/-- Claim C4.  Draw order does not matter absent ties: for two triangles whose
interpolated depths differ at every pixel both cover, rasterizing the first
and then the second gives the same colour and depth buffers as rasterizing
them in the other order. -/
theorem C4_draw_order_irrelevant (m : CMath F) (a0 a1 a2 colorA b0 b1 b2 colorB : Vec3 F)
    (buf : Buffers F)
    (h : ∀ x y : ℤ, triCovers a0 a1 a2 x y → triCovers b0 b1 b2 x y →
      triDepth a0 a1 a2 x y ≠ triDepth b0 b1 b2 x y) :
    Q1.rasterizeTriangle m b0 b1 b2 colorB (Q1.rasterizeTriangle m a0 a1 a2 colorA buf) =
      Q1.rasterizeTriangle m a0 a1 a2 colorA (Q1.rasterizeTriangle m b0 b1 b2 colorB buf) := by
  unfold Q1.rasterizeTriangle
  exact rasterizeScreen_comm m _ _ _ _ _ _ _ _ buf h


theorem interpDepth_const (v0 v1 v2 : Vec3 F) (x y : ℤ) (h : baryInside v0 v1 v2 x y = true)
    (h1 : v1.z = v0.z) (h2 : v2.z = v0.z) : interpDepth v0 v1 v2 x y = v0.z := by
  have hd : baryDenom v0 v1 v2 ≠ 0 := ((baryInside_iff v0 v1 v2 x y).mp h).1
  have e0 : baryW0 v0 v1 v2 x y = Ieee.fin
      (((v1.y - v2.y) * ((x : F) - v2.x) + (v2.x - v1.x) * ((y : F) - v2.y))
        / baryDenom v0 v1 v2) := by
    simp [baryW0, Ieee.div, hd]
  have e1 : baryW1 v0 v1 v2 x y = Ieee.fin
      (((v2.y - v0.y) * ((x : F) - v2.x) + (v0.x - v2.x) * ((y : F) - v2.y))
        / baryDenom v0 v1 v2) := by
    simp [baryW1, Ieee.div, hd]
  unfold interpDepth baryW2
  rw [e0, e1, h1, h2]
  simp only [Ieee.sub, Ieee.val]
  ring

/-- Claim C4, instance: two overlapping triangles, one in the plane `z = -5`
and one in the plane `z = -7`. -/
theorem C4_draw_order_irrelevant_witness :
    (∀ x y : ℤ, triCovers (⟨-2, -2, -5⟩ : Vec3 ℚ) ⟨2, -2, -5⟩ ⟨0, 2, -5⟩ x y →
      triCovers (⟨-3, -1, -7⟩ : Vec3 ℚ) ⟨3, -1, -7⟩ ⟨0, 3, -7⟩ x y →
      triDepth (⟨-2, -2, -5⟩ : Vec3 ℚ) ⟨2, -2, -5⟩ ⟨0, 2, -5⟩ x y ≠
        triDepth (⟨-3, -1, -7⟩ : Vec3 ℚ) ⟨3, -1, -7⟩ ⟨0, 3, -7⟩ x y) ∧
    ∀ buf : Buffers ℚ,
      Q1.rasterizeTriangle ⟨3, id, fun a _ => a, id, id⟩ (⟨-3, -1, -7⟩ : Vec3 ℚ) ⟨3, -1, -7⟩
          ⟨0, 3, -7⟩ ⟨0, 1, 0⟩
          (Q1.rasterizeTriangle ⟨3, id, fun a _ => a, id, id⟩ (⟨-2, -2, -5⟩ : Vec3 ℚ) ⟨2, -2, -5⟩
            ⟨0, 2, -5⟩ ⟨1, 0, 0⟩ buf) =
        Q1.rasterizeTriangle ⟨3, id, fun a _ => a, id, id⟩ (⟨-2, -2, -5⟩ : Vec3 ℚ) ⟨2, -2, -5⟩
          ⟨0, 2, -5⟩ ⟨1, 0, 0⟩
          (Q1.rasterizeTriangle ⟨3, id, fun a _ => a, id, id⟩ (⟨-3, -1, -7⟩ : Vec3 ℚ) ⟨3, -1, -7⟩
            ⟨0, 3, -7⟩ ⟨0, 1, 0⟩ buf) := by
  have hw : ∀ x y : ℤ, triCovers (⟨-2, -2, -5⟩ : Vec3 ℚ) ⟨2, -2, -5⟩ ⟨0, 2, -5⟩ x y →
      triCovers (⟨-3, -1, -7⟩ : Vec3 ℚ) ⟨3, -1, -7⟩ ⟨0, 3, -7⟩ x y →
      triDepth (⟨-2, -2, -5⟩ : Vec3 ℚ) ⟨2, -2, -5⟩ ⟨0, 2, -5⟩ x y ≠
        triDepth (⟨-3, -1, -7⟩ : Vec3 ℚ) ⟨3, -1, -7⟩ ⟨0, 3, -7⟩ x y := by
    intro x y ha hb
    unfold triDepth
    rw [interpDepth_const _ _ _ x y ha.2 (by norm_num [applyTransform])
        (by norm_num [applyTransform]),
      interpDepth_const _ _ _ x y hb.2 (by norm_num [applyTransform])
        (by norm_num [applyTransform])]
    norm_num [applyTransform]
  exact ⟨hw, fun buf => C4_draw_order_irrelevant ⟨3, id, fun a _ => a, id, id⟩ _ _ _ _ _ _ _ _
    buf hw⟩

/-! ## Frames -/

/-- Claim C5.  Frame rendering is reproducible: the buffers after `render` do
not depend on the buffers before the call, for each of the three programs; so
rendering the mesh a second time gives the buffers of the first rendering. -/
theorem C5_render_reproducible (m : CMath F) (mesh : Q1.Mesh F) (mesh2 : Q2.Mesh F)
    (b1 b2 : Buffers F) :
    Q1.render m mesh b1 = Q1.render m mesh b2 ∧
    Q2.render m mesh2 b1 = Q2.render m mesh2 b2 ∧
    Q3.render m mesh2 b1 = Q3.render m mesh2 b2 ∧
    Q1.render m mesh (Q1.render m mesh b1) = Q1.render m mesh b1 := by
  unfold Q1.render Q2.render Q3.render
  simp only [clearBuffers_eq]
  exact ⟨trivial, trivial, trivial, trivial⟩

theorem foldl_rasterizeScreen_cell_of_not_covers {T : Type} (m : CMath F)
    (sh : T → F → F → F → Vec3 F) (p0 p1 p2 : T → Vec3 F) (ts : List T) (b : Buffers F)
    (r : Fin HEIGHT) (c : Fin WIDTH)
    (h : ∀ t ∈ ts, ¬ covers (p0 t) (p1 t) (p2 t) (c.val : ℤ) (r.val : ℤ)) :
    (ts.foldl (fun b t => rasterizeScreen m (sh t) (p0 t) (p1 t) (p2 t) b) b).cell r c =
      b.cell r c := by
  induction ts generalizing b with
  | nil => rfl
  | cons t ts ih =>
    rw [List.foldl_cons, ih _ (fun t' ht' => h t' (List.mem_cons_of_mem _ ht')),
      rasterizeScreen_cell_covers]
    rw [if_neg (fun hh => h t (List.mem_cons_self _ _) hh.1)]

/-- Claim C6.  Background pixels stay cleared: after `render` of any mesh from
any buffer state, a pixel that no triangle of the mesh covers (no triangle
passes the inside test there within its clamped bounding box) has colour
`(0, 0, 0)` and depth `+infinity`; this holds for the three programs. -/
theorem C6_background_stays_cleared (m : CMath F) (mesh : Q1.Mesh F) (mesh2 : Q2.Mesh F)
    (b : Buffers F) (r : Fin HEIGHT) (c : Fin WIDTH)
    (h : ∀ tri ∈ mesh.indices, ¬ triCovers (vertexAt mesh.vertices tri.1)
      (vertexAt mesh.vertices tri.2.1) (vertexAt mesh.vertices tri.2.2) (c.val : ℤ) (r.val : ℤ))
    (h2 : ∀ tri ∈ mesh2.indices, ¬ triCovers (vertexAt mesh2.vertices tri.1)
      (vertexAt mesh2.vertices tri.2.1) (vertexAt mesh2.vertices tri.2.2)
      (c.val : ℤ) (r.val : ℤ)) :
    (Q1.render m mesh b).cell r c = ((0, 0, 0), ⊤) ∧
    (Q2.render m mesh2 b).cell r c = ((0, 0, 0), ⊤) ∧
    (Q3.render m mesh2 b).cell r c = ((0, 0, 0), ⊤) := by
  refine ⟨?_, ?_, ?_⟩
  · unfold Q1.render Q1.rasterizeTriangle
    rw [clearBuffers_eq]
    exact foldl_rasterizeScreen_cell_of_not_covers m
      (fun (tri : ℤ × ℤ × ℤ) _ _ _ => Q1.computeFlatColor m (vertexAt mesh.vertices tri.1)
        (vertexAt mesh.vertices tri.2.1) (vertexAt mesh.vertices tri.2.2))
      (fun (tri : ℤ × ℤ × ℤ) => applyTransform (vertexAt mesh.vertices tri.1))
      (fun (tri : ℤ × ℤ × ℤ) => applyTransform (vertexAt mesh.vertices tri.2.1))
      (fun (tri : ℤ × ℤ × ℤ) => applyTransform (vertexAt mesh.vertices tri.2.2)) mesh.indices _ r c h
  · unfold Q2.render Q2.rasterizeTriangle
    rw [clearBuffers_eq]
    exact foldl_rasterizeScreen_cell_of_not_covers m
      (fun (tri : ℤ × ℤ × ℤ) w0 w1 w2 =>
        (((Q2.computeLighting m (vertexAt mesh2.vertices tri.1)
            (vertexAt mesh2.vertexNormals tri.1)).scale w0).add
          ((Q2.computeLighting m (vertexAt mesh2.vertices tri.2.1)
            (vertexAt mesh2.vertexNormals tri.2.1)).scale w1)).add
          ((Q2.computeLighting m (vertexAt mesh2.vertices tri.2.2)
            (vertexAt mesh2.vertexNormals tri.2.2)).scale w2))
      (fun (tri : ℤ × ℤ × ℤ) => applyTransform (vertexAt mesh2.vertices tri.1))
      (fun (tri : ℤ × ℤ × ℤ) => applyTransform (vertexAt mesh2.vertices tri.2.1))
      (fun (tri : ℤ × ℤ × ℤ) => applyTransform (vertexAt mesh2.vertices tri.2.2)) mesh2.indices _ r c h2
  · unfold Q3.render Q3.rasterizePhong
    rw [clearBuffers_eq]
    exact foldl_rasterizeScreen_cell_of_not_covers m
      (fun (tri : ℤ × ℤ × ℤ) w0 w1 w2 =>
        Q3.computeLighting m
          ((((vertexAt mesh2.vertices tri.1).scale w0).add
            ((vertexAt mesh2.vertices tri.2.1).scale w1)).add
            ((vertexAt mesh2.vertices tri.2.2).scale w2))
          (((((vertexAt mesh2.vertexNormals tri.1).scale w0).add
            ((vertexAt mesh2.vertexNormals tri.2.1).scale w1)).add
            ((vertexAt mesh2.vertexNormals tri.2.2).scale w2)).normalize m))
      (fun (tri : ℤ × ℤ × ℤ) => applyTransform (vertexAt mesh2.vertices tri.1))
      (fun (tri : ℤ × ℤ × ℤ) => applyTransform (vertexAt mesh2.vertices tri.2.1))
      (fun (tri : ℤ × ℤ × ℤ) => applyTransform (vertexAt mesh2.vertices tri.2.2)) mesh2.indices _ r c h2

theorem not_triCovers_border_zero (v0 v1 v2 : Vec3 F) (y : ℤ) : ¬ triCovers v0 v1 v2 0 y := by
  intro h
  have h1 : boxMinX (applyTransform v0) (applyTransform v1) (applyTransform v2) ≤ 0 := h.1.1
  unfold boxMinX at h1
  have h2 := le_trans (le_max_left (1 : ℤ) _) h1
  omega

/-- Claim C6, instance: the sphere meshes of `createSphere(32, 16)` and the
pixel of row 0 and column 0, which lies outside every bounding box. -/
theorem C6_background_stays_cleared_witness :
    (∀ tri ∈ (Q1.createSphere (⟨3, id, fun a _ => a, id, id⟩ : CMath ℚ) 32 16 ⟨[], []⟩).indices,
      ¬ triCovers
        (vertexAt (Q1.createSphere (⟨3, id, fun a _ => a, id, id⟩ : CMath ℚ) 32 16
          ⟨[], []⟩).vertices tri.1)
        (vertexAt (Q1.createSphere (⟨3, id, fun a _ => a, id, id⟩ : CMath ℚ) 32 16
          ⟨[], []⟩).vertices tri.2.1)
        (vertexAt (Q1.createSphere (⟨3, id, fun a _ => a, id, id⟩ : CMath ℚ) 32 16
          ⟨[], []⟩).vertices tri.2.2)
        (((⟨0, by decide⟩ : Fin WIDTH).val : ℕ) : ℤ) (((⟨0, by decide⟩ : Fin HEIGHT).val : ℕ) : ℤ)) ∧
    ∀ b : Buffers ℚ,
      (Q1.render (⟨3, id, fun a _ => a, id, id⟩ : CMath ℚ)
        (Q1.createSphere (⟨3, id, fun a _ => a, id, id⟩ : CMath ℚ) 32 16 ⟨[], []⟩) b).cell
        ⟨0, by decide⟩ ⟨0, by decide⟩ = ((0, 0, 0), ⊤) :=
  ⟨fun _ _ => not_triCovers_border_zero _ _ _ _,
   fun b => (C6_background_stays_cleared (⟨3, id, fun a _ => a, id, id⟩ : CMath ℚ)
      (Q1.createSphere (⟨3, id, fun a _ => a, id, id⟩ : CMath ℚ) 32 16 ⟨[], []⟩)
      (Q2.createSphere (⟨3, id, fun a _ => a, id, id⟩ : CMath ℚ) 32 16) b
      ⟨0, by decide⟩ ⟨0, by decide⟩
      (fun _ _ => not_triCovers_border_zero _ _ _ _)
      (fun _ _ => not_triCovers_border_zero _ _ _ _)).1⟩

/-! ## Sphere mesh: triangles -/

theorem foldl_push_eq_flatMap {α β : Type} (f : α → List β) (l : List α) (init : List β) :
    l.foldl (fun acc a => acc ++ f a) init = init ++ l.flatMap f := by
  induction l generalizing init with
  | nil => simp
  | cons a l ih => rw [List.foldl_cons, ih, List.flatMap_cons, List.append_assoc]

theorem foldl_push2_eq_flatMap {α β : Type} (f g : α → β) (l : List α) (init : List β) :
    l.foldl (fun acc a => (acc ++ [f a]) ++ [g a]) init = init ++ l.flatMap (fun a => [f a, g a]) := by
  have h := foldl_push_eq_flatMap (fun a => [f a, g a]) l init
  rw [← h]
  congr 1
  funext acc a
  simp

theorem foldl_push1_eq_map {α β : Type} (f : α → β) (l : List α) (init : List β) :
    l.foldl (fun acc a => acc ++ [f a]) init = init ++ l.map f := by
  induction l generalizing init with
  | nil => simp
  | cons a l ih => rw [List.foldl_cons, ih, List.map_cons, List.append_assoc]; rfl

theorem length_loopLt (lo hi : ℤ) : (loopLt lo hi).length = (hi - lo).toNat := by
  simp [loopLt]

theorem sphereIndices_eq (width height top bottom : ℤ) (indices : List (ℤ × ℤ × ℤ)) :
    sphereIndices width height top bottom indices =
      (indices ++ (loopLt 0 width).flatMap (fun i =>
        [(top, i, (i + 1).tmod width),
         (bottom, (height - 3) * width + (i + 1).tmod width, (height - 3) * width + i)])) ++
      (loopLt 0 (height - 3)).flatMap (fun j => (loopLt 0 width).flatMap (fun i =>
        [(j * width + i, (j + 1) * width + (i + 1).tmod width, (j + 1) * width + i),
         (j * width + i, j * width + (i + 1).tmod width, (j + 1) * width + (i + 1).tmod width)])) := by
  unfold sphereIndices
  simp only [foldl_push2_eq_flatMap]
  rw [foldl_push_eq_flatMap]

theorem length_flatMap_pair {α β : Type} (f g : α → β) (l : List α) :
    (l.flatMap (fun a => [f a, g a])).length = l.length * 2 := by
  induction l with
  | nil => simp
  | cons a l ih => rw [List.flatMap_cons, List.length_append, ih, List.length_cons]; simp; ring

theorem length_flatMap_flatMap_pair {α γ β : Type} (f g : γ → α → β) (l2 : List γ) (l : List α) :
    (l2.flatMap (fun j => l.flatMap (fun a => [f j a, g j a]))).length =
      l2.length * (l.length * 2) := by
  induction l2 with
  | nil => simp
  | cons j l2 ih =>
    rw [List.flatMap_cons, List.length_append, ih, length_flatMap_pair, List.length_cons]
    ring

theorem length_sphereIndices (width height top bottom : ℤ) (indices : List (ℤ × ℤ × ℤ)) :
    (sphereIndices width height top bottom indices).length =
      indices.length + width.toNat * 2 + (height - 3).toNat * (width.toNat * 2) := by
  rw [sphereIndices_eq]
  simp only [List.length_append]
  rw [length_flatMap_pair, length_flatMap_flatMap_pair]
  simp [length_loopLt]

theorem Q1_createSphere_indices (m : CMath F) (width height : ℤ) (mesh : Q1.Mesh F) :
    ∃ top bottom : ℤ, (Q1.createSphere m width height mesh).indices =
      sphereIndices width height top bottom mesh.indices := ⟨_, _, rfl⟩

theorem Q2_createSphere_indices (m : CMath F) (width height : ℤ) :
    ∃ top bottom : ℤ, (Q2.createSphere m width height).indices =
      sphereIndices width height top bottom [] := ⟨_, _, rfl⟩

/-- Claim C7, as stated, fails: `createSphere(32, 16)` on an empty mesh does
not produce 960 triangles. -/
theorem C7_triangle_count_not_960 :
    (Q1.createSphere (⟨3, id, fun a _ => a, id, id⟩ : CMath ℚ) 32 16 ⟨[], []⟩).indices.length
      ≠ 32 * 14 * 2 + 32 * 2 := by
  obtain ⟨top, bottom, h⟩ := Q1_createSphere_indices (⟨3, id, fun a _ => a, id, id⟩ : CMath ℚ)
    32 16 ⟨[], []⟩
  rw [h, length_sphereIndices]
  simp

/-- Claim C7, amended.  Generating the sphere with 32 longitude and 16
latitude segments produces exactly `32*13*2 + 32*2 = 896` triangles in the
index list (in `Q1.cpp` on an empty mesh, and in `Q2.cpp` and `Q3.cpp`): the
two triangles per quad of the 13 strips between the 14 rings, plus the two
pole fans.  In general the count is `2*w + (h-3)*(2*w)`. -/
theorem C7_triangle_count (m : CMath F) (w h : ℤ) :
    (Q1.createSphere m 32 16 ⟨[], []⟩).indices.length = 32 * 13 * 2 + 32 * 2 ∧
    (Q2.createSphere m 32 16).indices.length = 32 * 13 * 2 + 32 * 2 ∧
    (Q1.createSphere m w h ⟨[], []⟩).indices.length = w.toNat * 2 + (h - 3).toNat * (w.toNat * 2) ∧
    (Q2.createSphere m w h).indices.length = w.toNat * 2 + (h - 3).toNat * (w.toNat * 2) := by
  refine ⟨?_, ?_, ?_, ?_⟩
  · obtain ⟨top, bottom, h⟩ := Q1_createSphere_indices m 32 16 ⟨[], []⟩
    rw [h, length_sphereIndices]
    simp
  · obtain ⟨top, bottom, h⟩ := Q2_createSphere_indices m 32 16
    rw [h, length_sphereIndices]
    simp
  · obtain ⟨top, bottom, h⟩ := Q1_createSphere_indices m w h ⟨[], []⟩
    rw [h, length_sphereIndices]
    simp
  · obtain ⟨top, bottom, h⟩ := Q2_createSphere_indices m w h
    rw [h, length_sphereIndices]
    simp

/-! ## Sphere mesh: vertices -/

theorem foldl_foldl_push1 {α γ β : Type} (f : γ → α → β) (l2 : List γ) (l : List α)
    (init : List β) :
    l2.foldl (fun acc j => l.foldl (fun acc a => acc ++ [f j a]) acc) init =
      init ++ l2.flatMap (fun j => l.map (f j)) := by
  simp only [foldl_push1_eq_map]
  exact foldl_push_eq_flatMap (fun j => l.map (f j)) l2 init

theorem foldl_pair_push {α β γ : Type} (f : α → β) (g : α → γ) (l : List α)
    (init : List β × List γ) :
    l.foldl (fun vn a => (vn.1 ++ [f a], vn.2 ++ [g a])) init =
      (init.1 ++ l.map f, init.2 ++ l.map g) := by
  induction l generalizing init with
  | nil => simp
  | cons a l ih => rw [List.foldl_cons, ih]; simp

theorem foldl_foldl_pair_push {α δ β γ : Type} (f : δ → α → β) (g : δ → α → γ) (l2 : List δ)
    (l : List α) (init : List β × List γ) :
    l2.foldl (fun vn j => l.foldl (fun vn a => (vn.1 ++ [f j a], vn.2 ++ [g j a])) vn) init =
      (init.1 ++ l2.flatMap (fun j => l.map (f j)), init.2 ++ l2.flatMap (fun j => l.map (g j))) := by
  simp only [foldl_pair_push]
  induction l2 generalizing init with
  | nil => simp
  | cons j l2 ih => rw [List.foldl_cons, ih]; simp

theorem length_flatMap_map {α γ β : Type} (f : γ → α → β) (l2 : List γ) (l : List α) :
    (l2.flatMap (fun j => l.map (f j))).length = l2.length * l.length := by
  induction l2 with
  | nil => simp
  | cons j l2 ih =>
    rw [List.flatMap_cons, List.length_append, ih, List.length_map, List.length_cons]
    ring

theorem Q1_createSphere_vertices (m : CMath F) (width height : ℤ) (mesh : Q1.Mesh F) :
    (Q1.createSphere m width height mesh).vertices =
      (mesh.vertices ++ (loopLt 1 (height - 1)).flatMap (fun (j : ℤ) => (loopLt 0 width).map (fun (i : ℤ) =>
        (⟨-2 * m.sinf (m.M_PI * (j : F) / ((height : F) - 1))
            * m.cosf (2 * m.M_PI * (i : F) / (width : F) + m.M_PI),
          2 * m.cosf (m.M_PI * (j : F) / ((height : F) - 1)),
          -2 * m.sinf (m.M_PI * (j : F) / ((height : F) - 1))
            * m.sinf (2 * m.M_PI * (i : F) / (width : F) + m.M_PI) - 7⟩ : Vec3 F)))) ++
      [⟨0, 2, -7⟩, ⟨0, -2, -7⟩] := by
  unfold Q1.createSphere
  simp only [foldl_foldl_push1]
  simp

theorem Q2_createSphere_vertices (m : CMath F) (width height : ℤ) :
    (Q2.createSphere m width height).vertices =
      ((loopLt 1 (height - 1)).flatMap (fun (j : ℤ) => (loopLt 0 width).map (fun (i : ℤ) =>
        (⟨2 * m.sinf (m.M_PI * (j : F) / ((height : F) - 1))
            * m.cosf (2 * m.M_PI * (i : F) / (width : F)),
          2 * m.cosf (m.M_PI * (j : F) / ((height : F) - 1)),
          2 * m.sinf (m.M_PI * (j : F) / ((height : F) - 1))
            * m.sinf (2 * m.M_PI * (i : F) / (width : F)) - 7⟩ : Vec3 F)))) ++
      [⟨0, 2, -7⟩, ⟨0, -2, -7⟩] := by
  unfold Q2.createSphere
  simp only [foldl_foldl_pair_push]
  simp

/-- Claim C8.  For every width `w >= 0` and height `h >= 2`, `createSphere(w, h)`
on an empty mesh produces exactly `(h-2)*w + 2` vertices: one per pair of an
interior ring `j` (from 1 to `h-2`) and a segment `i` (from 0 to `w-1`), in
that order, followed by the two pole vertices `(0, 2, -7)` and `(0, -2, -7)`
as the last two entries.  This holds for `Q1.cpp` and for `Q2.cpp`/`Q3.cpp`;
for 32 by 16 the count is 450. -/
theorem C8_vertex_count (m : CMath F) (w h : ℤ) (hw : 0 ≤ w) (hh : 2 ≤ h) :
    ((Q1.createSphere m w h ⟨[], []⟩).vertices.length : ℤ) = (h - 2) * w + 2 ∧
    ((Q2.createSphere m w h).vertices.length : ℤ) = (h - 2) * w + 2 ∧
    (∃ ring : List (Vec3 F), (ring.length : ℤ) = (h - 2) * w ∧
      (Q1.createSphere m w h ⟨[], []⟩).vertices = ring ++ [⟨0, 2, -7⟩, ⟨0, -2, -7⟩]) ∧
    (∃ ring : List (Vec3 F), (ring.length : ℤ) = (h - 2) * w ∧
      (Q2.createSphere m w h).vertices = ring ++ [⟨0, 2, -7⟩, ⟨0, -2, -7⟩]) ∧
    (Q1.createSphere m 32 16 ⟨[], []⟩).vertices.length = 450 ∧
    (Q2.createSphere m 32 16).vertices.length = 450 := by
  have hlen : (((h - 1 - 1).toNat * (w - 0).toNat : ℕ) : ℤ) = (h - 2) * w := by
    rw [Nat.cast_mul, Int.toNat_of_nonneg (by omega), Int.toNat_of_nonneg (by omega)]
    ring
  refine ⟨?_, ?_, ⟨_, ?_, by rw [Q1_createSphere_vertices, List.nil_append]⟩,
    ⟨_, ?_, Q2_createSphere_vertices m w h⟩, ?_, ?_⟩
  · rw [Q1_createSphere_vertices, List.nil_append, List.length_append, length_flatMap_map,
      length_loopLt, length_loopLt, Nat.cast_add, hlen]
    rfl
  · rw [Q2_createSphere_vertices, List.length_append, length_flatMap_map,
      length_loopLt, length_loopLt, Nat.cast_add, hlen]
    rfl
  · rw [length_flatMap_map, length_loopLt, length_loopLt]
    exact hlen
  · rw [length_flatMap_map, length_loopLt, length_loopLt]
    exact hlen
  · rw [Q1_createSphere_vertices, List.nil_append, List.length_append, length_flatMap_map,
      length_loopLt, length_loopLt]
    simp
  · rw [Q2_createSphere_vertices, List.length_append, length_flatMap_map,
      length_loopLt, length_loopLt]
    simp

/-- Claim C8, instance: the default sphere, 32 by 16. -/
theorem C8_vertex_count_witness :
    (0 : ℤ) ≤ 32 ∧ (2 : ℤ) ≤ 16 ∧
    ((Q1.createSphere (⟨3, id, fun a _ => a, id, id⟩ : CMath ℚ) 32 16 ⟨[], []⟩).vertices.length
      : ℤ) = (16 - 2) * 32 + 2 :=
  ⟨by decide, by decide,
    (C8_vertex_count (⟨3, id, fun a _ => a, id, id⟩ : CMath ℚ) 32 16 (by decide) (by decide)).1⟩

/-! ## Lighting -/

theorem sqrt_pos_of_pos (m : CMath F)
    (hs : ∀ x : F, 0 ≤ x → 0 ≤ m.sqrt x ∧ m.sqrt x * m.sqrt x = x) (x : F) (hx : 0 < x) :
    0 < m.sqrt x := by
  obtain ⟨h0, h1⟩ := hs x (le_of_lt hx)
  rcases lt_or_eq_of_le h0 with h | h
  · exact h
  · rw [← h] at h1
    linarith

theorem sqrt_one (m : CMath F)
    (hs : ∀ x : F, 0 ≤ x → 0 ≤ m.sqrt x ∧ m.sqrt x * m.sqrt x = x) : m.sqrt 1 = 1 := by
  obtain ⟨h0, h1⟩ := hs 1 zero_le_one
  nlinarith [sq_nonneg (m.sqrt 1 - 1)]

theorem normalize_dot_self (m : CMath F)
    (hs : ∀ x : F, 0 ≤ x → 0 ≤ m.sqrt x ∧ m.sqrt x * m.sqrt x = x) (a : Vec3 F)
    (ha : 0 < a.x * a.x + a.y * a.y + a.z * a.z) :
    (a.normalize m).dot (a.normalize m) = 1 := by
  have hpos := sqrt_pos_of_pos m hs _ ha
  have hsq := (hs _ (le_of_lt ha)).2
  unfold Vec3.normalize
  simp only [hpos, if_true, Vec3.scale, Vec3.dot]
  have hne : m.sqrt (a.x * a.x + a.y * a.y + a.z * a.z) ≠ 0 := ne_of_gt hpos
  field_simp
  linarith

theorem normalize_of_unit (m : CMath F)
    (hs : ∀ x : F, 0 ≤ x → 0 ≤ m.sqrt x ∧ m.sqrt x * m.sqrt x = x) (u : Vec3 F)
    (hu : u.dot u = 1) : u.normalize m = u := by
  unfold Vec3.normalize
  unfold Vec3.dot at hu
  simp only [hu, sqrt_one m hs, zero_lt_one, if_true, Vec3.scale]
  simp

theorem computeLighting_facing_away (m : CMath F)
    (hs : ∀ x : F, 0 ≤ x → 0 ≤ m.sqrt x ∧ m.sqrt x * m.sqrt x = x)
    (pos normal : Vec3 F) (hpos : pos ≠ ⟨4, -4, -3⟩)
    (hn : normal = (((⟨4, -4, -3⟩ : Vec3 F).sub pos).normalize m).scale (-1)) :
    max 0 ((normal.normalize m).dot (((⟨4, -4, -3⟩ : Vec3 F).sub pos).normalize m)) = 0 ∧
    Q2.computeLighting m pos normal =
      ⟨5 / 10 * m.pow (max 0 ((((⟨4, -4, -3⟩ : Vec3 F).sub pos).normalize m).dot
          (((⟨0, 0, 0⟩ : Vec3 F).sub pos).normalize m))) 32,
       2 / 10 + 5 / 10 * m.pow (max 0 ((((⟨4, -4, -3⟩ : Vec3 F).sub pos).normalize m).dot
          (((⟨0, 0, 0⟩ : Vec3 F).sub pos).normalize m))) 32,
       5 / 10 * m.pow (max 0 ((((⟨4, -4, -3⟩ : Vec3 F).sub pos).normalize m).dot
          (((⟨0, 0, 0⟩ : Vec3 F).sub pos).normalize m))) 32⟩ ∧
    Q3.computeLighting m pos normal = Q2.computeLighting m pos normal := by
  have hq : 0 < ((⟨4, -4, -3⟩ : Vec3 F).sub pos).x * ((⟨4, -4, -3⟩ : Vec3 F).sub pos).x
      + ((⟨4, -4, -3⟩ : Vec3 F).sub pos).y * ((⟨4, -4, -3⟩ : Vec3 F).sub pos).y
      + ((⟨4, -4, -3⟩ : Vec3 F).sub pos).z * ((⟨4, -4, -3⟩ : Vec3 F).sub pos).z := by
    simp only [Vec3.sub]
    by_contra hcon
    have hsx := mul_self_nonneg (4 - pos.x)
    have hsy := mul_self_nonneg (-4 - pos.y)
    have hsz := mul_self_nonneg (-3 - pos.z)
    have hx : 4 - pos.x = 0 := mul_self_eq_zero.mp (by linarith)
    have hy : -4 - pos.y = 0 := mul_self_eq_zero.mp (by linarith)
    have hz : -3 - pos.z = 0 := mul_self_eq_zero.mp (by linarith)
    apply hpos
    cases pos with
    | mk px py pz =>
      simp only [Vec3.mk.injEq]
      simp only at hx hy hz
      exact ⟨by linarith, by linarith, by linarith⟩
  have hL := normalize_dot_self m hs _ hq
  have e2 : Q2.computeLighting m pos normal =
      phongSum m (normal.normalize m) (((⟨4, -4, -3⟩ : Vec3 F).sub pos).normalize m)
        (((normal.normalize m).scale (2 * (normal.normalize m).dot
          (((⟨4, -4, -3⟩ : Vec3 F).sub pos).normalize m))).sub
          (((⟨4, -4, -3⟩ : Vec3 F).sub pos).normalize m))
        (((⟨0, 0, 0⟩ : Vec3 F).sub pos).normalize m) := by
    unfold Q2.computeLighting
    simp only [neg_neg]
  have e3 : Q3.computeLighting m pos normal =
      phongSum m (normal.normalize m) (((⟨4, -4, -3⟩ : Vec3 F).sub pos).normalize m)
        ((((normal.normalize m).scale (2 * (normal.normalize m).dot
          (((⟨4, -4, -3⟩ : Vec3 F).sub pos).normalize m))).sub
          (((⟨4, -4, -3⟩ : Vec3 F).sub pos).normalize m)).normalize m)
        (((⟨0, 0, 0⟩ : Vec3 F).sub pos).normalize m) := by
    unfold Q3.computeLighting
    simp only [neg_neg]
  rw [e3, e2]
  generalize (((⟨4, -4, -3⟩ : Vec3 F).sub pos).normalize m) = L at hn hL ⊢
  generalize (((⟨0, 0, 0⟩ : Vec3 F).sub pos).normalize m) = V
  have hnn : normal.dot normal = 1 := by
    rw [hn]
    simp only [Vec3.dot, Vec3.scale] at hL ⊢
    linarith
  have hN : normal.normalize m = normal := normalize_of_unit m hs normal hnn
  have hNL : normal.dot L = -1 := by
    rw [hn]
    simp only [Vec3.dot, Vec3.scale] at hL ⊢
    linarith
  have hR : (normal.scale (2 * normal.dot L)).sub L = L := by
    rw [hNL, hn]
    cases L with
    | mk lx ly lz =>
      simp only [Vec3.scale, Vec3.sub, Vec3.mk.injEq]
      exact ⟨by ring, by ring, by ring⟩
  have hRn : L.normalize m = L := normalize_of_unit m hs L hL
  have hd : max 0 (normal.dot L) = 0 := by
    rw [hNL]
    exact max_eq_left (by norm_num)
  rw [hN, hR, hRn]
  refine ⟨hd, ?_, rfl⟩
  unfold phongSum
  simp only [hd, Vec3.scale, Vec3.add, Vec3.mk.injEq]
  exact ⟨by ring, by ring, by ring⟩

/-- Claim C9, as stated, fails: at the shading point `(4, -4, -7)` the light
direction is `L = (0, 0, 1)`; with the normal `N = -L`, facing directly away
from the light, `computeLighting` does not return the ambient term
`(0, 0.2, 0)`, because the specular term is `(7/9)^32`, not zero. -/
theorem C9_facing_away_not_ambient :
    (⟨4, -4, -7⟩ : Vec3 ℝ) ≠ ⟨4, -4, -3⟩ ∧
    ((⟨4, -4, -3⟩ : Vec3 ℝ).sub ⟨4, -4, -7⟩).normalize
      ⟨Real.pi, Real.sqrt, fun a b => a ^ b, Real.sin, Real.cos⟩ = ⟨0, 0, 1⟩ ∧
    Q2.computeLighting ⟨Real.pi, Real.sqrt, fun a b => a ^ b, Real.sin, Real.cos⟩
      (⟨4, -4, -7⟩ : Vec3 ℝ) ((⟨0, 0, 1⟩ : Vec3 ℝ).scale (-1)) ≠ ⟨0, 2 / 10, 0⟩ := by
  have hs : ∀ x : ℝ, 0 ≤ x → 0 ≤ Real.sqrt x ∧ Real.sqrt x * Real.sqrt x = x :=
    fun x hx => ⟨Real.sqrt_nonneg x, Real.mul_self_sqrt hx⟩
  have h16 : Real.sqrt 16 = 4 := by
    rw [show (16 : ℝ) = 4 ^ 2 by norm_num]
    exact Real.sqrt_sq (by norm_num)
  have h81 : Real.sqrt 81 = 9 := by
    rw [show (81 : ℝ) = 9 ^ 2 by norm_num]
    exact Real.sqrt_sq (by norm_num)
  have hpos : (⟨4, -4, -7⟩ : Vec3 ℝ) ≠ ⟨4, -4, -3⟩ := by
    simp only [ne_eq, Vec3.mk.injEq, not_and]
    norm_num
  have hLv : ((⟨4, -4, -3⟩ : Vec3 ℝ).sub ⟨4, -4, -7⟩).normalize
      ⟨Real.pi, Real.sqrt, fun a b => a ^ b, Real.sin, Real.cos⟩ = ⟨0, 0, 1⟩ := by
    simp only [Vec3.normalize, Vec3.sub, Vec3.scale]
    norm_num [h16]
  have hVv : ((⟨0, 0, 0⟩ : Vec3 ℝ).sub ⟨4, -4, -7⟩).normalize
      ⟨Real.pi, Real.sqrt, fun a b => a ^ b, Real.sin, Real.cos⟩ = ⟨-4 / 9, 4 / 9, 7 / 9⟩ := by
    simp only [Vec3.normalize, Vec3.sub, Vec3.scale]
    norm_num [h81]
  refine ⟨hpos, hLv, ?_⟩
  have h := (computeLighting_facing_away
    (⟨Real.pi, Real.sqrt, fun a b => a ^ b, Real.sin, Real.cos⟩ : CMath ℝ) hs
    ⟨4, -4, -7⟩ ((⟨0, 0, 1⟩ : Vec3 ℝ).scale (-1)) hpos (by rw [hLv])).2.1
  rw [h, hLv, hVv]
  intro hcon
  have hx := congrArg Vec3.x hcon
  simp only [Vec3.dot] at hx
  have hp : (0 : ℝ) < (max 0 (0 * (-4 / 9) + 0 * (4 / 9) + 1 * (7 / 9)) : ℝ) ^ (32 : ℝ) := by
    apply Real.rpow_pos_of_pos
    norm_num
  linarith

/-- Claim C9, amended.  For a shading point `pos` other than the transformed
light position `(4, -4, -3)` and the normal `N = -L` facing directly away from
the light (`L` the unit light direction), the diffuse term is zero, but the
reflection vector is `L` itself, so the specular term is
`s = pow(max(0, L.V), 32)` with `V` the unit view direction: `computeLighting`
of `Q2.cpp` and of `Q3.cpp` both return `(0.5 s, 0.2 + 0.5 s, 0.5 s)`, which
is the ambient term `(0, 0.2, 0)` when `L.V <= 0`.  Here `sqrt` is assumed to
be the exact square root and `pow(0, 32)` to be `0`. -/
theorem C9_facing_away_lighting (m : CMath F)
    (hs : ∀ x : F, 0 ≤ x → 0 ≤ m.sqrt x ∧ m.sqrt x * m.sqrt x = x)
    (hp : m.pow 0 32 = 0)
    (pos normal : Vec3 F) (hpos : pos ≠ ⟨4, -4, -3⟩)
    (hn : normal = (((⟨4, -4, -3⟩ : Vec3 F).sub pos).normalize m).scale (-1)) :
    max 0 ((normal.normalize m).dot (((⟨4, -4, -3⟩ : Vec3 F).sub pos).normalize m)) = 0 ∧
    Q2.computeLighting m pos normal =
      ⟨5 / 10 * m.pow (max 0 ((((⟨4, -4, -3⟩ : Vec3 F).sub pos).normalize m).dot
          (((⟨0, 0, 0⟩ : Vec3 F).sub pos).normalize m))) 32,
       2 / 10 + 5 / 10 * m.pow (max 0 ((((⟨4, -4, -3⟩ : Vec3 F).sub pos).normalize m).dot
          (((⟨0, 0, 0⟩ : Vec3 F).sub pos).normalize m))) 32,
       5 / 10 * m.pow (max 0 ((((⟨4, -4, -3⟩ : Vec3 F).sub pos).normalize m).dot
          (((⟨0, 0, 0⟩ : Vec3 F).sub pos).normalize m))) 32⟩ ∧
    Q3.computeLighting m pos normal = Q2.computeLighting m pos normal ∧
    ((((⟨4, -4, -3⟩ : Vec3 F).sub pos).normalize m).dot
        (((⟨0, 0, 0⟩ : Vec3 F).sub pos).normalize m) ≤ 0 →
      Q2.computeLighting m pos normal = ⟨0, 2 / 10, 0⟩ ∧
      Q3.computeLighting m pos normal = ⟨0, 2 / 10, 0⟩) := by
  obtain ⟨h1, h2, h3⟩ := computeLighting_facing_away m hs pos normal hpos hn
  refine ⟨h1, h2, h3, ?_⟩
  intro hle
  rw [h3, h2, max_eq_left hle, hp]
  simp

/-- Claim C9, instance: real arithmetic, the shading point `(4, -4, -2)`
behind which the light lies, and the normal facing away from the light. -/
theorem C9_facing_away_lighting_witness :
    (∀ x : ℝ, 0 ≤ x → 0 ≤ Real.sqrt x ∧ Real.sqrt x * Real.sqrt x = x) ∧
    ((0 : ℝ) ^ (32 : ℝ) = 0) ∧
    (⟨4, -4, -2⟩ : Vec3 ℝ) ≠ ⟨4, -4, -3⟩ ∧
    Q2.computeLighting ⟨Real.pi, Real.sqrt, fun a b => a ^ b, Real.sin, Real.cos⟩
      (⟨4, -4, -2⟩ : Vec3 ℝ)
      ((((⟨4, -4, -3⟩ : Vec3 ℝ).sub ⟨4, -4, -2⟩).normalize
        ⟨Real.pi, Real.sqrt, fun a b => a ^ b, Real.sin, Real.cos⟩).scale (-1)) =
      ⟨5 / 10 * (max 0 ((((⟨4, -4, -3⟩ : Vec3 ℝ).sub ⟨4, -4, -2⟩).normalize
          ⟨Real.pi, Real.sqrt, fun a b => a ^ b, Real.sin, Real.cos⟩).dot
          (((⟨0, 0, 0⟩ : Vec3 ℝ).sub ⟨4, -4, -2⟩).normalize
          ⟨Real.pi, Real.sqrt, fun a b => a ^ b, Real.sin, Real.cos⟩))) ^ (32 : ℝ),
       2 / 10 + 5 / 10 * (max 0 ((((⟨4, -4, -3⟩ : Vec3 ℝ).sub ⟨4, -4, -2⟩).normalize
          ⟨Real.pi, Real.sqrt, fun a b => a ^ b, Real.sin, Real.cos⟩).dot
          (((⟨0, 0, 0⟩ : Vec3 ℝ).sub ⟨4, -4, -2⟩).normalize
          ⟨Real.pi, Real.sqrt, fun a b => a ^ b, Real.sin, Real.cos⟩))) ^ (32 : ℝ),
       5 / 10 * (max 0 ((((⟨4, -4, -3⟩ : Vec3 ℝ).sub ⟨4, -4, -2⟩).normalize
          ⟨Real.pi, Real.sqrt, fun a b => a ^ b, Real.sin, Real.cos⟩).dot
          (((⟨0, 0, 0⟩ : Vec3 ℝ).sub ⟨4, -4, -2⟩).normalize
          ⟨Real.pi, Real.sqrt, fun a b => a ^ b, Real.sin, Real.cos⟩))) ^ (32 : ℝ)⟩ :=
  ⟨fun x hx => ⟨Real.sqrt_nonneg x, Real.mul_self_sqrt hx⟩,
   Real.zero_rpow (by norm_num),
   by simp only [ne_eq, Vec3.mk.injEq, not_and]; norm_num,
   (C9_facing_away_lighting
      (⟨Real.pi, Real.sqrt, fun a b => a ^ b, Real.sin, Real.cos⟩ : CMath ℝ)
      (fun x hx => ⟨Real.sqrt_nonneg x, Real.mul_self_sqrt hx⟩)
      (Real.zero_rpow (by norm_num))
      ⟨4, -4, -2⟩ _ (by simp only [ne_eq, Vec3.mk.injEq, not_and]; norm_num) rfl).2.1⟩

/-! ## Vertex normals -/

theorem length_addNormal (vn : List (Vec3 F)) (i : ℤ) (n : Vec3 F) :
    (Q2.addNormal vn i n).length = vn.length := by
  unfold Q2.addNormal
  split
  · rfl
  · exact List.length_set _ _ _

theorem vertexAt_addNormal (vn : List (Vec3 F)) (i k : ℤ) (n : Vec3 F) (hk0 : 0 ≤ k)
    (hk : k.toNat < vn.length) :
    vertexAt (Q2.addNormal vn i n) k =
      if i = k then (vertexAt vn k).add n else vertexAt vn k := by
  unfold Q2.addNormal
  by_cases hi : i < 0
  · rw [if_pos hi, if_neg (by omega)]
  · rw [if_neg hi]
    unfold vertexAt
    rw [if_neg (not_lt.mpr hk0), if_neg hi]
    simp only [List.getD_eq_getElem?_getD, List.getElem?_set]
    by_cases hik : i = k
    · subst hik
      simp [hk, hi]
    · have hne : i.toNat ≠ k.toNat := by omega
      simp [hik, hne, not_lt.mpr hk0]

theorem vertexAt_foldl_addNormal (m : CMath F) (vertices : List (Vec3 F)) (k : ℤ) (hk0 : 0 ≤ k)
    (tris : List (ℤ × ℤ × ℤ)) (vns : List (Vec3 F)) (hk : k.toNat < vns.length) :
    vertexAt (tris.foldl
      (fun vns tri =>
        let v0 := vertexAt vertices tri.1
        let v1 := vertexAt vertices tri.2.1
        let v2 := vertexAt vertices tri.2.2
        let normal := ((v1.sub v0).cross (v2.sub v0)).normalize m
        Q2.addNormal (Q2.addNormal (Q2.addNormal vns tri.1 normal) tri.2.1 normal) tri.2.2 normal)
      vns) k = accumAt m vertices k tris (vertexAt vns k) := by
  induction tris generalizing vns with
  | nil => rfl
  | cons tri tris ih =>
    unfold accumAt
    rw [List.foldl_cons, List.foldl_cons]
    rw [ih _ (by simp only [length_addNormal]; exact hk)]
    unfold accumAt
    congr 1
    rw [vertexAt_addNormal _ _ _ _ hk0 (by simp only [length_addNormal]; exact hk),
      vertexAt_addNormal _ _ _ _ hk0 (by simp only [length_addNormal]; exact hk),
      vertexAt_addNormal _ _ _ _ hk0 hk]
    rfl

theorem accumAt_append (m : CMath F) (vertices : List (Vec3 F)) (k : ℤ)
    (l1 l2 : List (ℤ × ℤ × ℤ)) (v : Vec3 F) :
    accumAt m vertices k (l1 ++ l2) v = accumAt m vertices k l2 (accumAt m vertices k l1 v) := by
  unfold accumAt
  rw [List.foldl_append]

theorem accumAt_of_not_mem (m : CMath F) (vertices : List (Vec3 F)) (k : ℤ)
    (l : List (ℤ × ℤ × ℤ)) (v : Vec3 F)
    (h : ∀ t ∈ l, t.1 ≠ k ∧ t.2.1 ≠ k ∧ t.2.2 ≠ k) : accumAt m vertices k l v = v := by
  induction l generalizing v with
  | nil => rfl
  | cons t l ih =>
    unfold accumAt
    rw [List.foldl_cons]
    obtain ⟨h1, h2, h3⟩ := h t (List.mem_cons_self _ _)
    simp only [h1, h2, h3, if_false]
    exact ih v (fun t' ht' => h t' (List.mem_cons_of_mem _ ht'))

theorem loopLt_split (lo mid hi : ℤ) (h1 : lo ≤ mid) (h2 : mid ≤ hi) :
    loopLt lo hi = loopLt lo mid ++ loopLt mid hi := by
  unfold loopLt
  have e : (hi - lo).toNat = (mid - lo).toNat + (hi - mid).toNat := by omega
  rw [e, List.range_add, List.map_append, List.map_map]
  congr 1
  apply List.map_congr_left
  intro a _
  simp only [Function.comp]
  push_cast
  rw [Int.toNat_of_nonneg (by omega)]
  ring

theorem loopLt_single (lo : ℤ) : loopLt lo (lo + 1) = [lo] := by
  unfold loopLt
  simp [List.range_succ]

theorem accumAt_pair (m : CMath F) (vertices : List (Vec3 F)) (k : ℤ)
    (t1 t2 : ℤ × ℤ × ℤ) (v : Vec3 F) :
    accumAt m vertices k [t1, t2] v =
      accumAt m vertices k [t2] (accumAt m vertices k [t1] v) := by
  rfl

theorem accumAt_flatMap_of_not_mem {α : Type} (m : CMath F) (vertices : List (Vec3 F)) (k : ℤ)
    (l : List α) (f : α → List (ℤ × ℤ × ℤ)) (v : Vec3 F)
    (h : ∀ a ∈ l, ∀ t ∈ f a, t.1 ≠ k ∧ t.2.1 ≠ k ∧ t.2.2 ≠ k) :
    accumAt m vertices k (l.flatMap f) v = v := by
  apply accumAt_of_not_mem
  intro t ht
  rw [List.mem_flatMap] at ht
  obtain ⟨a, ha, hta⟩ := ht
  exact h a ha t hta

theorem tmod_succ_of_lt (i : ℤ) (h0 : 0 ≤ i) (h1 : i + 1 < 32) : (i + 1).tmod 32 = i + 1 := by
  rw [Int.tmod_eq_emod (by omega) (by norm_num)]
  omega

theorem accumAt_sphere_zero (m : CMath F) (vertices : List (Vec3 F)) (v : Vec3 F) :
    accumAt m vertices 0 (sphereIndices 32 16 448 449 []) v =
      ((((v.add (faceNormal m vertices (448, 0, 1))).add
        (faceNormal m vertices (448, 31, 0))).add
        (faceNormal m vertices (0, 33, 32))).add
        (faceNormal m vertices (0, 1, 33))).add
        (faceNormal m vertices (31, 0, 32)) := by
  have hcols : loopLt 0 32 = [0] ++ (loopLt 1 31 ++ [31]) := by
    rw [loopLt_split 0 1 32 (by norm_num) (by norm_num),
      loopLt_split 1 31 32 (by norm_num) (by norm_num)]
    rw [show (32 : ℤ) = 31 + 1 by norm_num, loopLt_single 31,
      show (1 : ℤ) = 0 + 1 by norm_num, loopLt_single 0]
  have hrows : loopLt 0 (16 - 3) = [0] ++ loopLt 1 13 := by
    rw [show (16 : ℤ) - 3 = 13 by norm_num, loopLt_split 0 1 13 (by norm_num) (by norm_num),
      show (1 : ℤ) = 0 + 1 by norm_num, loopLt_single 0]
  rw [sphereIndices_eq, hrows, hcols]
  simp only [List.flatMap_append, List.flatMap_cons, List.flatMap_nil, List.append_nil,
    List.nil_append, accumAt_append]
  -- fan segment 1 .. 30
  rw [accumAt_flatMap_of_not_mem m vertices 0 (loopLt 1 31)]
  swap
  · intro i hi t ht
    rw [mem_loopLt] at hi
    have ht2 := tmod_succ_of_lt i (by omega) (by omega)
    simp only [List.mem_cons, List.mem_singleton, List.not_mem_nil, or_false] at ht
    rcases ht with rfl | rfl
    · simp only [ht2]
      omega
    · simp only [ht2]
      omega
  -- quad strips 1 .. 12
  rw [accumAt_flatMap_of_not_mem m vertices 0 (loopLt 1 13)]
  swap
  · intro j hj t ht
    rw [mem_loopLt] at hj
    simp only [List.mem_append, List.mem_flatMap, List.mem_cons, List.mem_singleton,
      List.not_mem_nil, or_false, mem_loopLt] at ht
    have h0 : (0 + 1 : ℤ).tmod 32 = 1 := by decide
    have h31 : (31 + 1 : ℤ).tmod 32 = 0 := by decide
    rcases ht with (rfl | rfl) | ⟨i, hi, (rfl | rfl)⟩ | (rfl | rfl)
    all_goals first
      | (simp only [h0]; omega)
      | (simp only [h31]; omega)
      | (have ht2 := tmod_succ_of_lt i (by omega) (by omega); simp only [ht2]; omega)
  -- quad strip 0, segments 1 .. 30
  rw [accumAt_flatMap_of_not_mem m vertices 0 (loopLt 1 31)]
  swap
  · intro i hi t ht
    rw [mem_loopLt] at hi
    have ht2 := tmod_succ_of_lt i (by omega) (by omega)
    simp only [List.mem_cons, List.mem_singleton, List.not_mem_nil, or_false] at ht
    rcases ht with rfl | rfl
    · simp only [ht2]
      omega
    · simp only [ht2]
      omega
  have h0 : (0 + 1 : ℤ).tmod 32 = 1 := by decide
  have h31 : (31 + 1 : ℤ).tmod 32 = 0 := by decide
  simp only [h0, h31, accumAt_pair]
  simp [accumAt]

theorem getD_loopLt (lo hi : ℤ) (k : ℕ) (hk : (k : ℤ) < hi - lo) (d : ℤ) :
    (loopLt lo hi).getD k d = lo + k := by
  unfold loopLt
  rw [List.getD_eq_getElem?_getD, List.getElem?_map, List.getElem?_range (by omega)]
  rfl

theorem getD_flatMap_map {β : Type} (rows cols : List ℤ) (f : ℤ → ℤ → β) (d : β) (r i : ℕ)
    (hr : r < rows.length) (hi : i < cols.length) :
    (rows.flatMap (fun j => cols.map (f j))).getD (r * cols.length + i) d =
      f (rows.getD r 0) (cols.getD i 0) := by
  induction rows generalizing r with
  | nil => simp at hr
  | cons j rows ih =>
    rw [List.flatMap_cons]
    cases r with
    | zero =>
      rw [List.getD_append _ _ _ _ (by simpa using hi)]
      simp only [Nat.zero_mul, Nat.zero_add, List.getD_cons_zero]
      rw [List.getD_eq_getElem?_getD, List.getElem?_map, List.getD_eq_getElem?_getD]
      rw [List.getElem?_eq_getElem hi]
      rfl
    | succ r =>
      rw [List.getD_append_right _ _ _ _ (by simp only [List.length_map]; nlinarith)]
      have e : (r + 1) * cols.length + i - (cols.map (f j)).length = r * cols.length + i := by
        simp only [List.length_map]
        rw [Nat.succ_mul]
        omega
      rw [e, ih r (by simpa using hr)]
      simp

theorem Q2_vertexAt_ring (m : CMath F) (w h : ℤ) (r i : ℕ) (hr : (r : ℤ) < h - 2)
    (hi : (i : ℤ) < w) :
    vertexAt (Q2.createSphere m w h).vertices ((r : ℤ) * w + (i : ℤ)) =
      ⟨2 * m.sinf (m.M_PI * ((1 + (r : ℤ) : ℤ) : F) / ((h : F) - 1))
          * m.cosf (2 * m.M_PI * ((0 + (i : ℤ) : ℤ) : F) / (w : F)),
        2 * m.cosf (m.M_PI * ((1 + (r : ℤ) : ℤ) : F) / ((h : F) - 1)),
        2 * m.sinf (m.M_PI * ((1 + (r : ℤ) : ℤ) : F) / ((h : F) - 1))
          * m.sinf (2 * m.M_PI * ((0 + (i : ℤ) : ℤ) : F) / (w : F)) - 7⟩ := by
  rw [Q2_createSphere_vertices]
  unfold vertexAt
  have hw0 : 0 ≤ w := by omega
  have hidx : 0 ≤ (r : ℤ) * w + (i : ℤ) := by positivity
  rw [if_neg (not_lt.mpr hidx)]
  have hcl : (loopLt 0 w).length = w.toNat := by rw [length_loopLt]; simp
  have hrl : (loopLt 1 (h - 1)).length = (h - 2).toNat := by
    rw [length_loopLt]
    congr 1
    ring
  have e : ((r : ℤ) * w + (i : ℤ)).toNat = r * (loopLt 0 w).length + i := by
    rw [hcl]
    have : ((r * w.toNat + i : ℕ) : ℤ) = (r : ℤ) * w + (i : ℤ) := by
      push_cast
      rw [Int.toNat_of_nonneg hw0]
    omega
  rw [e, List.getD_append _ _ _ _ (by
    rw [length_flatMap_map, hrl, hcl]
    have h1 : r + 1 ≤ (h - 2).toNat := by omega
    have h2 : i < w.toNat := by omega
    calc r * w.toNat + i < r * w.toNat + w.toNat := by omega
      _ = (r + 1) * w.toNat := by ring
      _ ≤ (h - 2).toNat * w.toNat := Nat.mul_le_mul_right _ h1)]
  rw [getD_flatMap_map _ _ _ _ _ _ (by rw [hrl]; omega) (by rw [hcl]; omega),
    getD_loopLt _ _ _ (by omega), getD_loopLt _ _ _ (by omega)]

theorem Q2_vertexAt_top (m : CMath F) (w h : ℤ) (hw : 0 ≤ w) (hh : 2 ≤ h) :
    vertexAt (Q2.createSphere m w h).vertices ((h - 2) * w) = ⟨0, 2, -7⟩ := by
  rw [Q2_createSphere_vertices]
  unfold vertexAt
  have hidx : 0 ≤ (h - 2) * w := by apply mul_nonneg <;> omega
  rw [if_neg (not_lt.mpr hidx)]
  have hl : ((loopLt 1 (h - 1)).flatMap (fun (j : ℤ) => (loopLt 0 w).map (fun (i : ℤ) =>
        (⟨2 * m.sinf (m.M_PI * (j : F) / ((h : F) - 1))
            * m.cosf (2 * m.M_PI * (i : F) / (w : F)),
          2 * m.cosf (m.M_PI * (j : F) / ((h : F) - 1)),
          2 * m.sinf (m.M_PI * (j : F) / ((h : F) - 1))
            * m.sinf (2 * m.M_PI * (i : F) / (w : F)) - 7⟩ : Vec3 F)))).length
      = ((h - 2) * w).toNat := by
    rw [length_flatMap_map, length_loopLt, length_loopLt]
    have : (((h - 1 - 1).toNat * (w - 0).toNat : ℕ) : ℤ) = (h - 2) * w := by
      rw [Nat.cast_mul, Int.toNat_of_nonneg (by omega), Int.toNat_of_nonneg (by omega)]
      ring
    omega
  rw [List.getD_append_right _ _ _ _ (by rw [hl]), hl]
  simp

theorem length_foldl_addNormal (m : CMath F) (vertices : List (Vec3 F))
    (tris : List (ℤ × ℤ × ℤ)) (vns : List (Vec3 F)) :
    (tris.foldl
      (fun vns tri =>
        let v0 := vertexAt vertices tri.1
        let v1 := vertexAt vertices tri.2.1
        let v2 := vertexAt vertices tri.2.2
        let normal := ((v1.sub v0).cross (v2.sub v0)).normalize m
        Q2.addNormal (Q2.addNormal (Q2.addNormal vns tri.1 normal) tri.2.1 normal) tri.2.2 normal)
      vns).length = vns.length := by
  induction tris generalizing vns with
  | nil => rfl
  | cons tri tris ih =>
    rw [List.foldl_cons, ih]
    simp only [length_addNormal]

theorem Q2_createSphere_vertexNormals (m : CMath F) (w h : ℤ) :
    (Q2.createSphere m w h).vertexNormals =
      ((sphereIndices w h (((Q2.createSphere m w h).vertices.length : ℤ) - 2)
          (((Q2.createSphere m w h).vertices.length : ℤ) - 1) []).foldl
        (fun vns tri =>
          let v0 := vertexAt (Q2.createSphere m w h).vertices tri.1
          let v1 := vertexAt (Q2.createSphere m w h).vertices tri.2.1
          let v2 := vertexAt (Q2.createSphere m w h).vertices tri.2.2
          let normal := ((v1.sub v0).cross (v2.sub v0)).normalize m
          Q2.addNormal (Q2.addNormal (Q2.addNormal vns tri.1 normal) tri.2.1 normal)
            tri.2.2 normal)
        (((loopLt 1 (h - 1)).flatMap (fun (_ : ℤ) => (loopLt 0 w).map
          (fun (_ : ℤ) => (⟨0, 0, 0⟩ : Vec3 F)))) ++ [⟨0, 0, 0⟩, ⟨0, 0, 0⟩])).map
        (fun n => n.normalize m) := by
  unfold Q2.createSphere
  simp only [foldl_foldl_pair_push]
  simp

theorem vertexAt_zeros (l : List (Vec3 F)) (h : ∀ v ∈ l, v = Vec3.zero) (k : ℤ) :
    vertexAt l k = Vec3.zero := by
  unfold vertexAt
  split
  · rfl
  · rw [List.getD_eq_getElem?_getD]
    cases hg : l[k.toNat]? with
    | none => rfl
    | some v => exact h v (List.getElem?_mem hg)

theorem vertexAt_map (g : Vec3 F → Vec3 F) (l : List (Vec3 F)) (k : ℤ) (hk0 : 0 ≤ k)
    (hk : k.toNat < l.length) : vertexAt (l.map g) k = g (vertexAt l k) := by
  unfold vertexAt
  rw [if_neg (not_lt.mpr hk0), if_neg (not_lt.mpr hk0), List.getD_eq_getElem?_getD,
    List.getD_eq_getElem?_getD, List.getElem?_map, List.getElem?_eq_getElem hk]
  rfl

theorem Q2_vertexNormal_zero (m : CMath F) :
    vertexAt (Q2.createSphere m 32 16).vertexNormals 0 =
      (((((Vec3.zero.add
        (faceNormal m (Q2.createSphere m 32 16).vertices (448, 0, 1))).add
        (faceNormal m (Q2.createSphere m 32 16).vertices (448, 31, 0))).add
        (faceNormal m (Q2.createSphere m 32 16).vertices (0, 33, 32))).add
        (faceNormal m (Q2.createSphere m 32 16).vertices (0, 1, 33))).add
        (faceNormal m (Q2.createSphere m 32 16).vertices (31, 0, 32))).normalize m := by
  have hlen : (Q2.createSphere m 32 16).vertices.length = 450 := by
    rw [Q2_createSphere_vertices, List.length_append, length_flatMap_map,
      length_loopLt, length_loopLt]
    simp
  have hz : ∀ v ∈ ((loopLt 1 ((16 : ℤ) - 1)).flatMap (fun (_ : ℤ) => (loopLt 0 (32 : ℤ)).map
      (fun (_ : ℤ) => (⟨0, 0, 0⟩ : Vec3 F)))) ++ [(⟨0, 0, 0⟩ : Vec3 F), ⟨0, 0, 0⟩],
      v = Vec3.zero := by
    intro v hv
    simp only [List.mem_append, List.mem_flatMap, List.mem_map, List.mem_cons,
      List.mem_singleton, List.not_mem_nil, or_false] at hv
    rcases hv with ⟨_, _, _, _, rfl⟩ | rfl | rfl <;> rfl
  have hl0 : (((loopLt 1 ((16 : ℤ) - 1)).flatMap (fun (_ : ℤ) => (loopLt 0 (32 : ℤ)).map
      (fun (_ : ℤ) => (⟨0, 0, 0⟩ : Vec3 F)))) ++ [(⟨0, 0, 0⟩ : Vec3 F), ⟨0, 0, 0⟩]).length
      = 450 := by
    rw [List.length_append, length_flatMap_map, length_loopLt, length_loopLt]
    simp
  rw [Q2_createSphere_vertexNormals, hlen,
    show ((450 : ℕ) : ℤ) - 2 = 448 by norm_num, show ((450 : ℕ) : ℤ) - 1 = 449 by norm_num,
    vertexAt_map _ _ 0 (le_refl 0) (by rw [length_foldl_addNormal, hl0]; decide),
    vertexAt_foldl_addNormal m _ 0 (le_refl 0) _ _ (by rw [hl0]; decide),
    vertexAt_zeros _ hz, accumAt_sphere_zero]

/-! ## Deviation of the vertex normal at ring vertex 0 -/

theorem real_sqrt_spec :
    ∀ x : ℝ, 0 ≤ x → 0 ≤ Real.sqrt x ∧ Real.sqrt x * Real.sqrt x = x :=
  fun x hx => ⟨Real.sqrt_nonneg x, Real.mul_self_sqrt hx⟩

theorem dot_add_left (u v t : Vec3 ℝ) : (u.add v).dot t = u.dot t + v.dot t := by
  simp only [Vec3.add, Vec3.dot]
  ring

theorem unit_normal_bound (m : CMath ℝ) (hm : m.sqrt = Real.sqrt) (n t : Vec3 ℝ) (e : ℝ)
    (he : 0 ≤ e) (hpos : 0 < n.dot t) (hsq : e ^ 2 * n.dot n ≤ (n.dot t) ^ 2) :
    e ≤ (n.normalize m).dot t ∧ (n.normalize m).dot (n.normalize m) = 1 := by
  have hs : ∀ x : ℝ, 0 ≤ x → 0 ≤ m.sqrt x ∧ m.sqrt x * m.sqrt x = x := by
    rw [hm]
    exact real_sqrt_spec
  have hnn : 0 < n.x * n.x + n.y * n.y + n.z * n.z := by
    by_contra hcon
    have hx := mul_self_nonneg n.x
    have hy := mul_self_nonneg n.y
    have hz := mul_self_nonneg n.z
    have ex : n.x = 0 := mul_self_eq_zero.mp (by linarith)
    have ey : n.y = 0 := mul_self_eq_zero.mp (by linarith)
    have ez : n.z = 0 := mul_self_eq_zero.mp (by linarith)
    simp only [Vec3.dot, ex, ey, ez, zero_mul, add_zero] at hpos
    exact lt_irrefl _ hpos
  refine ⟨?_, normalize_dot_self m hs n hnn⟩
  have hlen := sqrt_pos_of_pos m hs _ hnn
  have hlsq := (hs _ (le_of_lt hnn)).2
  unfold Vec3.normalize
  simp only [hlen, if_true]
  have hd : (n.scale (1 / m.sqrt (n.x * n.x + n.y * n.y + n.z * n.z))).dot t =
      n.dot t / m.sqrt (n.x * n.x + n.y * n.y + n.z * n.z) := by
    simp only [Vec3.scale, Vec3.dot]
    field_simp
  rw [hd, le_div_iff₀ hlen]
  have hnd : n.dot n = n.x * n.x + n.y * n.y + n.z * n.z := rfl
  rw [hnd] at hsq
  by_contra hcon
  push_neg at hcon
  have h1 : 0 ≤ e * m.sqrt (n.x * n.x + n.y * n.y + n.z * n.z) :=
    mul_nonneg he (le_of_lt hlen)
  nlinarith

theorem sq_sum_five (x1 x2 x3 x4 x5 : ℝ) :
    (x1 + x2 + x3 + x4 + x5) ^ 2 ≤ 5 * (x1 ^ 2 + x2 ^ 2 + x3 ^ 2 + x4 ^ 2 + x5 ^ 2) := by
  nlinarith [sq_nonneg (x1 - x2), sq_nonneg (x1 - x3), sq_nonneg (x1 - x4), sq_nonneg (x1 - x5),
    sq_nonneg (x2 - x3), sq_nonneg (x2 - x4), sq_nonneg (x2 - x5), sq_nonneg (x3 - x4),
    sq_nonneg (x3 - x5), sq_nonneg (x4 - x5)]

theorem sum_five_units (u1 u2 u3 u4 u5 t : Vec3 ℝ) (e : ℝ)
    (h1 : u1.dot u1 = 1) (h2 : u2.dot u2 = 1) (h3 : u3.dot u3 = 1) (h4 : u4.dot u4 = 1)
    (h5 : u5.dot u5 = 1)
    (t1 : e ≤ u1.dot t) (t2 : e ≤ u2.dot t) (t3 : e ≤ u3.dot t) (t4 : e ≤ u4.dot t)
    (t5 : e ≤ u5.dot t) :
    5 * e ≤ (((((Vec3.zero.add u1).add u2).add u3).add u4).add u5).dot t ∧
    (((((Vec3.zero.add u1).add u2).add u3).add u4).add u5).dot
      (((((Vec3.zero.add u1).add u2).add u3).add u4).add u5) ≤ 25 := by
  constructor
  · simp only [dot_add_left]
    have h0 : (Vec3.zero : Vec3 ℝ).dot t = 0 := by simp [Vec3.zero, Vec3.dot]
    linarith
  · simp only [Vec3.dot, Vec3.add, Vec3.zero, zero_add] at h1 h2 h3 h4 h5 ⊢
    have hx := sq_sum_five u1.x u2.x u3.x u4.x u5.x
    have hy := sq_sum_five u1.y u2.y u3.y u4.y u5.y
    have hz := sq_sum_five u1.z u2.z u3.z u4.z u5.z
    linarith

theorem ratio_bound (A u b2 Q : ℝ) (hA : 0 ≤ A) (hu : 16 / 10000 ≤ u) (hb2 : 0 ≤ b2)
    (hQ : Q ≤ 4 * u * b2) : (2 / 100) ^ 2 * (A * Q) ≤ A * b2 * u ^ 2 := by
  have hAb : 0 ≤ A * b2 := mul_nonneg hA hb2
  have hu0 : 0 ≤ u := by linarith
  have h1 : A * Q ≤ A * (4 * u * b2) := mul_le_mul_of_nonneg_left hQ hA
  have h2 : A * b2 * u * (16 / 10000) ≤ A * b2 * u * u :=
    mul_le_mul_of_nonneg_left hu (mul_nonneg hAb hu0)
  nlinarith

theorem one_sub_sq_le (a b : ℝ) (hab : a ^ 2 + b ^ 2 = 1) (ha : 0 ≤ a) :
    (1 - a) ^ 2 ≤ b ^ 2 := by
  have ha1 : a ≤ 1 := by nlinarith [sq_nonneg b]
  nlinarith

theorem fan_normal_bound (s c a b z : ℝ) (hsc : s ^ 2 + c ^ 2 = 1) (hab : a ^ 2 + b ^ 2 = 1)
    (hs : 0 < s) (hb : 0 < b) (ha : 0 ≤ a) (hc0 : 0 ≤ c) (hu : 16 / 10000 ≤ 1 - c)
    (n : Vec3 ℝ)
    (hn : n = ⟨4 * ((c - 1) * s * b), 4 * (-(s ^ 2 * b)), z * (4 * (s * (c - 1) * (1 - a)))⟩)
    (hz : z ^ 2 = 1) :
    0 < n.dot ⟨c, -s, 0⟩ ∧ (2 / 100) ^ 2 * n.dot n ≤ (n.dot ⟨c, -s, 0⟩) ^ 2 := by
  have hdot : n.dot ⟨c, -s, 0⟩ = 4 * s * b * (1 - c) := by
    rw [hn]
    simp only [Vec3.dot]
    linear_combination (4 * s * b) * hsc
  have hnn : n.dot n = 16 * s ^ 2 *
      ((1 - c) ^ 2 * b ^ 2 + s ^ 2 * b ^ 2 + (1 - c) ^ 2 * (1 - a) ^ 2) := by
    rw [hn]
    simp only [Vec3.dot]
    linear_combination (16 * s ^ 2 * (c - 1) ^ 2 * (1 - a) ^ 2) * hz
  have hu0 : 0 ≤ 1 - c := by linarith
  have hu1 : 1 - c ≤ 1 := by linarith
  have hb2 : 0 ≤ b ^ 2 := sq_nonneg b
  have hs2 : s ^ 2 ≤ 2 * (1 - c) := by nlinarith
  have ha2 := one_sub_sq_le a b hab ha
  have hQ : (1 - c) ^ 2 * b ^ 2 + s ^ 2 * b ^ 2 + (1 - c) ^ 2 * (1 - a) ^ 2
      ≤ 4 * (1 - c) * b ^ 2 := by
    have q1 : (1 - c) ^ 2 ≤ 1 - c := by nlinarith
    have q2 : (1 - c) ^ 2 * b ^ 2 ≤ (1 - c) * b ^ 2 := mul_le_mul_of_nonneg_right q1 hb2
    have q3 : s ^ 2 * b ^ 2 ≤ 2 * (1 - c) * b ^ 2 := mul_le_mul_of_nonneg_right hs2 hb2
    have q4 : (1 - c) ^ 2 * (1 - a) ^ 2 ≤ (1 - c) * b ^ 2 :=
      mul_le_mul q1 ha2 (sq_nonneg _) hu0
    linarith
  constructor
  · rw [hdot]
    have : 0 < 1 - c := by linarith
    positivity
  · rw [hdot, hnn]
    have h := ratio_bound (16 * s ^ 2) (1 - c) (b ^ 2) _ (by positivity) hu hb2 hQ
    calc (2 / 100) ^ 2 * (16 * s ^ 2 *
          ((1 - c) ^ 2 * b ^ 2 + s ^ 2 * b ^ 2 + (1 - c) ^ 2 * (1 - a) ^ 2))
        ≤ 16 * s ^ 2 * b ^ 2 * (1 - c) ^ 2 := h
      _ = (4 * s * b * (1 - c)) ^ 2 := by ring

theorem quad_normal_bound (s c s2 c2 a b z k : ℝ) (hsc : s ^ 2 + c ^ 2 = 1)
    (hsc2 : s2 ^ 2 + c2 ^ 2 = 1) (hab : a ^ 2 + b ^ 2 = 1)
    (hk : 0 < k) (hb : 0 < b) (ha : 0 ≤ a) (hv : 16 / 10000 ≤ 1 - (c * c2 + s * s2))
    (n : Vec3 ℝ)
    (hn : n = ⟨4 * k * (b * (c - c2)), 4 * k * (b * (s2 - s)),
      z * (4 * k * ((c - c2) * (1 - a)))⟩)
    (hz : z ^ 2 = 1) :
    0 < n.dot ⟨c, -s, 0⟩ ∧ (2 / 100) ^ 2 * n.dot n ≤ (n.dot ⟨c, -s, 0⟩) ^ 2 := by
  have hdot : n.dot ⟨c, -s, 0⟩ = 4 * k * b * (1 - (c * c2 + s * s2)) := by
    rw [hn]
    simp only [Vec3.dot]
    linear_combination (4 * k * b) * hsc
  have hnn : n.dot n = 16 * k ^ 2 *
      (b ^ 2 * (2 * (1 - (c * c2 + s * s2))) + (c - c2) ^ 2 * (1 - a) ^ 2) := by
    rw [hn]
    simp only [Vec3.dot]
    linear_combination (16 * k ^ 2 * (c - c2) ^ 2 * (1 - a) ^ 2) * hz
      + (16 * k ^ 2 * b ^ 2) * hsc + (16 * k ^ 2 * b ^ 2) * hsc2
  have hv0 : 0 ≤ 1 - (c * c2 + s * s2) := by linarith
  have hb2 : 0 ≤ b ^ 2 := sq_nonneg b
  have ha2 := one_sub_sq_le a b hab ha
  have hcc : (c - c2) ^ 2 ≤ 2 * (1 - (c * c2 + s * s2)) := by
    nlinarith [sq_nonneg (s2 - s)]
  have hQ : b ^ 2 * (2 * (1 - (c * c2 + s * s2))) + (c - c2) ^ 2 * (1 - a) ^ 2
      ≤ 4 * (1 - (c * c2 + s * s2)) * b ^ 2 := by
    have q4 : (c - c2) ^ 2 * (1 - a) ^ 2 ≤ 2 * (1 - (c * c2 + s * s2)) * b ^ 2 :=
      mul_le_mul hcc ha2 (sq_nonneg _) (by linarith)
    linarith
  constructor
  · rw [hdot]
    have : 0 < 1 - (c * c2 + s * s2) := by linarith
    positivity
  · rw [hdot, hnn]
    have h := ratio_bound (16 * k ^ 2) (1 - (c * c2 + s * s2)) (b ^ 2) _ (by positivity) hv hb2 hQ
    calc (2 / 100) ^ 2 * (16 * k ^ 2 *
          (b ^ 2 * (2 * (1 - (c * c2 + s * s2))) + (c - c2) ^ 2 * (1 - a) ^ 2))
        ≤ 16 * k ^ 2 * b ^ 2 * (1 - (c * c2 + s * s2)) ^ 2 := h
      _ = (4 * k * b * (1 - (c * c2 + s * s2))) ^ 2 := by ring

theorem cos_one_degree_gt : (9998 / 10000 : ℝ) < Real.cos (Real.pi / 180) := by
  have hpi : Real.pi < 315 / 100 := by
    have h := Real.pi_lt_d2
    norm_num at h
    linarith
  have hpi0 := Real.pi_pos
  have h := @Real.one_sub_sq_div_two_le_cos (Real.pi / 180)
  have hx0 : 0 ≤ Real.pi / 180 := by positivity
  have hx1 : Real.pi / 180 ≤ 315 / 100 / 180 := by linarith
  have hsq : (Real.pi / 180) ^ 2 ≤ (315 / 100 / 180 : ℝ) ^ 2 := pow_le_pow_left₀ hx0 hx1 2
  norm_num at hsq
  linarith

theorem Q2_real_vertices (p : ℝ) :
    vertexAt (Q2.createSphere (⟨p, Real.sqrt, fun a b => a ^ b, Real.sin, Real.cos⟩
        : CMath ℝ) 32 16).vertices 0 =
      ⟨2 * Real.sin (p / 15), 2 * Real.cos (p / 15), -7⟩ ∧
    vertexAt (Q2.createSphere (⟨p, Real.sqrt, fun a b => a ^ b, Real.sin, Real.cos⟩
        : CMath ℝ) 32 16).vertices 1 =
      ⟨2 * Real.sin (p / 15) * Real.cos (p / 16), 2 * Real.cos (p / 15),
        2 * Real.sin (p / 15) * Real.sin (p / 16) - 7⟩ ∧
    vertexAt (Q2.createSphere (⟨p, Real.sqrt, fun a b => a ^ b, Real.sin, Real.cos⟩
        : CMath ℝ) 32 16).vertices 31 =
      ⟨2 * Real.sin (p / 15) * Real.cos (31 * p / 16), 2 * Real.cos (p / 15),
        2 * Real.sin (p / 15) * Real.sin (31 * p / 16) - 7⟩ ∧
    vertexAt (Q2.createSphere (⟨p, Real.sqrt, fun a b => a ^ b, Real.sin, Real.cos⟩
        : CMath ℝ) 32 16).vertices 32 =
      ⟨2 * Real.sin (2 * p / 15), 2 * Real.cos (2 * p / 15), -7⟩ ∧
    vertexAt (Q2.createSphere (⟨p, Real.sqrt, fun a b => a ^ b, Real.sin, Real.cos⟩
        : CMath ℝ) 32 16).vertices 33 =
      ⟨2 * Real.sin (2 * p / 15) * Real.cos (p / 16),
        2 * Real.cos (2 * p / 15),
        2 * Real.sin (2 * p / 15) * Real.sin (p / 16) - 7⟩ ∧
    vertexAt (Q2.createSphere (⟨p, Real.sqrt, fun a b => a ^ b, Real.sin, Real.cos⟩
        : CMath ℝ) 32 16).vertices 448 = ⟨0, 2, -7⟩ := by
  have e1 : p * (((1 + ((0 : ℕ) : ℤ) : ℤ)) : ℝ) / (((16 : ℤ) : ℝ) - 1) = p / 15 := by
    push_cast
    ring
  have e2 : p * (((1 + ((1 : ℕ) : ℤ) : ℤ)) : ℝ) / (((16 : ℤ) : ℝ) - 1) = 2 * p / 15 := by
    push_cast
    ring
  have f0 : 2 * p * (((0 + ((0 : ℕ) : ℤ) : ℤ)) : ℝ) / ((32 : ℤ) : ℝ) = 0 := by
    push_cast
    ring
  have f1 : 2 * p * (((0 + ((1 : ℕ) : ℤ) : ℤ)) : ℝ) / ((32 : ℤ) : ℝ) = p / 16 := by
    push_cast
    ring
  have f31 : 2 * p * (((0 + ((31 : ℕ) : ℤ) : ℤ)) : ℝ) / ((32 : ℤ) : ℝ) = 31 * p / 16 := by
    push_cast
    ring
  refine ⟨?_, ?_, ?_, ?_, ?_, ?_⟩
  · have h := Q2_vertexAt_ring (⟨p, Real.sqrt, fun a b => a ^ b, Real.sin, Real.cos⟩
      : CMath ℝ) 32 16 0 0 (by norm_num) (by norm_num)
    simp only [e1, f0, Real.cos_zero, Real.sin_zero, mul_one, mul_zero, zero_sub] at h
    rw [← h]
    norm_num
  · have h := Q2_vertexAt_ring (⟨p, Real.sqrt, fun a b => a ^ b, Real.sin, Real.cos⟩
      : CMath ℝ) 32 16 0 1 (by norm_num) (by norm_num)
    simp only [e1, f1] at h
    rw [← h]
    norm_num
  · have h := Q2_vertexAt_ring (⟨p, Real.sqrt, fun a b => a ^ b, Real.sin, Real.cos⟩
      : CMath ℝ) 32 16 0 31 (by norm_num) (by norm_num)
    simp only [e1, f31] at h
    rw [← h]
    norm_num
  · have h := Q2_vertexAt_ring (⟨p, Real.sqrt, fun a b => a ^ b, Real.sin, Real.cos⟩
      : CMath ℝ) 32 16 1 0 (by norm_num) (by norm_num)
    simp only [e2, f0, Real.cos_zero, Real.sin_zero, mul_one, mul_zero, zero_sub] at h
    rw [← h]
    norm_num
  · have h := Q2_vertexAt_ring (⟨p, Real.sqrt, fun a b => a ^ b, Real.sin, Real.cos⟩
      : CMath ℝ) 32 16 1 1 (by norm_num) (by norm_num)
    simp only [e2, f1] at h
    rw [← h]
    norm_num
  · have h := Q2_vertexAt_top (⟨p, Real.sqrt, fun a b => a ^ b, Real.sin, Real.cos⟩
      : CMath ℝ) 32 16 (by norm_num) (by norm_num)
    rw [← h]
    norm_num

theorem one_sub_cos_div_fifteen (p : ℝ) (h1 : 3 ≤ p) (h2 : p ≤ 4) :
    16 / 10000 ≤ 1 - Real.cos (p / 15) := by
  have hx0 : 0 ≤ p / 15 := by positivity
  have hx1 : p / 15 ≤ 4 / 15 := by linarith
  have hx2 : 3 / 15 ≤ p / 15 := by linarith
  have habs : |p / 15| ≤ 1 := by
    rw [abs_of_nonneg hx0]
    linarith
  have hb := Real.cos_bound habs
  rw [abs_of_nonneg hx0] at hb
  have hb2 := (abs_le.mp hb).2
  have hsq : (3 / 15 : ℝ) ^ 2 ≤ (p / 15) ^ 2 := pow_le_pow_left₀ (by norm_num) hx2 2
  have h4 : (p / 15) ^ 4 ≤ (4 / 15 : ℝ) ^ 4 := pow_le_pow_left₀ hx0 hx1 4
  norm_num at hsq h4
  linarith

theorem trig_last_segment (p : ℝ) (h1 : 314 / 100 ≤ p) (h2 : p ≤ 315 / 100) :
    0 ≤ Real.cos (31 * p / 16) ∧ 0 < -Real.sin (31 * p / 16) := by
  have hpi1 : (314 / 100 : ℝ) < Real.pi := by
    have h := Real.pi_gt_d2
    norm_num at h
    linarith
  have hpi2 : Real.pi < 315 / 100 := by
    have h := Real.pi_lt_d2
    norm_num at h
    linarith
  have ec : Real.cos (31 * p / 16) = Real.cos (2 * Real.pi - 31 * p / 16) := by
    rw [Real.cos_two_pi_sub]
  have es : -Real.sin (31 * p / 16) = Real.sin (2 * Real.pi - 31 * p / 16) := by
    rw [Real.sin_two_pi_sub]
  rw [ec, es]
  constructor
  · exact Real.cos_nonneg_of_mem_Icc ⟨by linarith, by linarith⟩
  · exact Real.sin_pos_of_pos_of_lt_pi (by linarith) (by linarith)

theorem sq_bound_of_sum (x y : ℝ) (h1 : 5 * (2 / 100) ≤ x) (h2 : y ≤ 25) :
    (2 / 100 : ℝ) ^ 2 * y ≤ x ^ 2 := by
  nlinarith

theorem bessel_two (N : Vec3 ℝ) (s c : ℝ) (hsc : s ^ 2 + c ^ 2 = 1) (hNN : N.dot N = 1) :
    (N.dot ⟨s, c, 0⟩) ^ 2 + (N.dot ⟨c, -s, 0⟩) ^ 2 ≤ 1 := by
  simp only [Vec3.dot] at hNN ⊢
  have e : (N.x * s + N.y * c + N.z * 0) ^ 2 + (N.x * c + N.y * -s + N.z * 0) ^ 2
      = (N.x ^ 2 + N.y ^ 2) * (s ^ 2 + c ^ 2) := by ring
  rw [e, hsc]
  nlinarith [sq_nonneg N.z]

theorem lt_of_bessel (p q C : ℝ) (hq : 2 / 100 ≤ q) (hB : p ^ 2 + q ^ 2 ≤ 1)
    (hC : 9998 / 10000 < C) : p < C := by
  by_contra hcon
  push_neg at hcon
  have hp : 9998 / 10000 < p := lt_of_lt_of_le hC hcon
  nlinarith

theorem vertex_normal_zero_deviates (p : ℝ) (h1 : 314 / 100 ≤ p) (h2 : p ≤ 315 / 100) :
    (vertexAt (Q2.createSphere (⟨p, Real.sqrt, fun a b => a ^ b, Real.sin, Real.cos⟩
        : CMath ℝ) 32 16).vertexNormals 0).dot
      (vertexAt (Q2.createSphere (⟨p, Real.sqrt, fun a b => a ^ b, Real.sin, Real.cos⟩
        : CMath ℝ) 32 16).vertexNormals 0) = 1 ∧
    (((vertexAt (Q2.createSphere (⟨p, Real.sqrt, fun a b => a ^ b, Real.sin, Real.cos⟩
        : CMath ℝ) 32 16).vertices 0).sub ⟨0, 0, -7⟩).scale (1 / 2)).dot
      (((vertexAt (Q2.createSphere (⟨p, Real.sqrt, fun a b => a ^ b, Real.sin, Real.cos⟩
        : CMath ℝ) 32 16).vertices 0).sub ⟨0, 0, -7⟩).scale (1 / 2)) = 1 ∧
    (vertexAt (Q2.createSphere (⟨p, Real.sqrt, fun a b => a ^ b, Real.sin, Real.cos⟩
        : CMath ℝ) 32 16).vertexNormals 0).dot
      (((vertexAt (Q2.createSphere (⟨p, Real.sqrt, fun a b => a ^ b, Real.sin, Real.cos⟩
        : CMath ℝ) 32 16).vertices 0).sub ⟨0, 0, -7⟩).scale (1 / 2))
      < Real.cos (Real.pi / 180) := by
  obtain ⟨hV0, hV1, hV31, hV32, hV33, hT⟩ := Q2_real_vertices p
  rw [Q2_vertexNormal_zero]
  simp only [faceNormal, hV0, hV1, hV31, hV32, hV33, hT]
  generalize hm : (⟨p, Real.sqrt, fun a b => a ^ b, Real.sin, Real.cos⟩ : CMath ℝ) = m
  have hsqrt : m.sqrt = Real.sqrt := by rw [← hm]
  -- trigonometric facts
  have hpi : (314 / 100 : ℝ) < Real.pi := by
    have h := Real.pi_gt_d2
    norm_num at h
    linarith
  have hsc := Real.sin_sq_add_cos_sq (p / 15)
  have hsc2 := Real.sin_sq_add_cos_sq (2 * p / 15)
  have hab : Real.cos (p / 16) ^ 2 + Real.sin (p / 16) ^ 2 = 1 :=
    Real.cos_sq_add_sin_sq (p / 16)
  have hab' : Real.cos (31 * p / 16) ^ 2 + (-Real.sin (31 * p / 16)) ^ 2 = 1 := by
    rw [neg_sq]
    exact Real.cos_sq_add_sin_sq (31 * p / 16)
  have hs : 0 < Real.sin (p / 15) :=
    Real.sin_pos_of_pos_of_lt_pi (by linarith) (by linarith)
  have hs2 : 0 < Real.sin (2 * p / 15) :=
    Real.sin_pos_of_pos_of_lt_pi (by linarith) (by linarith)
  have hb : 0 < Real.sin (p / 16) :=
    Real.sin_pos_of_pos_of_lt_pi (by linarith) (by linarith)
  have ha : 0 ≤ Real.cos (p / 16) :=
    Real.cos_nonneg_of_mem_Icc ⟨by linarith, by linarith⟩
  have hc0 : 0 ≤ Real.cos (p / 15) :=
    Real.cos_nonneg_of_mem_Icc ⟨by linarith, by linarith⟩
  obtain ⟨ha', hb'⟩ := trig_last_segment p h1 h2
  have hu := one_sub_cos_div_fifteen p (by linarith) (by linarith)
  have hv : 16 / 10000 ≤ 1 - (Real.cos (p / 15) * Real.cos (2 * p / 15)
      + Real.sin (p / 15) * Real.sin (2 * p / 15)) := by
    have hsub := Real.cos_sub (2 * p / 15) (p / 15)
    have harg : 2 * p / 15 - p / 15 = p / 15 := by ring
    rw [harg] at hsub
    linarith
  clear hpi h1 h2 hV0 hV1 hV31 hV32 hV33 hT hm
  generalize Real.sin (p / 15) = s at *
  generalize Real.cos (p / 15) = c at *
  generalize Real.sin (2 * p / 15) = s2 at *
  generalize Real.cos (2 * p / 15) = c2 at *
  generalize Real.sin (p / 16) = b at *
  generalize Real.cos (p / 16) = a at *
  generalize Real.sin (31 * p / 16) = b' at *
  generalize Real.cos (31 * p / 16) = a' at *
  -- the five face normals before normalization
  have b1 := fan_normal_bound s c a b 1 hsc hab hs hb ha hc0 hu
    (((⟨2 * s, 2 * c, -7⟩ : Vec3 ℝ).sub ⟨0, 2, -7⟩).cross
      ((⟨2 * s * a, 2 * c, 2 * s * b - 7⟩ : Vec3 ℝ).sub ⟨0, 2, -7⟩))
    (by simp only [Vec3.sub, Vec3.cross, Vec3.mk.injEq]
        exact ⟨by ring, by ring, by ring⟩) (by norm_num)
  have b2 := fan_normal_bound s c a' (-b') (-1) hsc hab' hs hb' ha' hc0 hu
    (((⟨2 * s * a', 2 * c, 2 * s * b' - 7⟩ : Vec3 ℝ).sub ⟨0, 2, -7⟩).cross
      ((⟨2 * s, 2 * c, -7⟩ : Vec3 ℝ).sub ⟨0, 2, -7⟩))
    (by simp only [Vec3.sub, Vec3.cross, Vec3.mk.injEq]
        exact ⟨by ring, by ring, by ring⟩) (by norm_num)
  have b3 := quad_normal_bound s c s2 c2 a b 1 s2 hsc hsc2 hab hs2 hb ha hv
    (((⟨2 * s2 * a, 2 * c2, 2 * s2 * b - 7⟩ : Vec3 ℝ).sub ⟨2 * s, 2 * c, -7⟩).cross
      ((⟨2 * s2, 2 * c2, -7⟩ : Vec3 ℝ).sub ⟨2 * s, 2 * c, -7⟩))
    (by simp only [Vec3.sub, Vec3.cross, Vec3.mk.injEq]
        exact ⟨by ring, by ring, by ring⟩) (by norm_num)
  have b4 := quad_normal_bound s c s2 c2 a b 1 s hsc hsc2 hab hs hb ha hv
    (((⟨2 * s * a, 2 * c, 2 * s * b - 7⟩ : Vec3 ℝ).sub ⟨2 * s, 2 * c, -7⟩).cross
      ((⟨2 * s2 * a, 2 * c2, 2 * s2 * b - 7⟩ : Vec3 ℝ).sub ⟨2 * s, 2 * c, -7⟩))
    (by simp only [Vec3.sub, Vec3.cross, Vec3.mk.injEq]
        exact ⟨by ring, by ring, by ring⟩) (by norm_num)
  have b5 := quad_normal_bound s c s2 c2 a' (-b') (-1) s hsc hsc2 hab' hs hb' ha' hv
    (((⟨2 * s, 2 * c, -7⟩ : Vec3 ℝ).sub ⟨2 * s * a', 2 * c, 2 * s * b' - 7⟩).cross
      ((⟨2 * s2, 2 * c2, -7⟩ : Vec3 ℝ).sub ⟨2 * s * a', 2 * c, 2 * s * b' - 7⟩))
    (by simp only [Vec3.sub, Vec3.cross, Vec3.mk.injEq]
        exact ⟨by ring, by ring, by ring⟩) (by norm_num)
  have u1 := unit_normal_bound m hsqrt _ ⟨c, -s, 0⟩ (2 / 100) (by norm_num) b1.1 b1.2
  have u2 := unit_normal_bound m hsqrt _ ⟨c, -s, 0⟩ (2 / 100) (by norm_num) b2.1 b2.2
  have u3 := unit_normal_bound m hsqrt _ ⟨c, -s, 0⟩ (2 / 100) (by norm_num) b3.1 b3.2
  have u4 := unit_normal_bound m hsqrt _ ⟨c, -s, 0⟩ (2 / 100) (by norm_num) b4.1 b4.2
  have u5 := unit_normal_bound m hsqrt _ ⟨c, -s, 0⟩ (2 / 100) (by norm_num) b5.1 b5.2
  have hS := sum_five_units _ _ _ _ _ ⟨c, -s, 0⟩ (2 / 100) u1.2 u2.2 u3.2 u4.2 u5.2
    u1.1 u2.1 u3.1 u4.1 u5.1
  have hN := unit_normal_bound m hsqrt _ ⟨c, -s, 0⟩ (2 / 100) (by norm_num)
    (lt_of_lt_of_le (by norm_num) hS.1) (sq_bound_of_sum _ _ hS.1 hS.2)
  have hrad : ((⟨2 * s, 2 * c, -7⟩ : Vec3 ℝ).sub ⟨0, 0, -7⟩).scale (1 / 2) = ⟨s, c, 0⟩ := by
    simp only [Vec3.sub, Vec3.scale, Vec3.mk.injEq]
    exact ⟨by ring, by ring, by ring⟩
  rw [hrad]
  refine ⟨hN.2, ?_, ?_⟩
  · simp only [Vec3.dot]
    linarith only [hsc]
  · exact lt_of_bessel _ _ _ hN.1 (bessel_two _ s c hsc hN.2) cos_one_degree_gt

/-- Claim C10 fails on the code.  After `createSphere(32, 16)` of `Q2.cpp`
(and `Q3.cpp`), in real arithmetic, the normal stored for ring vertex 0 has
unit length, and so has the analytic radial normal `(vertex - (0,0,-7)) / 2`,
but their inner product is below `cos(1 degree)`: the stored normal deviates
from the radial normal by more than one degree.  This holds with `M_PI` read
as the number pi, and with `M_PI` read as the decimal
`3.14159265358979323846` of the source. -/
theorem C10_vertex_normal_deviates :
    ((vertexAt (Q2.createSphere (⟨Real.pi, Real.sqrt, fun a b => a ^ b, Real.sin, Real.cos⟩
        : CMath ℝ) 32 16).vertexNormals 0).dot
      (vertexAt (Q2.createSphere (⟨Real.pi, Real.sqrt, fun a b => a ^ b, Real.sin, Real.cos⟩
        : CMath ℝ) 32 16).vertexNormals 0) = 1 ∧
    (((vertexAt (Q2.createSphere (⟨Real.pi, Real.sqrt, fun a b => a ^ b, Real.sin, Real.cos⟩
        : CMath ℝ) 32 16).vertices 0).sub ⟨0, 0, -7⟩).scale (1 / 2)).dot
      (((vertexAt (Q2.createSphere (⟨Real.pi, Real.sqrt, fun a b => a ^ b, Real.sin, Real.cos⟩
        : CMath ℝ) 32 16).vertices 0).sub ⟨0, 0, -7⟩).scale (1 / 2)) = 1 ∧
    (vertexAt (Q2.createSphere (⟨Real.pi, Real.sqrt, fun a b => a ^ b, Real.sin, Real.cos⟩
        : CMath ℝ) 32 16).vertexNormals 0).dot
      (((vertexAt (Q2.createSphere (⟨Real.pi, Real.sqrt, fun a b => a ^ b, Real.sin, Real.cos⟩
        : CMath ℝ) 32 16).vertices 0).sub ⟨0, 0, -7⟩).scale (1 / 2))
      < Real.cos (Real.pi / 180)) ∧
    ((vertexAt (Q2.createSphere (⟨314159265358979323846 / 100000000000000000000, Real.sqrt,
        fun a b => a ^ b, Real.sin, Real.cos⟩ : CMath ℝ) 32 16).vertexNormals 0).dot
      (vertexAt (Q2.createSphere (⟨314159265358979323846 / 100000000000000000000, Real.sqrt,
        fun a b => a ^ b, Real.sin, Real.cos⟩ : CMath ℝ) 32 16).vertexNormals 0) = 1 ∧
    (((vertexAt (Q2.createSphere (⟨314159265358979323846 / 100000000000000000000, Real.sqrt,
        fun a b => a ^ b, Real.sin, Real.cos⟩ : CMath ℝ) 32 16).vertices 0).sub
          ⟨0, 0, -7⟩).scale (1 / 2)).dot
      (((vertexAt (Q2.createSphere (⟨314159265358979323846 / 100000000000000000000, Real.sqrt,
        fun a b => a ^ b, Real.sin, Real.cos⟩ : CMath ℝ) 32 16).vertices 0).sub
          ⟨0, 0, -7⟩).scale (1 / 2)) = 1 ∧
    (vertexAt (Q2.createSphere (⟨314159265358979323846 / 100000000000000000000, Real.sqrt,
        fun a b => a ^ b, Real.sin, Real.cos⟩ : CMath ℝ) 32 16).vertexNormals 0).dot
      (((vertexAt (Q2.createSphere (⟨314159265358979323846 / 100000000000000000000, Real.sqrt,
        fun a b => a ^ b, Real.sin, Real.cos⟩ : CMath ℝ) 32 16).vertices 0).sub
          ⟨0, 0, -7⟩).scale (1 / 2))
      < Real.cos (Real.pi / 180)) := by
  have hpi1 : (314 / 100 : ℝ) ≤ Real.pi := by
    have h := Real.pi_gt_d2
    norm_num at h
    linarith
  have hpi2 : Real.pi ≤ 315 / 100 := by
    have h := Real.pi_lt_d2
    norm_num at h
    linarith
  exact ⟨vertex_normal_zero_deviates Real.pi hpi1 hpi2,
    vertex_normal_zero_deviates (314159265358979323846 / 100000000000000000000)
      (by norm_num) (by norm_num)⟩

/-! ## Gamma encoding and pixel writes -/

theorem clamp_of_one_le (c : F) (h : 1 ≤ c) : clamp c 0 1 = 1 := by
  unfold clamp
  rw [if_neg (by linarith)]
  split
  · rfl
  · linarith

theorem clamp_of_le_zero (c : F) (h : c ≤ 0) : clamp c 0 1 = 0 := by
  unfold clamp
  by_cases h0 : c < 0
  · rw [if_pos h0]
  · rw [if_neg h0, if_neg (by linarith)]
    linarith

theorem encodeChannel_of_one_le (m : CMath F) (h1 : m.pow 1 (1 / (22 / 10)) = 1) (c : F)
    (hc : 1 ≤ c) : encodeChannel m c = 255 := by
  unfold encodeChannel
  rw [clamp_of_one_le c hc, h1, one_mul]
  exact Nat.floor_natCast 255

theorem encodeChannel_of_le_zero (m : CMath F) (h0 : m.pow 0 (1 / (22 / 10)) = 0) (c : F)
    (hc : c ≤ 0) : encodeChannel m c = 0 := by
  unfold encodeChannel
  rw [clamp_of_le_zero c hc, h0, zero_mul]
  exact Nat.floor_zero

theorem setPixel_at (m : CMath F) (fb : Grid (ℕ × ℕ × ℕ)) (r : Fin HEIGHT) (c : Fin WIDTH)
    (color : Vec3 F) :
    setPixel m fb (c.val : ℤ) (r.val : ℤ) color r c = encodeColor m color := by
  rw [setPixel_coe]
  simp [Grid.set]

/-- Claim C11.  Gamma encoding end points.  With `pow(1, 1/2.2) = 1` and
`pow(0, 1/2.2) = 0`, for every pixel of the buffer `setPixel` stores the byte
255 for each channel whose linear value is at least 1 and the byte 0 for each
channel whose linear value is at most 0; so the colour `(1, 1, 1)` is stored
as `(255, 255, 255)` and `(0, 0, 0)` as `(0, 0, 0)`. -/
theorem C11_gamma_end_points (m : CMath F) (h1 : m.pow 1 (1 / (22 / 10)) = 1)
    (h0 : m.pow 0 (1 / (22 / 10)) = 0) (fb : Grid (ℕ × ℕ × ℕ)) (r : Fin HEIGHT)
    (c : Fin WIDTH) (color : Vec3 F) :
    (1 ≤ color.x → (setPixel m fb (c.val : ℤ) (r.val : ℤ) color r c).1 = 255) ∧
    (color.x ≤ 0 → (setPixel m fb (c.val : ℤ) (r.val : ℤ) color r c).1 = 0) ∧
    (1 ≤ color.y → (setPixel m fb (c.val : ℤ) (r.val : ℤ) color r c).2.1 = 255) ∧
    (color.y ≤ 0 → (setPixel m fb (c.val : ℤ) (r.val : ℤ) color r c).2.1 = 0) ∧
    (1 ≤ color.z → (setPixel m fb (c.val : ℤ) (r.val : ℤ) color r c).2.2 = 255) ∧
    (color.z ≤ 0 → (setPixel m fb (c.val : ℤ) (r.val : ℤ) color r c).2.2 = 0) ∧
    setPixel m fb (c.val : ℤ) (r.val : ℤ) ⟨1, 1, 1⟩ r c = (255, 255, 255) ∧
    setPixel m fb (c.val : ℤ) (r.val : ℤ) ⟨0, 0, 0⟩ r c = (0, 0, 0) := by
  simp only [setPixel_at, encodeColor]
  refine ⟨encodeChannel_of_one_le m h1 _, encodeChannel_of_le_zero m h0 _,
    encodeChannel_of_one_le m h1 _, encodeChannel_of_le_zero m h0 _,
    encodeChannel_of_one_le m h1 _, encodeChannel_of_le_zero m h0 _, ?_, ?_⟩
  · rw [encodeChannel_of_one_le m h1 1 (le_refl 1)]
  · rw [encodeChannel_of_le_zero m h0 0 (le_refl 0)]

/-- Claim C11, instance: real arithmetic with the real power function, the
pixel of row 3 and column 5, and the colour `(2, 1/2, -1)`. -/
theorem C11_gamma_end_points_witness :
    ((1 : ℝ) ^ ((1 : ℝ) / (22 / 10)) = 1) ∧ ((0 : ℝ) ^ ((1 : ℝ) / (22 / 10)) = 0) ∧
    ∀ fb : Grid (ℕ × ℕ × ℕ),
      (setPixel (⟨Real.pi, Real.sqrt, fun a b => a ^ b, Real.sin, Real.cos⟩ : CMath ℝ) fb
        (((⟨5, by decide⟩ : Fin WIDTH).val : ℕ) : ℤ) (((⟨3, by decide⟩ : Fin HEIGHT).val : ℕ) : ℤ)
        ⟨2, 1 / 2, -1⟩ ⟨3, by decide⟩ ⟨5, by decide⟩).1 = 255 ∧
      (setPixel (⟨Real.pi, Real.sqrt, fun a b => a ^ b, Real.sin, Real.cos⟩ : CMath ℝ) fb
        (((⟨5, by decide⟩ : Fin WIDTH).val : ℕ) : ℤ) (((⟨3, by decide⟩ : Fin HEIGHT).val : ℕ) : ℤ)
        ⟨2, 1 / 2, -1⟩ ⟨3, by decide⟩ ⟨5, by decide⟩).2.2 = 0 :=
  ⟨Real.one_rpow _, Real.zero_rpow (by norm_num),
    fun fb =>
      ⟨(C11_gamma_end_points (⟨Real.pi, Real.sqrt, fun a b => a ^ b, Real.sin, Real.cos⟩ : CMath ℝ)
          (Real.one_rpow _) (Real.zero_rpow (by norm_num)) fb ⟨3, by decide⟩ ⟨5, by decide⟩
          ⟨2, 1 / 2, -1⟩).1 (by norm_num),
       (C11_gamma_end_points (⟨Real.pi, Real.sqrt, fun a b => a ^ b, Real.sin, Real.cos⟩ : CMath ℝ)
          (Real.one_rpow _) (Real.zero_rpow (by norm_num)) fb ⟨3, by decide⟩ ⟨5, by decide⟩
          ⟨2, 1 / 2, -1⟩).2.2.2.2.2.1 (by norm_num)⟩⟩

/-- Claim C12.  Function `setPixel` leaves the whole colour buffer as it is
when `x < 0`, `x >= WIDTH`, `y < 0` or `y >= HEIGHT`; in every case it leaves
every pixel other than `(x, y)` as it is, and for a pixel of the buffer it
stores the three encoded bytes there.  It acts on the colour buffer only, so a
state whose colour buffer it has updated has the depth buffer it had. -/
theorem C12_setPixel_frame (m : CMath F) (b : Buffers F) (x y : ℤ) (color : Vec3 F) :
    ((x < 0 ∨ x ≥ WIDTH ∨ y < 0 ∨ y ≥ HEIGHT) → setPixel m b.framebuffer x y color = b.framebuffer) ∧
    (∀ (r : Fin HEIGHT) (c : Fin WIDTH), ¬ ((r.val : ℤ) = y ∧ (c.val : ℤ) = x) →
      setPixel m b.framebuffer x y color r c = b.framebuffer r c) ∧
    (∀ (r : Fin HEIGHT) (c : Fin WIDTH),
      setPixel m b.framebuffer (c.val : ℤ) (r.val : ℤ) color r c = encodeColor m color) ∧
    ({ framebuffer := setPixel m b.framebuffer x y color, zbuffer := b.zbuffer } : Buffers F).zbuffer
      = b.zbuffer := by
  refine ⟨?_, ?_, fun r c => setPixel_at m _ r c color, rfl⟩
  · intro h
    unfold setPixel
    rw [if_pos h]
  · intro r c hrc
    unfold setPixel
    split
    · rfl
    · simp [Grid.set, hrc]

/-! ## Degenerate triangles and the projection -/

theorem rasterizeScreen_of_denom_zero (m : CMath F) (shade : F → F → F → Vec3 F)
    (v0 v1 v2 : Vec3 F) (b : Buffers F) (hd : baryDenom v0 v1 v2 = 0) :
    rasterizeScreen m shade v0 v1 v2 b = b := by
  apply Buffers.ext_cell
  intro r c
  rw [rasterizeScreen_cell]
  split
  · apply stepCell_of_not_inside
    intro hin
    exact ((baryInside_iff v0 v1 v2 _ _).mp hin).1 hd
  · rfl

theorem inside_false_of_neg_zero (n0 n1 : F) :
    ((Ieee.divNeg n0 0).ge0 && (Ieee.divNeg n1 0).ge0 &&
      (Ieee.sub (Ieee.sub (Ieee.fin 1) (Ieee.divNeg n0 0)) (Ieee.divNeg n1 0)).ge0) = false := by
  unfold Ieee.divNeg
  simp only [if_true]
  split_ifs <;> simp [Ieee.sub, Ieee.ge0]

theorem applyTransform_x (v : Vec3 F) (hz : v.z ≠ 0) :
    (applyTransform v).x = (v.x / v.z + 1) / 2 * 512 := by
  simp only [applyTransform, WIDTH]
  field_simp
  ring

theorem applyTransform_y (v : Vec3 F) (hz : v.z ≠ 0) :
    (applyTransform v).y = (v.y / v.z + 1) / 2 * 512 := by
  simp only [applyTransform, HEIGHT]
  field_simp
  ring

theorem screen_range (a z : F) (hz : z < 0) (ha : |a| ≤ -z) :
    0 ≤ (a / z + 1) / 2 * 512 ∧ (a / z + 1) / 2 * 512 ≤ 512 := by
  have h1 := (abs_le.mp ha).1
  have h2 := (abs_le.mp ha).2
  have hq1 : -1 ≤ a / z := by
    rw [le_div_iff_of_neg hz]
    linarith
  have hq2 : a / z ≤ 1 := by
    rw [div_le_iff_of_neg hz]
    linarith
  constructor <;> linarith

/-- Claim C14.  For a camera-space point with `z < 0`, `|x| <= -z` and
`|y| <= -z`, `applyTransform` gives a screen x in `[0, WIDTH]` and a screen y
in `[0, HEIGHT]`; x and y go through the same formula, the division by
`w = -z` of the clip coordinate followed by `(ndc + 1) / 2 * 512`; and a point
`(0, 0, z)` of the optical axis is mapped to the screen centre `(256, 256)`. -/
theorem C14_projection_range (v : Vec3 F) (hz : v.z < 0) (hx : |v.x| ≤ -v.z)
    (hy : |v.y| ≤ -v.z) :
    0 ≤ (applyTransform v).x ∧ (applyTransform v).x ≤ (WIDTH : F) ∧
    0 ≤ (applyTransform v).y ∧ (applyTransform v).y ≤ (HEIGHT : F) ∧
    (applyTransform v).x = ((2 * (-(1 / 10)) * v.x / (1 / 10 - -(1 / 10))) / -v.z + 1) / 2 * 512 ∧
    (applyTransform v).y = ((2 * (-(1 / 10)) * v.y / (1 / 10 - -(1 / 10))) / -v.z + 1) / 2 * 512 ∧
    (applyTransform (⟨0, 0, v.z⟩ : Vec3 F)).x = 256 ∧
    (applyTransform (⟨0, 0, v.z⟩ : Vec3 F)).y = 256 := by
  have hne : v.z ≠ 0 := ne_of_lt hz
  have rx := screen_range v.x v.z hz hx
  have ry := screen_range v.y v.z hz hy
  rw [applyTransform_x v hne, applyTransform_y v hne]
  refine ⟨rx.1, by simpa [WIDTH] using rx.2, ry.1, by simpa [HEIGHT] using ry.2, ?_, ?_, ?_, ?_⟩
  · field_simp
    ring
  · field_simp
    ring
  · rw [applyTransform_x (⟨0, 0, v.z⟩ : Vec3 F) hne]
    norm_num
  · rw [applyTransform_y (⟨0, 0, v.z⟩ : Vec3 F) hne]
    norm_num

/-- Claim C14, instance: the point `(1, -2, -7)`. -/
theorem C14_projection_range_witness :
    (⟨1, -2, -7⟩ : Vec3 ℚ).z < 0 ∧ |(⟨1, -2, -7⟩ : Vec3 ℚ).x| ≤ -(⟨1, -2, -7⟩ : Vec3 ℚ).z ∧
    |(⟨1, -2, -7⟩ : Vec3 ℚ).y| ≤ -(⟨1, -2, -7⟩ : Vec3 ℚ).z ∧
    0 ≤ (applyTransform (⟨1, -2, -7⟩ : Vec3 ℚ)).x ∧
    (applyTransform (⟨1, -2, -7⟩ : Vec3 ℚ)).x ≤ (WIDTH : ℚ) :=
  ⟨by norm_num, by norm_num [abs_le], by norm_num [abs_le],
    (C14_projection_range (⟨1, -2, -7⟩ : Vec3 ℚ) (by norm_num) (by norm_num [abs_le])
      (by norm_num [abs_le])).1,
    (C14_projection_range (⟨1, -2, -7⟩ : Vec3 ℚ) (by norm_num) (by norm_num [abs_le])
      (by norm_num [abs_le])).2.1⟩

/-! ## Writes stay in the inset box; the depth as an ordering key -/

theorem inBox_inset (s0 s1 s2 : Vec3 F) (x y : ℤ) (h : inBox s0 s1 s2 x y) :
    insetBox s0 s1 s2 x y := by
  unfold inBox boxMinX boxMaxX boxMinY boxMaxY at h
  unfold insetBox
  simp only [max_le_iff, le_min_iff] at h
  obtain ⟨⟨h1, h2⟩, ⟨h3, h4⟩, ⟨h5, h6⟩, h7, h8⟩ := h
  exact ⟨h1, h3, h5, h7, h2, h4, h6, h8⟩

theorem rasterizeScreen_changesOnlyIn (m : CMath F) (shade : F → F → F → Vec3 F)
    (s0 s1 s2 : Vec3 F) (b : Buffers F) :
    changesOnlyIn (insetBox s0 s1 s2) b (rasterizeScreen m shade s0 s1 s2 b) := by
  intro r c hne
  apply inBox_inset
  by_contra hb
  apply hne
  rw [rasterizeScreen_cell, if_neg hb]

theorem insetBox_not_border (s0 s1 s2 : Vec3 F) (r : Fin HEIGHT) (c : Fin WIDTH)
    (hb : r.val = 0 ∨ r.val = HEIGHT - 1 ∨ c.val = 0 ∨ c.val = WIDTH - 1) :
    ¬ insetBox s0 s1 s2 (c.val : ℤ) (r.val : ℤ) := by
  unfold insetBox
  simp only [WIDTH, HEIGHT] at hb ⊢
  omega

theorem border_of_changesOnlyIn (s0 s1 s2 : Vec3 F) (b b2 : Buffers F)
    (h : changesOnlyIn (insetBox s0 s1 s2) b b2) (r : Fin HEIGHT) (c : Fin WIDTH)
    (hb : r.val = 0 ∨ r.val = HEIGHT - 1 ∨ c.val = 0 ∨ c.val = WIDTH - 1) :
    b2.framebuffer r c = b.framebuffer r c ∧ b2.zbuffer r c = b.zbuffer r c := by
  have hcell : b2.cell r c = b.cell r c := by
    by_contra hne
    exact insetBox_not_border s0 s1 s2 r c hb (h r c hne)
  unfold Buffers.cell at hcell
  exact ⟨congrArg Prod.fst hcell, congrArg Prod.snd hcell⟩

/-- Claim C16.  The rasterizers `rasterizeTriangle` (of `Q1.cpp` and `Q2.cpp`)
and `rasterizePhong` change colour or depth only at pixels with
`1 <= x <= WIDTH-2` and `1 <= y <= HEIGHT-2` that also lie between the floor of
the smallest and the ceiling of the largest screen coordinate of the triangle,
in x and in y.  Every pair `(x, y)` the two loops visit is a valid index of both
buffers, so that the depth cell exists and `setPixel` takes its storing branch;
and the outermost one-pixel border of the colour buffer and of the depth buffer
is left as it was. -/
theorem C16_writes_within_inset_box (m : CMath F)
    (v0 v1 v2 s0 s1 s2 color c0 c1 c2 n0 n1 n2 : Vec3 F) (b : Buffers F) :
    changesOnlyIn (insetBox (applyTransform v0) (applyTransform v1) (applyTransform v2)) b
      (Q1.rasterizeTriangle m v0 v1 v2 color b) ∧
    changesOnlyIn (insetBox (applyTransform v0) (applyTransform v1) (applyTransform v2)) b
      (Q2.rasterizeTriangle m v0 c0 v1 c1 v2 c2 b) ∧
    changesOnlyIn (insetBox s0 s1 s2) b (Q3.rasterizePhong m s0 n0 s1 n1 s2 n2 v0 v1 v2 b) ∧
    (∀ x y : ℤ, y ∈ loopLe (boxMinY s0 s1 s2) (boxMaxY s0 s1 s2) →
      x ∈ loopLe (boxMinX s0 s1 s2) (boxMaxX s0 s1 s2) →
      (0 ≤ x ∧ x < WIDTH ∧ 0 ≤ y ∧ y < HEIGHT) ∧
      b.zbuffer.get? y x ≠ none ∧
      ¬ (x < 0 ∨ x ≥ WIDTH ∨ y < 0 ∨ y ≥ HEIGHT) ∧
      ∀ (fb : Grid (ℕ × ℕ × ℕ)) (col : Vec3 F),
        setPixel m fb x y col = fb.set y x (encodeColor m col)) ∧
    (∀ (r : Fin HEIGHT) (c : Fin WIDTH),
      (r.val = 0 ∨ r.val = HEIGHT - 1 ∨ c.val = 0 ∨ c.val = WIDTH - 1) →
      ((Q1.rasterizeTriangle m v0 v1 v2 color b).framebuffer r c = b.framebuffer r c ∧
        (Q1.rasterizeTriangle m v0 v1 v2 color b).zbuffer r c = b.zbuffer r c) ∧
      ((Q2.rasterizeTriangle m v0 c0 v1 c1 v2 c2 b).framebuffer r c = b.framebuffer r c ∧
        (Q2.rasterizeTriangle m v0 c0 v1 c1 v2 c2 b).zbuffer r c = b.zbuffer r c) ∧
      ((Q3.rasterizePhong m s0 n0 s1 n1 s2 n2 v0 v1 v2 b).framebuffer r c = b.framebuffer r c ∧
        (Q3.rasterizePhong m s0 n0 s1 n1 s2 n2 v0 v1 v2 b).zbuffer r c = b.zbuffer r c)) := by
  refine ⟨rasterizeScreen_changesOnlyIn m _ _ _ _ b, rasterizeScreen_changesOnlyIn m _ _ _ _ b,
    rasterizeScreen_changesOnlyIn m _ _ _ _ b, ?_, ?_⟩
  · intro x y hy hx
    rw [mem_loopLe] at hy hx
    have hbox : insetBox s0 s1 s2 x y := inBox_inset s0 s1 s2 x y ⟨hx.1, hx.2, hy.1, hy.2⟩
    unfold insetBox at hbox
    simp only [WIDTH, HEIGHT, Nat.cast_ofNat] at hbox ⊢
    have hr : (0 : ℤ) ≤ x ∧ x < 512 ∧ 0 ≤ y ∧ y < 512 := by omega
    have hnot : ¬ (x < 0 ∨ x ≥ 512 ∨ y < 0 ∨ y ≥ 512) := by omega
    refine ⟨hr, ?_, hnot, ?_⟩
    · unfold Grid.get?
      simp only [WIDTH, HEIGHT, Nat.cast_ofNat]
      rw [dif_pos ⟨hr.2.2.1, hr.2.2.2, hr.1, hr.2.1⟩]
      exact Option.some_ne_none _
    · intro fb col
      unfold setPixel
      simp only [WIDTH, HEIGHT, Nat.cast_ofNat]
      rw [if_neg hnot]
  · intro r c hb
    exact ⟨border_of_changesOnlyIn _ _ _ b _ (rasterizeScreen_changesOnlyIn m _ _ _ _ b) r c hb,
      border_of_changesOnlyIn _ _ _ b _ (rasterizeScreen_changesOnlyIn m _ _ _ _ b) r c hb,
      border_of_changesOnlyIn _ _ _ b _ (rasterizeScreen_changesOnlyIn m _ _ _ _ b) r c hb⟩

theorem applyTransform_z (v : Vec3 F) (hz : v.z ≠ 0) :
    (applyTransform v).z = -(10001 / 9999) + (2000 / 9999) / v.z := by
  simp only [applyTransform]
  field_simp
  ring

theorem depth_strictAnti (v1 v2 : Vec3 F) (h12 : v1.z < v2.z) (h2 : v2.z < 0) :
    (applyTransform v2).z < (applyTransform v1).z := by
  have h1 : v1.z < 0 := lt_trans h12 h2
  rw [applyTransform_z v1 (ne_of_lt h1), applyTransform_z v2 (ne_of_lt h2)]
  have hinv : 1 / v2.z < 1 / v1.z := one_div_lt_one_div_of_neg_of_lt h2 h12
  have e1 : (2000 / 9999 : F) / v1.z = 2000 / 9999 * (1 / v1.z) := by ring
  have e2 : (2000 / 9999 : F) / v2.z = 2000 / 9999 * (1 / v2.z) := by ring
  rw [e1, e2]
  linarith

/-- Claim C19.  The depth `applyTransform` returns depends only on the
camera-space `z` of the point, and for two points with `z1 < z2 < 0` (the second
nearer to the camera) the depth of the second is strictly smaller than the depth
of the first.  Hence the strict depth test of the pixel loop lets the nearer
depth replace the farther one and never the farther replace the nearer. -/
theorem C19_depth_ordering_key (v1 v2 : Vec3 F) (h12 : v1.z < v2.z) (h2 : v2.z < 0) :
    (∀ u v : Vec3 F, u.z = v.z → (applyTransform u).z = (applyTransform v).z) ∧
    (applyTransform v2).z < (applyTransform v1).z ∧
    (((applyTransform v2).z : F) : WithTop F) < (((applyTransform v1).z : F) : WithTop F) ∧
    ¬ ((((applyTransform v1).z : F) : WithTop F) < (((applyTransform v2).z : F) : WithTop F)) := by
  have h := depth_strictAnti v1 v2 h12 h2
  refine ⟨?_, h, WithTop.coe_lt_coe.mpr h, ?_⟩
  · intro u v huv
    simp only [applyTransform, huv]
  · rw [WithTop.coe_lt_coe]
    exact not_lt.mpr (le_of_lt h)

/-- Claim C19, instance: the points `(1, 2, -9)` and `(-3, 0, -5)`. -/
theorem C19_depth_ordering_key_witness :
    (⟨1, 2, -9⟩ : Vec3 ℚ).z < (⟨-3, 0, -5⟩ : Vec3 ℚ).z ∧ (⟨-3, 0, -5⟩ : Vec3 ℚ).z < 0 ∧
    (applyTransform (⟨-3, 0, -5⟩ : Vec3 ℚ)).z < (applyTransform (⟨1, 2, -9⟩ : Vec3 ℚ)).z :=
  ⟨by norm_num, by norm_num,
    (C19_depth_ordering_key (⟨1, 2, -9⟩ : Vec3 ℚ) ⟨-3, 0, -5⟩ (by norm_num) (by norm_num)).2.1⟩

/-! ## Mesh vertices lie on the sphere -/

theorem ring_vertex_bounds (s c s2 c2 : F) (h1 : s ^ 2 + c ^ 2 = 1) (h2 : s2 ^ 2 + c2 ^ 2 = 1) :
    -1 ≤ s * s2 ∧ s * s2 ≤ 1 := by
  have hs : s ^ 2 ≤ 1 := by nlinarith [sq_nonneg c]
  have hs2 : s2 ^ 2 ≤ 1 := by nlinarith [sq_nonneg c2]
  constructor
  · nlinarith [sq_nonneg (s + s2)]
  · nlinarith [sq_nonneg (s - s2)]

theorem onSphere_of_trig (s c s2 c2 x y z : F) (h1 : s ^ 2 + c ^ 2 = 1)
    (h2 : s2 ^ 2 + c2 ^ 2 = 1)
    (hx : x = 2 * s * c2 ∨ x = -2 * s * c2) (hy : y = 2 * c)
    (hz : z = 2 * s * s2 - 7 ∨ z = -2 * s * s2 - 7) :
    onSphere (⟨x, y, z⟩ : Vec3 F) := by
  have hb := ring_vertex_bounds s c s2 c2 h1 h2
  have hsq : x * x + y * y + (z + 7) * (z + 7) = 4 := by
    have e : x * x + y * y + (z + 7) * (z + 7)
        = 4 * (s ^ 2 * (s2 ^ 2 + c2 ^ 2) + c ^ 2) := by
      rcases hx with hx | hx <;> rcases hz with hz | hz <;> rw [hx, hy, hz] <;> ring
    rw [e, h2, mul_one, h1]
    norm_num
  unfold onSphere
  simp only
  refine ⟨hsq, ?_, ?_, ?_⟩
  · rcases hz with hz | hz <;> rw [hz] <;> linarith [hb.1, hb.2]
  · rcases hz with hz | hz <;> rw [hz] <;> linarith [hb.1, hb.2]
  · rcases hz with hz | hz <;> rw [hz] <;> linarith [hb.1, hb.2]

theorem onSphere_poles : onSphere (⟨0, 2, -7⟩ : Vec3 F) ∧ onSphere (⟨0, -2, -7⟩ : Vec3 F) := by
  unfold onSphere
  norm_num

theorem Q1_vertices_onSphere (m : CMath F)
    (htrig : ∀ t : F, m.sinf t ^ 2 + m.cosf t ^ 2 = 1) (w h : ℤ) (v : Vec3 F)
    (hv : v ∈ (Q1.createSphere m w h ⟨[], []⟩).vertices) : onSphere v := by
  rw [Q1_createSphere_vertices] at hv
  simp only [List.nil_append, List.mem_append, List.mem_flatMap, List.mem_map, List.mem_cons,
    List.mem_singleton, List.not_mem_nil, or_false] at hv
  rcases hv with ⟨j, -, i, -, rfl⟩ | rfl | rfl
  · exact onSphere_of_trig _ _ _ _ _ _ _ (htrig _) (htrig _) (Or.inr rfl) rfl (Or.inr rfl)
  · exact onSphere_poles.1
  · exact onSphere_poles.2

theorem Q2_vertices_onSphere (m : CMath F)
    (htrig : ∀ t : F, m.sinf t ^ 2 + m.cosf t ^ 2 = 1) (w h : ℤ) (v : Vec3 F)
    (hv : v ∈ (Q2.createSphere m w h).vertices) : onSphere v := by
  rw [Q2_createSphere_vertices] at hv
  simp only [List.mem_append, List.mem_flatMap, List.mem_map, List.mem_cons,
    List.mem_singleton, List.not_mem_nil, or_false] at hv
  rcases hv with ⟨j, -, i, -, rfl⟩ | rfl | rfl
  · exact onSphere_of_trig _ _ _ _ _ _ _ (htrig _) (htrig _) (Or.inl rfl) rfl (Or.inl rfl)
  · exact onSphere_poles.1
  · exact onSphere_poles.2

/-- Claim C15.  For every `w` and `h`, every vertex produced by `createSphere`
(of `Q1.cpp` on an empty mesh, and of `Q2.cpp` and `Q3.cpp`) lies on the sphere
of radius 2 about `(0, 0, -7)` and has camera-space `z` in `[-9, -5]`, so that
the divisor `w = -z` of `applyTransform` is at least 5 and never zero.  The
functions `sinf` and `cosf` are taken to satisfy `sin^2 + cos^2 = 1`. -/
theorem C15_projection_divisor_nonzero (m : CMath F)
    (htrig : ∀ t : F, m.sinf t ^ 2 + m.cosf t ^ 2 = 1) (w h : ℤ) :
    (∀ v ∈ (Q1.createSphere m w h ⟨[], []⟩).vertices,
      v.x * v.x + v.y * v.y + (v.z + 7) * (v.z + 7) = 4 ∧ -9 ≤ v.z ∧ v.z ≤ -5 ∧ 5 ≤ -v.z ∧
      -v.z ≠ 0) ∧
    (∀ v ∈ (Q2.createSphere m w h).vertices,
      v.x * v.x + v.y * v.y + (v.z + 7) * (v.z + 7) = 4 ∧ -9 ≤ v.z ∧ v.z ≤ -5 ∧ 5 ≤ -v.z ∧
      -v.z ≠ 0) := by
  constructor
  · intro v hv
    have hs := Q1_vertices_onSphere m htrig w h v hv
    unfold onSphere at hs
    exact ⟨hs.1, hs.2.1, hs.2.2.1, hs.2.2.2, by linarith [hs.2.2.2]⟩
  · intro v hv
    have hs := Q2_vertices_onSphere m htrig w h v hv
    unfold onSphere at hs
    exact ⟨hs.1, hs.2.1, hs.2.2.1, hs.2.2.2, by linarith [hs.2.2.2]⟩

/-- Claim C15, instance: the real sine and cosine, and the default mesh of 32
by 16 segments. -/
theorem C15_projection_divisor_nonzero_witness :
    (∀ t : ℝ, Real.sin t ^ 2 + Real.cos t ^ 2 = 1) ∧
    ∀ v ∈ (Q2.createSphere (⟨Real.pi, Real.sqrt, fun a b => a ^ b, Real.sin, Real.cos⟩ : CMath ℝ)
        32 16).vertices,
      v.x * v.x + v.y * v.y + (v.z + 7) * (v.z + 7) = 4 ∧ -9 ≤ v.z ∧ v.z ≤ -5 ∧ 5 ≤ -v.z ∧
      -v.z ≠ 0 :=
  ⟨Real.sin_sq_add_cos_sq,
    (C15_projection_divisor_nonzero
      (⟨Real.pi, Real.sqrt, fun a b => a ^ b, Real.sin, Real.cos⟩ : CMath ℝ)
      Real.sin_sq_add_cos_sq 32 16).2⟩

/-! ## Index validity -/

theorem Q1_createSphere_length (m : CMath F) (w h : ℤ) (hw : 0 ≤ w) (hh : 2 ≤ h) :
    ((Q1.createSphere m w h ⟨[], []⟩).vertices.length : ℤ) = (h - 2) * w + 2 := by
  have hlen : (((h - 1 - 1).toNat * (w - 0).toNat : ℕ) : ℤ) = (h - 2) * w := by
    rw [Nat.cast_mul, Int.toNat_of_nonneg (by omega), Int.toNat_of_nonneg (by omega)]
    ring
  rw [Q1_createSphere_vertices, List.nil_append, List.length_append, length_flatMap_map,
    length_loopLt, length_loopLt, Nat.cast_add, hlen]
  rfl

theorem Q2_createSphere_length (m : CMath F) (w h : ℤ) (hw : 0 ≤ w) (hh : 2 ≤ h) :
    ((Q2.createSphere m w h).vertices.length : ℤ) = (h - 2) * w + 2 := by
  have hlen : (((h - 1 - 1).toNat * (w - 0).toNat : ℕ) : ℤ) = (h - 2) * w := by
    rw [Nat.cast_mul, Int.toNat_of_nonneg (by omega), Int.toNat_of_nonneg (by omega)]
    ring
  rw [Q2_createSphere_vertices, List.length_append, length_flatMap_map,
    length_loopLt, length_loopLt, Nat.cast_add, hlen]
  rfl

theorem Q1_createSphere_indices_eq (m : CMath F) (w h : ℤ) (hw : 0 ≤ w) (hh : 2 ≤ h) :
    (Q1.createSphere m w h ⟨[], []⟩).indices =
      sphereIndices w h ((h - 2) * w) ((h - 2) * w + 1) [] := by
  have e : (Q1.createSphere m w h ⟨[], []⟩).indices =
      sphereIndices w h (((Q1.createSphere m w h ⟨[], []⟩).vertices.length : ℤ) - 2)
        (((Q1.createSphere m w h ⟨[], []⟩).vertices.length : ℤ) - 1) [] := rfl
  rw [e, Q1_createSphere_length m w h hw hh]
  congr 1 <;> ring

theorem Q2_createSphere_indices_eq (m : CMath F) (w h : ℤ) (hw : 0 ≤ w) (hh : 2 ≤ h) :
    (Q2.createSphere m w h).indices =
      sphereIndices w h ((h - 2) * w) ((h - 2) * w + 1) [] := by
  have e : (Q2.createSphere m w h).indices =
      sphereIndices w h (((Q2.createSphere m w h).vertices.length : ℤ) - 2)
        (((Q2.createSphere m w h).vertices.length : ℤ) - 1) [] := rfl
  rw [e, Q2_createSphere_length m w h hw hh]
  congr 1 <;> ring

theorem sqrt_zero (m : CMath F)
    (hs : ∀ x : F, 0 ≤ x → 0 ≤ m.sqrt x ∧ m.sqrt x * m.sqrt x = x) : m.sqrt 0 = 0 :=
  mul_self_eq_zero.mp (hs 0 le_rfl).2

theorem normalize_zero (m : CMath F)
    (hs : ∀ x : F, 0 ≤ x → 0 ≤ m.sqrt x ∧ m.sqrt x * m.sqrt x = x) :
    (Vec3.zero : Vec3 F).normalize m = Vec3.zero := by
  unfold Vec3.normalize
  simp only [Vec3.zero, mul_zero, add_zero, sqrt_zero m hs, lt_irrefl, if_false]

theorem normalize_unit_or_zero (m : CMath F)
    (hs : ∀ x : F, 0 ≤ x → 0 ≤ m.sqrt x ∧ m.sqrt x * m.sqrt x = x) (a : Vec3 F) :
    (a.normalize m).dot (a.normalize m) = 1 ∨ a.normalize m = Vec3.zero := by
  have hnn : 0 ≤ a.x * a.x + a.y * a.y + a.z * a.z := by
    nlinarith [mul_self_nonneg a.x, mul_self_nonneg a.y, mul_self_nonneg a.z]
  by_cases hlen : 0 < m.sqrt (a.x * a.x + a.y * a.y + a.z * a.z)
  · left
    apply normalize_dot_self m hs
    have h2 := (hs _ hnn).2
    rw [← h2]
    exact mul_pos hlen hlen
  · right
    unfold Vec3.normalize
    simp only [hlen, if_false]

theorem reflect_dot_self (N L : Vec3 F) (hN : N.dot N = 1 ∨ N = Vec3.zero) :
    ((N.scale (2 * N.dot L)).sub L).dot ((N.scale (2 * N.dot L)).sub L) = L.dot L := by
  rcases hN with hN | hN
  · simp only [Vec3.dot, Vec3.scale, Vec3.sub] at hN ⊢
    have e : (N.x * (2 * (N.x * L.x + N.y * L.y + N.z * L.z)) - L.x) *
          (N.x * (2 * (N.x * L.x + N.y * L.y + N.z * L.z)) - L.x) +
        (N.y * (2 * (N.x * L.x + N.y * L.y + N.z * L.z)) - L.y) *
          (N.y * (2 * (N.x * L.x + N.y * L.y + N.z * L.z)) - L.y) +
        (N.z * (2 * (N.x * L.x + N.y * L.y + N.z * L.z)) - L.z) *
          (N.z * (2 * (N.x * L.x + N.y * L.y + N.z * L.z)) - L.z)
        = L.x * L.x + L.y * L.y + L.z * L.z
          + 4 * (N.x * L.x + N.y * L.y + N.z * L.z) ^ 2 * (N.x * N.x + N.y * N.y + N.z * N.z - 1) := by
      ring
    rw [e, hN]
    ring
  · rw [hN]
    simp only [Vec3.dot, Vec3.scale, Vec3.sub, Vec3.zero]
    ring

theorem reflect_normalize (m : CMath F)
    (hs : ∀ x : F, 0 ≤ x → 0 ≤ m.sqrt x ∧ m.sqrt x * m.sqrt x = x) (a d : Vec3 F) :
    (((a.normalize m).scale (2 * (a.normalize m).dot (d.normalize m))).sub
        (d.normalize m)).normalize m =
      ((a.normalize m).scale (2 * (a.normalize m).dot (d.normalize m))).sub (d.normalize m) := by
  have hR := reflect_dot_self (a.normalize m) (d.normalize m) (normalize_unit_or_zero m hs a)
  rcases normalize_unit_or_zero m hs d with hL | hL
  · rw [hL] at hR
    exact normalize_of_unit m hs _ hR
  · rw [hL]
    have e : ((a.normalize m).scale (2 * (a.normalize m).dot Vec3.zero)).sub Vec3.zero
        = (Vec3.zero : Vec3 F) := by
      simp [Vec3.dot, Vec3.scale, Vec3.sub, Vec3.zero]
    rw [e]
    exact normalize_zero m hs

/-- Claim C18.  The functions `computeLighting` of `Q2.cpp` and of `Q3.cpp`
return the same colour for every position and every normal vector: the
reflection vector `R = 2(N.L)N - L` is a unit vector, or the zero vector when
`L` is, so that the normalization `Q3.cpp` adds returns it unchanged.  The
function `sqrt` is taken to be the exact non-negative square root. -/
theorem C18_same_illumination (m : CMath F)
    (hs : ∀ x : F, 0 ≤ x → 0 ≤ m.sqrt x ∧ m.sqrt x * m.sqrt x = x) (pos normal : Vec3 F) :
    Q3.computeLighting m pos normal = Q2.computeLighting m pos normal := by
  unfold Q3.computeLighting Q2.computeLighting
  simp only []
  rw [reflect_normalize m hs]

/-- Claim C18, instance: the real square root, at the position `(1, 1, -5)` with
the normal `(0, 3, 4)`. -/
theorem C18_same_illumination_witness :
    (∀ x : ℝ, 0 ≤ x → 0 ≤ Real.sqrt x ∧ Real.sqrt x * Real.sqrt x = x) ∧
    Q3.computeLighting (⟨Real.pi, Real.sqrt, fun a b => a ^ b, Real.sin, Real.cos⟩ : CMath ℝ)
        ⟨1, 1, -5⟩ ⟨0, 3, 4⟩ =
      Q2.computeLighting (⟨Real.pi, Real.sqrt, fun a b => a ^ b, Real.sin, Real.cos⟩ : CMath ℝ)
        ⟨1, 1, -5⟩ ⟨0, 3, 4⟩ :=
  ⟨real_sqrt_spec,
    C18_same_illumination (⟨Real.pi, Real.sqrt, fun a b => a ^ b, Real.sin, Real.cos⟩ : CMath ℝ)
      real_sqrt_spec ⟨1, 1, -5⟩ ⟨0, 3, 4⟩⟩

/-! ## The mesh is closed -/

theorem sphereIndices_eq_labels (w h : ℤ) :
    sphereIndices w h ((h - 2) * w) ((h - 2) * w + 1) [] =
      (triLabels w h).map (fun x => indexTriple w (triCorners w h x)) := by
  rw [sphereIndices_eq]
  unfold triLabels
  simp only [List.nil_append, List.map_append, List.map_flatMap, List.map_cons, List.map_nil]
  simp [triCorners, indexTriple, ringIndex]

theorem countP_eq_two {α : Type} [DecidableEq α] (L : List α) (hnd : L.Nodup) (p : α → Bool)
    (a b : α) (hab : a ≠ b) (ha : a ∈ L) (hb : b ∈ L)
    (hp : ∀ x ∈ L, p x = true ↔ x = a ∨ x = b) : L.countP p = 2 := by
  rw [List.countP_eq_length_filter]
  have hperm : (L.filter p).Perm [a, b] := by
    rw [List.perm_ext_iff_of_nodup (hnd.filter _) (by simp [hab])]
    intro x
    simp only [List.mem_filter, List.mem_cons, List.mem_singleton, List.not_mem_nil, or_false]
    constructor
    · rintro ⟨hx, hpx⟩
      exact (hp x hx).mp hpx
    · rintro (rfl | rfl)
      · exact ⟨ha, (hp _ ha).mpr (Or.inl rfl)⟩
      · exact ⟨hb, (hp _ hb).mpr (Or.inr rfl)⟩
  rw [hperm.length_eq]
  rfl

theorem mem_triLabels (w h : ℤ) (x : ℤ × ℤ × ℤ) :
    x ∈ triLabels w h ↔
      (0 ≤ x.2.2 ∧ x.2.2 < w) ∧
      (((x.1 = 0 ∨ x.1 = 1) ∧ x.2.1 = 0) ∨ ((x.1 = 2 ∨ x.1 = 3) ∧ 0 ≤ x.2.1 ∧ x.2.1 < h - 3)) := by
  obtain ⟨f, j, i⟩ := x
  unfold triLabels
  simp only [List.mem_append, List.mem_flatMap, mem_loopLt, List.mem_cons, List.mem_singleton,
    List.not_mem_nil, or_false, Prod.mk.injEq]
  constructor
  · rintro (⟨i2, hi, h1 | h1⟩ | ⟨j2, hj, i2, hi, h1 | h1⟩) <;>
      (obtain ⟨rfl, rfl, rfl⟩ := h1; simp; omega)
  · rintro ⟨hi, (⟨hf | hf, hj⟩ | ⟨hf | hf, hj⟩)⟩
    · exact Or.inl ⟨i, hi, Or.inl ⟨hf, hj, rfl⟩⟩
    · exact Or.inl ⟨i, hi, Or.inr ⟨hf, hj, rfl⟩⟩
    · exact Or.inr ⟨j, hj, i, hi, Or.inl ⟨hf, rfl, rfl⟩⟩
    · exact Or.inr ⟨j, hj, i, hi, Or.inr ⟨hf, rfl, rfl⟩⟩

theorem nodup_flatMap_of_disjoint {α β : Type} (l : List α) (f : α → List β) (hl : l.Nodup)
    (hf : ∀ a ∈ l, (f a).Nodup)
    (hd : ∀ a ∈ l, ∀ b ∈ l, a ≠ b → ∀ x, x ∈ f a → x ∈ f b → False) :
    (l.flatMap f).Nodup := by
  rw [List.nodup_flatMap]
  refine ⟨hf, ?_⟩
  apply List.Nodup.pairwise_of_forall_ne hl
  intro a ha b hb hab x hxa hxb
  exact hd a ha b hb hab x hxa hxb

theorem nodup_triLabels (w h : ℤ) : (triLabels w h).Nodup := by
  unfold triLabels
  rw [List.nodup_append]
  refine ⟨?_, ?_, ?_⟩
  · apply nodup_flatMap_of_disjoint _ _ (nodup_loopLt _ _)
    · intro a _
      simp
    · intro a _ b _ hab x hxa hxb
      simp only [List.mem_cons, List.mem_singleton, List.not_mem_nil, or_false] at hxa hxb
      rcases hxa with rfl | rfl <;> rcases hxb with hb | hb <;>
        simp only [Prod.mk.injEq] at hb <;> omega
  · apply nodup_flatMap_of_disjoint _ _ (nodup_loopLt _ _)
    · intro j _
      apply nodup_flatMap_of_disjoint _ _ (nodup_loopLt _ _)
      · intro a _
        simp
      · intro a _ b _ hab x hxa hxb
        simp only [List.mem_cons, List.mem_singleton, List.not_mem_nil, or_false] at hxa hxb
        rcases hxa with rfl | rfl <;> rcases hxb with hb | hb <;>
          simp only [Prod.mk.injEq] at hb <;> omega
    · intro a _ b _ hab x hxa hxb
      simp only [List.mem_flatMap, List.mem_cons, List.mem_singleton, List.not_mem_nil,
        or_false] at hxa hxb
      obtain ⟨i, -, hi⟩ := hxa
      obtain ⟨i2, -, hi2⟩ := hxb
      rcases hi with rfl | rfl <;> rcases hi2 with hb | hb <;>
        simp only [Prod.mk.injEq] at hb <;> omega
  · intro x hxa hxb
    simp only [List.mem_flatMap, List.mem_cons, List.mem_singleton, List.not_mem_nil,
      or_false] at hxa hxb
    obtain ⟨i, -, hi⟩ := hxa
    obtain ⟨j2, -, i2, -, hi2⟩ := hxb
    rcases hi with rfl | rfl <;> rcases hi2 with hb | hb <;>
      simp only [Prod.mk.injEq] at hb <;> omega

theorem tmod_next (w i : ℤ) (h0 : 0 ≤ i) (h1 : i < w) :
    ((i + 1).tmod w = i + 1 ∧ i + 1 < w) ∨ ((i + 1).tmod w = 0 ∧ i + 1 = w) := by
  rw [Int.tmod_eq_emod (by omega) (by omega)]
  by_cases h : i + 1 = w
  · right
    rw [h]
    simp
  · left
    have : i + 1 < w := by omega
    exact ⟨Int.emod_eq_of_lt (by omega) this, this⟩

theorem edgeMate_ne (w h : ℤ) (hw : 3 ≤ w) (hh : 3 ≤ h) (x0 : ℤ × ℤ × ℤ)
    (hx0 : x0 ∈ triLabels w h) (k : ℕ) (hk : k = 0 ∨ k = 1 ∨ k = 2) :
    x0 ≠ edgeMate w h x0 k ∧ edgeMate w h x0 k ∈ triLabels w h := by
  obtain ⟨f0, j0, i0⟩ := x0
  rw [mem_triLabels] at hx0
  dsimp only at hx0
  obtain ⟨⟨h0, h1⟩, hf0⟩ := hx0
  have hn0 := tmod_next w i0 h0 h1
  rw [mem_triLabels]
  rcases hk with rfl | rfl | rfl <;>
    rcases hf0 with ⟨rfl | rfl, rfl⟩ | ⟨rfl | rfl, hj0, hj1⟩
  all_goals simp only [edgeMate, ne_eq, Prod.mk.injEq, if_true, if_false, reduceIte,
    Int.reduceEq, OfNat.ofNat_ne_zero, one_ne_zero, zero_ne_one, OfNat.ofNat_ne_one,
    OfNat.one_ne_ofNat, Nat.reduceEqDiff, true_and, and_true, false_and, and_false, false_or,
    or_false, true_or, or_true, not_false_eq_true, not_true_eq_false]
  all_goals generalize (i0 + 1).tmod w = n0 at hn0 ⊢
  all_goals try split_ifs
  all_goals try simp only [Int.reduceEq, true_and, and_true, false_and, and_false, false_or,
    or_false, true_or, or_true, not_false_eq_true, not_true_eq_false]
  all_goals omega

set_option maxHeartbeats 4000000 in
theorem edgeMate_iff (w h : ℤ) (hw : 3 ≤ w) (hh : 3 ≤ h) (x0 : ℤ × ℤ × ℤ)
    (hx0 : x0 ∈ triLabels w h) (k : ℕ) (e : (ℤ × ℤ) × (ℤ × ℤ))
    (he : (k = 0 ∧ e = ((triCorners w h x0).1, (triCorners w h x0).2.1)) ∨
      (k = 1 ∧ e = ((triCorners w h x0).2.1, (triCorners w h x0).2.2)) ∨
      (k = 2 ∧ e = ((triCorners w h x0).2.2, (triCorners w h x0).1)))
    (x : ℤ × ℤ × ℤ) (hx : x ∈ triLabels w h) :
    (triEdges (triCorners w h x)).any (sameEdge e) = true ↔
      x = x0 ∨ x = edgeMate w h x0 k := by
  obtain ⟨f0, j0, i0⟩ := x0
  obtain ⟨f, j, i⟩ := x
  rw [mem_triLabels] at hx0 hx
  dsimp only at hx0 hx
  obtain ⟨⟨h0, h1⟩, hf0⟩ := hx0
  obtain ⟨⟨hi0, hi1⟩, hf⟩ := hx
  have hn0 := tmod_next w i0 h0 h1
  have hn := tmod_next w i hi0 hi1
  rcases he with ⟨rfl, rfl⟩ | ⟨rfl, rfl⟩ | ⟨rfl, rfl⟩ <;>
    rcases hf0 with ⟨rfl | rfl, rfl⟩ | ⟨rfl | rfl, hj0, hj1⟩ <;>
    rcases hf with ⟨rfl | rfl, rfl⟩ | ⟨rfl | rfl, hj2, hj3⟩
  all_goals simp only [edgeMate, triCorners, triEdges, sameEdge, List.any_cons, List.any_nil,
    Bool.or_false, Bool.or_eq_true, decide_eq_true_eq, Prod.mk.injEq, if_true, if_false,
    reduceIte, Int.reduceEq, OfNat.ofNat_ne_zero, one_ne_zero, zero_ne_one, OfNat.ofNat_ne_one,
    OfNat.one_ne_ofNat, Nat.reduceEqDiff, true_and, and_true, false_and, and_false, false_or,
    or_false, true_or, or_true]
  all_goals generalize (i0 + 1).tmod w = n0 at hn0 ⊢
  all_goals generalize (i + 1).tmod w = n at hn ⊢
  all_goals rcases hn0 with ⟨rfl, hn0⟩ | ⟨rfl, hn0⟩ <;> rcases hn with ⟨rfl, hn⟩ | ⟨rfl, hn⟩
  all_goals try split_ifs
  all_goals try simp only [Int.reduceEq, true_and, and_true, false_and, and_false, false_or,
    or_false, true_or, or_true, iff_false, iff_true, true_iff, false_iff]
  all_goals omega

theorem corners_edge_count (w h : ℤ) (hw : 3 ≤ w) (hh : 3 ≤ h) (x0 : ℤ × ℤ × ℤ)
    (hx0 : x0 ∈ triLabels w h) (e : (ℤ × ℤ) × (ℤ × ℤ))
    (he : e ∈ triEdges (triCorners w h x0)) :
    edgeCount ((triLabels w h).map (triCorners w h)) e = 2 := by
  unfold edgeCount
  rw [List.countP_map]
  simp only [triEdges, List.mem_cons, List.mem_singleton, List.not_mem_nil, or_false] at he
  rcases he with rfl | rfl | rfl
  · exact countP_eq_two _ (nodup_triLabels w h) _ x0 (edgeMate w h x0 0)
      (edgeMate_ne w h hw hh x0 hx0 0 (Or.inl rfl)).1 hx0
      (edgeMate_ne w h hw hh x0 hx0 0 (Or.inl rfl)).2
      (fun x hx => edgeMate_iff w h hw hh x0 hx0 0 _ (Or.inl ⟨rfl, rfl⟩) x hx)
  · exact countP_eq_two _ (nodup_triLabels w h) _ x0 (edgeMate w h x0 1)
      (edgeMate_ne w h hw hh x0 hx0 1 (Or.inr (Or.inl rfl))).1 hx0
      (edgeMate_ne w h hw hh x0 hx0 1 (Or.inr (Or.inl rfl))).2
      (fun x hx => edgeMate_iff w h hw hh x0 hx0 1 _ (Or.inr (Or.inl ⟨rfl, rfl⟩)) x hx)
  · exact countP_eq_two _ (nodup_triLabels w h) _ x0 (edgeMate w h x0 2)
      (edgeMate_ne w h hw hh x0 hx0 2 (Or.inr (Or.inr rfl))).1 hx0
      (edgeMate_ne w h hw hh x0 hx0 2 (Or.inr (Or.inr rfl))).2
      (fun x hx => edgeMate_iff w h hw hh x0 hx0 2 _ (Or.inr (Or.inr ⟨rfl, rfl⟩)) x hx)

theorem ringIndex_inj (w : ℤ) (p q : ℤ × ℤ) (hp0 : 0 ≤ p.2) (hp1 : p.2 < w) (hq0 : 0 ≤ q.2)
    (hq1 : q.2 < w) : ringIndex w p = ringIndex w q ↔ p = q := by
  constructor
  · intro h
    unfold ringIndex at h
    have e1 : (p.1 * w + p.2) % w = p.2 := by
      rw [add_comm, Int.add_mul_emod_self]
      exact Int.emod_eq_of_lt hp0 hp1
    have e2 : (q.1 * w + q.2) % w = q.2 := by
      rw [add_comm, Int.add_mul_emod_self]
      exact Int.emod_eq_of_lt hq0 hq1
    have h2 : p.2 = q.2 := by rw [← e1, ← e2, h]
    have h1 : p.1 = q.1 := by
      rw [h2] at h
      have hw : w ≠ 0 := by omega
      exact mul_right_cancel₀ hw (add_right_cancel h)
    exact Prod.ext h1 h2
  · rintro rfl
    rfl

theorem edgeCount_indexTriple (w : ℤ) (ts : List ((ℤ × ℤ) × (ℤ × ℤ) × (ℤ × ℤ)))
    (hts : ∀ t ∈ ts, (0 ≤ t.1.2 ∧ t.1.2 < w) ∧ (0 ≤ t.2.1.2 ∧ t.2.1.2 < w) ∧
      (0 ≤ t.2.2.2 ∧ t.2.2.2 < w))
    (p q : ℤ × ℤ) (hp : 0 ≤ p.2 ∧ p.2 < w) (hq : 0 ≤ q.2 ∧ q.2 < w) :
    edgeCount (ts.map (indexTriple w)) (ringIndex w p, ringIndex w q) = edgeCount ts (p, q) := by
  unfold edgeCount
  rw [List.countP_map]
  apply List.countP_congr
  intro t ht
  obtain ⟨h1, h2, h3⟩ := hts t ht
  simp only [Function.comp, indexTriple, triEdges, sameEdge, List.any_cons, List.any_nil,
    Bool.or_false, Bool.or_eq_true, decide_eq_true_eq,
    ringIndex_inj w p t.1 hp.1 hp.2 h1.1 h1.2, ringIndex_inj w p t.2.1 hp.1 hp.2 h2.1 h2.2,
    ringIndex_inj w p t.2.2 hp.1 hp.2 h3.1 h3.2, ringIndex_inj w q t.1 hq.1 hq.2 h1.1 h1.2,
    ringIndex_inj w q t.2.1 hq.1 hq.2 h2.1 h2.2, ringIndex_inj w q t.2.2 hq.1 hq.2 h3.1 h3.2]

theorem triCorners_valid (w h : ℤ) (hw : 3 ≤ w) (x : ℤ × ℤ × ℤ) (hx : x ∈ triLabels w h) :
    (0 ≤ (triCorners w h x).1.2 ∧ (triCorners w h x).1.2 < w) ∧
    (0 ≤ (triCorners w h x).2.1.2 ∧ (triCorners w h x).2.1.2 < w) ∧
    (0 ≤ (triCorners w h x).2.2.2 ∧ (triCorners w h x).2.2.2 < w) := by
  obtain ⟨f, j, i⟩ := x
  rw [mem_triLabels] at hx
  dsimp only at hx
  obtain ⟨⟨hi0, hi1⟩, hf⟩ := hx
  have hn := tmod_next w i hi0 hi1
  rcases hf with ⟨rfl | rfl, rfl⟩ | ⟨rfl | rfl, hj2, hj3⟩
  all_goals simp only [triCorners, if_true, if_false, reduceIte, Int.reduceEq,
    OfNat.ofNat_ne_zero, one_ne_zero, OfNat.ofNat_ne_one]
  all_goals generalize (i + 1).tmod w = n at hn ⊢
  all_goals omega

theorem edgeCount_swap {α : Type} [DecidableEq α] (ts : List (α × α × α)) (p q : α) :
    edgeCount ts (q, p) = edgeCount ts (p, q) := by
  unfold edgeCount
  apply List.countP_congr
  intro t _
  simp only [triEdges, sameEdge, List.any_cons, List.any_nil, Bool.or_false, Bool.or_eq_true,
    decide_eq_true_eq]
  tauto

theorem sphere_edge_count (w h : ℤ) (hw : 3 ≤ w) (hh : 3 ≤ h) (e : ℤ × ℤ)
    (he : ∃ t ∈ sphereIndices w h ((h - 2) * w) ((h - 2) * w + 1) [],
      (triEdges t).any (sameEdge e) = true) :
    edgeCount (sphereIndices w h ((h - 2) * w) ((h - 2) * w + 1) []) e = 2 := by
  obtain ⟨t, ht, hte⟩ := he
  rw [sphereIndices_eq_labels] at ht ⊢
  rw [List.mem_map] at ht
  obtain ⟨x0, hx0, rfl⟩ := ht
  have hv := triCorners_valid w h hw x0 hx0
  have hmap : (triLabels w h).map (fun x => indexTriple w (triCorners w h x)) =
      ((triLabels w h).map (triCorners w h)).map (indexTriple w) := by
    rw [List.map_map]
    rfl
  have hts : ∀ t ∈ (triLabels w h).map (triCorners w h),
      (0 ≤ t.1.2 ∧ t.1.2 < w) ∧ (0 ≤ t.2.1.2 ∧ t.2.1.2 < w) ∧ (0 ≤ t.2.2.2 ∧ t.2.2.2 < w) := by
    intro t ht
    rw [List.mem_map] at ht
    obtain ⟨x, hx, rfl⟩ := ht
    exact triCorners_valid w h hw x hx
  have key : ∀ p q : ℤ × ℤ, (p, q) ∈ triEdges (triCorners w h x0) →
      edgeCount ((triLabels w h).map (fun x => indexTriple w (triCorners w h x)))
        (ringIndex w p, ringIndex w q) = 2 ∧
      edgeCount ((triLabels w h).map (fun x => indexTriple w (triCorners w h x)))
        (ringIndex w q, ringIndex w p) = 2 := by
    intro p q hpq
    have hc := corners_edge_count w h hw hh x0 hx0 (p, q) hpq
    have hp : (0 ≤ p.2 ∧ p.2 < w) ∧ (0 ≤ q.2 ∧ q.2 < w) := by
      simp only [triEdges, List.mem_cons, List.mem_singleton, List.not_mem_nil, or_false,
        Prod.mk.injEq] at hpq
      rcases hpq with ⟨rfl, rfl⟩ | ⟨rfl, rfl⟩ | ⟨rfl, rfl⟩
      · exact ⟨hv.1, hv.2.1⟩
      · exact ⟨hv.2.1, hv.2.2⟩
      · exact ⟨hv.2.2, hv.1⟩
    rw [hmap, edgeCount_swap _ (ringIndex w p) (ringIndex w q),
      edgeCount_indexTriple w _ hts p q hp.1 hp.2]
    exact ⟨hc, hc⟩
  obtain ⟨a, b⟩ := e
  simp only [indexTriple, triEdges, sameEdge, List.any_cons, List.any_nil, Bool.or_false,
    Bool.or_eq_true, decide_eq_true_eq] at hte
  rcases hte with (⟨rfl, rfl⟩ | ⟨rfl, rfl⟩) | (⟨rfl, rfl⟩ | ⟨rfl, rfl⟩) | (⟨rfl, rfl⟩ | ⟨rfl, rfl⟩)
  · exact (key _ _ (by simp [triEdges])).1
  · exact (key _ _ (by simp [triEdges])).2
  · exact (key (triCorners w h x0).2.1 (triCorners w h x0).2.2 (by simp [triEdges])).1
  · exact (key (triCorners w h x0).2.1 (triCorners w h x0).2.2 (by simp [triEdges])).2
  · exact (key (triCorners w h x0).2.2 (triCorners w h x0).1 (by simp [triEdges])).1
  · exact (key (triCorners w h x0).2.2 (triCorners w h x0).1 (by simp [triEdges])).2

theorem seam_edge_occurs (w h : ℤ) (hw : 3 ≤ w) (j : ℤ) (hj0 : 0 ≤ j) (hj1 : j ≤ h - 3) :
    ∃ t ∈ sphereIndices w h ((h - 2) * w) ((h - 2) * w + 1) [],
      (triEdges t).any (sameEdge (j * w + (w - 1), j * w)) = true := by
  have hz : (w - 1 + 1).tmod w = 0 := by
    rcases tmod_next w (w - 1) (by omega) (by omega) with ⟨-, hlt⟩ | ⟨h0, -⟩
    · omega
    · exact h0
  rw [sphereIndices_eq]
  by_cases hj : j < h - 3
  · refine ⟨(j * w + (w - 1), j * w + (w - 1 + 1).tmod w, (j + 1) * w + (w - 1 + 1).tmod w),
      ?_, ?_⟩
    · apply List.mem_append_right
      rw [List.mem_flatMap]
      refine ⟨j, (mem_loopLt _ _ _).mpr ⟨hj0, hj⟩, ?_⟩
      rw [List.mem_flatMap]
      exact ⟨w - 1, (mem_loopLt _ _ _).mpr ⟨by omega, by omega⟩, by simp⟩
    · simp [triEdges, sameEdge, hz]
  · have hje : j = h - 3 := by omega
    refine ⟨((h - 2) * w + 1, (h - 3) * w + (w - 1 + 1).tmod w, (h - 3) * w + (w - 1)),
      ?_, ?_⟩
    · apply List.mem_append_left
      apply List.mem_append_right
      rw [List.mem_flatMap]
      exact ⟨w - 1, (mem_loopLt _ _ _).mpr ⟨by omega, by omega⟩, by simp⟩
    · simp [triEdges, sameEdge, hz, hje]

/-- Claim C17.  For every width `w >= 3` and height `h >= 3` the mesh of
`createSphere(w, h)` (of `Q1.cpp` on an empty mesh, and of `Q2.cpp` and
`Q3.cpp`) is closed: every undirected edge that is a side of a triangle of the
index list is a side of exactly two triangles of the list.  This holds in
particular for the edge of every ring `j` across the longitude seam, between
its segment `w - 1` and its segment 0. -/
theorem C17_mesh_closed (m : CMath F) (w h : ℤ) (hw : 3 ≤ w) (hh : 3 ≤ h) :
    (∀ e : ℤ × ℤ,
      (∃ t ∈ (Q1.createSphere m w h ⟨[], []⟩).indices, (triEdges t).any (sameEdge e) = true) →
      edgeCount (Q1.createSphere m w h ⟨[], []⟩).indices e = 2) ∧
    (∀ e : ℤ × ℤ,
      (∃ t ∈ (Q2.createSphere m w h).indices, (triEdges t).any (sameEdge e) = true) →
      edgeCount (Q2.createSphere m w h).indices e = 2) ∧
    (∀ j : ℤ, 0 ≤ j → j ≤ h - 3 →
      edgeCount (Q1.createSphere m w h ⟨[], []⟩).indices (j * w + (w - 1), j * w) = 2 ∧
      edgeCount (Q2.createSphere m w h).indices (j * w + (w - 1), j * w) = 2) := by
  rw [Q1_createSphere_indices_eq m w h (by omega) (by omega),
    Q2_createSphere_indices_eq m w h (by omega) (by omega)]
  refine ⟨sphere_edge_count w h hw hh, sphere_edge_count w h hw hh, ?_⟩
  intro j hj0 hj1
  exact ⟨sphere_edge_count w h hw hh _ (seam_edge_occurs w h hw j hj0 hj1),
    sphere_edge_count w h hw hh _ (seam_edge_occurs w h hw j hj0 hj1)⟩

/-- Claim C17, instance: the default mesh of 32 by 16 segments, and the seam
edge between the vertices 31 and 0 of the first ring. -/
theorem C17_mesh_closed_witness :
    (3 : ℤ) ≤ 32 ∧ (3 : ℤ) ≤ 16 ∧
    edgeCount (Q2.createSphere (⟨3, id, fun a _ => a, id, id⟩ : CMath ℚ) 32 16).indices
      (0 * 32 + (32 - 1), 0 * 32) = 2 :=
  ⟨by decide, by decide,
    ((C17_mesh_closed (⟨3, id, fun a _ => a, id, id⟩ : CMath ℚ) 32 16 (by decide)
      (by decide)).2.2 0 (by decide) (by decide)).2⟩

/-! ## The winding of the fans and of the quads -/

theorem countP_eq_zero_of {α : Type} (L : List α) (p : α → Bool)
    (hp : ∀ x ∈ L, ¬ p x = true) : L.countP p = 0 := by
  rw [List.countP_eq_zero]
  exact hp

theorem dirEdgeCount_indexTriple (w : ℤ) (ts : List ((ℤ × ℤ) × (ℤ × ℤ) × (ℤ × ℤ)))
    (hts : ∀ t ∈ ts, (0 ≤ t.1.2 ∧ t.1.2 < w) ∧ (0 ≤ t.2.1.2 ∧ t.2.1.2 < w) ∧
      (0 ≤ t.2.2.2 ∧ t.2.2.2 < w))
    (p q : ℤ × ℤ) (hp : 0 ≤ p.2 ∧ p.2 < w) (hq : 0 ≤ q.2 ∧ q.2 < w) :
    dirEdgeCount (ts.map (indexTriple w)) (ringIndex w p, ringIndex w q) =
      dirEdgeCount ts (p, q) := by
  unfold dirEdgeCount
  rw [List.countP_map]
  apply List.countP_congr
  intro t ht
  obtain ⟨h1, h2, h3⟩ := hts t ht
  simp only [Function.comp, indexTriple, triEdges, List.mem_cons, List.mem_singleton,
    List.not_mem_nil, or_false, Prod.mk.injEq, decide_eq_true_eq,
    ringIndex_inj w p t.1 hp.1 hp.2 h1.1 h1.2, ringIndex_inj w p t.2.1 hp.1 hp.2 h2.1 h2.2,
    ringIndex_inj w p t.2.2 hp.1 hp.2 h3.1 h3.2, ringIndex_inj w q t.1 hq.1 hq.2 h1.1 h1.2,
    ringIndex_inj w q t.2.1 hq.1 hq.2 h2.1 h2.2, ringIndex_inj w q t.2.2 hq.1 hq.2 h3.1 h3.2]

theorem ring_edges_directed (w h : ℤ) (hw : 3 ≤ w) (hh : 4 ≤ h) (i0 : ℤ) (h0 : 0 ≤ i0)
    (h1 : i0 < w) (x : ℤ × ℤ × ℤ) (hx : x ∈ triLabels w h) :
    ((((0, i0), (0, (i0 + 1).tmod w)) : (ℤ × ℤ) × (ℤ × ℤ)) ∈ triEdges (triCorners w h x) ↔
      x = (0, 0, i0) ∨ x = (3, 0, i0)) ∧
    ¬ ((((0, (i0 + 1).tmod w), (0, i0)) : (ℤ × ℤ) × (ℤ × ℤ)) ∈ triEdges (triCorners w h x)) ∧
    ((((h - 3, (i0 + 1).tmod w), (h - 3, i0)) : (ℤ × ℤ) × (ℤ × ℤ)) ∈
        triEdges (triCorners w h x) ↔
      x = (1, 0, i0) ∨ x = (2, h - 4, i0)) ∧
    ¬ ((((h - 3, i0), (h - 3, (i0 + 1).tmod w)) : (ℤ × ℤ) × (ℤ × ℤ)) ∈
        triEdges (triCorners w h x)) := by
  obtain ⟨f, j, i⟩ := x
  rw [mem_triLabels] at hx
  dsimp only at hx
  obtain ⟨⟨hi0, hi1⟩, hf⟩ := hx
  have hn0 := tmod_next w i0 h0 h1
  have hn := tmod_next w i hi0 hi1
  rcases hf with ⟨rfl | rfl, rfl⟩ | ⟨rfl | rfl, hj2, hj3⟩
  all_goals simp only [triCorners, triEdges, List.mem_cons, List.mem_singleton,
    List.not_mem_nil, or_false, Prod.mk.injEq, if_true, if_false,
    reduceIte, Int.reduceEq, OfNat.ofNat_ne_zero, one_ne_zero, zero_ne_one, OfNat.ofNat_ne_one,
    OfNat.one_ne_ofNat, true_and, and_true, false_and, and_false, false_or,
    or_false, true_or, or_true]
  all_goals generalize (i0 + 1).tmod w = n0 at hn0 ⊢
  all_goals generalize (i + 1).tmod w = n at hn ⊢
  all_goals rcases hn0 with ⟨rfl, hn0⟩ | ⟨rfl, hn0⟩ <;> rcases hn with ⟨rfl, hn⟩ | ⟨rfl, hn⟩
  all_goals refine ⟨?_, ?_, ?_, ?_⟩
  all_goals try simp only [Int.reduceEq, true_and, and_true, false_and, and_false, false_or,
    or_false, true_or, or_true, iff_false, iff_true, true_iff, false_iff, not_false_eq_true,
    not_true_eq_false]
  all_goals omega

theorem corners_dir_counts (w h : ℤ) (hw : 3 ≤ w) (hh : 4 ≤ h) (i0 : ℤ) (h0 : 0 ≤ i0)
    (h1 : i0 < w) :
    dirEdgeCount ((triLabels w h).map (triCorners w h)) ((0, i0), (0, (i0 + 1).tmod w)) = 2 ∧
    dirEdgeCount ((triLabels w h).map (triCorners w h)) ((0, (i0 + 1).tmod w), (0, i0)) = 0 ∧
    dirEdgeCount ((triLabels w h).map (triCorners w h))
      ((h - 3, (i0 + 1).tmod w), (h - 3, i0)) = 2 ∧
    dirEdgeCount ((triLabels w h).map (triCorners w h))
      ((h - 3, i0), (h - 3, (i0 + 1).tmod w)) = 0 := by
  unfold dirEdgeCount
  simp only [List.countP_map]
  refine ⟨?_, ?_, ?_, ?_⟩
  · refine countP_eq_two _ (nodup_triLabels w h) _ (0, 0, i0) (3, 0, i0) ?_ ?_ ?_ ?_
    · simp
    · exact (mem_triLabels w h _).mpr ⟨⟨h0, h1⟩, Or.inl ⟨Or.inl rfl, rfl⟩⟩
    · exact (mem_triLabels w h _).mpr ⟨⟨h0, h1⟩, Or.inr ⟨Or.inr rfl, le_rfl, by dsimp only; omega⟩⟩
    · intro x hx
      simp only [Function.comp, decide_eq_true_eq]
      exact (ring_edges_directed w h hw hh i0 h0 h1 x hx).1
  · apply countP_eq_zero_of
    intro x hx
    simp only [Function.comp, decide_eq_true_eq]
    exact (ring_edges_directed w h hw hh i0 h0 h1 x hx).2.1
  · refine countP_eq_two _ (nodup_triLabels w h) _ (1, 0, i0) (2, h - 4, i0) ?_ ?_ ?_ ?_
    · simp
    · exact (mem_triLabels w h _).mpr ⟨⟨h0, h1⟩, Or.inl ⟨Or.inr rfl, rfl⟩⟩
    · exact (mem_triLabels w h _).mpr
        ⟨⟨h0, h1⟩, Or.inr ⟨Or.inl rfl, by dsimp only; omega, by dsimp only; omega⟩⟩
    · intro x hx
      simp only [Function.comp, decide_eq_true_eq]
      exact (ring_edges_directed w h hw hh i0 h0 h1 x hx).2.2.1
  · apply countP_eq_zero_of
    intro x hx
    simp only [Function.comp, decide_eq_true_eq]
    exact (ring_edges_directed w h hw hh i0 h0 h1 x hx).2.2.2

theorem sphere_dir_counts (w h : ℤ) (hw : 3 ≤ w) (hh : 4 ≤ h) (i0 : ℤ) (h0 : 0 ≤ i0)
    (h1 : i0 < w) :
    dirEdgeCount (sphereIndices w h ((h - 2) * w) ((h - 2) * w + 1) [])
      (i0, (i0 + 1).tmod w) = 2 ∧
    dirEdgeCount (sphereIndices w h ((h - 2) * w) ((h - 2) * w + 1) [])
      ((i0 + 1).tmod w, i0) = 0 ∧
    dirEdgeCount (sphereIndices w h ((h - 2) * w) ((h - 2) * w + 1) [])
      ((h - 3) * w + (i0 + 1).tmod w, (h - 3) * w + i0) = 2 ∧
    dirEdgeCount (sphereIndices w h ((h - 2) * w) ((h - 2) * w + 1) [])
      ((h - 3) * w + i0, (h - 3) * w + (i0 + 1).tmod w) = 0 := by
  have hmap : (triLabels w h).map (fun x => indexTriple w (triCorners w h x)) =
      ((triLabels w h).map (triCorners w h)).map (indexTriple w) := by
    rw [List.map_map]
    rfl
  have hts : ∀ t ∈ (triLabels w h).map (triCorners w h),
      (0 ≤ t.1.2 ∧ t.1.2 < w) ∧ (0 ≤ t.2.1.2 ∧ t.2.1.2 < w) ∧ (0 ≤ t.2.2.2 ∧ t.2.2.2 < w) := by
    intro t ht
    rw [List.mem_map] at ht
    obtain ⟨x, hx, rfl⟩ := ht
    exact triCorners_valid w h hw x hx
  have hn : 0 ≤ (i0 + 1).tmod w ∧ (i0 + 1).tmod w < w := by
    rcases tmod_next w i0 h0 h1 with ⟨e, hlt⟩ | ⟨e, -⟩ <;> rw [e] <;> omega
  obtain ⟨c1, c2, c3, c4⟩ := corners_dir_counts w h hw hh i0 h0 h1
  have k1 := dirEdgeCount_indexTriple w _ hts (0, i0) (0, (i0 + 1).tmod w) ⟨h0, h1⟩ hn
  have k2 := dirEdgeCount_indexTriple w _ hts (0, (i0 + 1).tmod w) (0, i0) hn ⟨h0, h1⟩
  have k3 := dirEdgeCount_indexTriple w _ hts (h - 3, (i0 + 1).tmod w) (h - 3, i0) hn ⟨h0, h1⟩
  have k4 := dirEdgeCount_indexTriple w _ hts (h - 3, i0) (h - 3, (i0 + 1).tmod w) ⟨h0, h1⟩ hn
  simp only [ringIndex, zero_mul, zero_add] at k1 k2 k3 k4
  rw [sphereIndices_eq_labels, hmap, k1, k2, k3, k4]
  exact ⟨c1, c2, c3, c4⟩

theorem fan_and_quad_mem (w h : ℤ) (hh : 4 ≤ h) (i0 : ℤ) (h0 : 0 ≤ i0) (h1 : i0 < w) :
    ((h - 2) * w, i0, (i0 + 1).tmod w) ∈
      sphereIndices w h ((h - 2) * w) ((h - 2) * w + 1) [] ∧
    (0 * w + i0, 0 * w + (i0 + 1).tmod w, (0 + 1) * w + (i0 + 1).tmod w) ∈
      sphereIndices w h ((h - 2) * w) ((h - 2) * w + 1) [] := by
  rw [sphereIndices_eq]
  constructor
  · apply List.mem_append_left
    apply List.mem_append_right
    rw [List.mem_flatMap]
    exact ⟨i0, (mem_loopLt _ _ _).mpr ⟨h0, h1⟩, by simp⟩
  · apply List.mem_append_right
    rw [List.mem_flatMap]
    refine ⟨0, (mem_loopLt _ _ _).mpr ⟨le_rfl, by omega⟩, ?_⟩
    rw [List.mem_flatMap]
    exact ⟨i0, (mem_loopLt _ _ _).mpr ⟨h0, h1⟩, by simp⟩

theorem fan_quad_normals_opposite :
    (((vertexAt (Q2.createSphere (⟨Real.pi, Real.sqrt, fun a b => a ^ b, Real.sin, Real.cos⟩
          : CMath ℝ) 32 16).vertices 0).sub
        (vertexAt (Q2.createSphere (⟨Real.pi, Real.sqrt, fun a b => a ^ b, Real.sin, Real.cos⟩
          : CMath ℝ) 32 16).vertices 448)).cross
      ((vertexAt (Q2.createSphere (⟨Real.pi, Real.sqrt, fun a b => a ^ b, Real.sin, Real.cos⟩
          : CMath ℝ) 32 16).vertices 1).sub
        (vertexAt (Q2.createSphere (⟨Real.pi, Real.sqrt, fun a b => a ^ b, Real.sin, Real.cos⟩
          : CMath ℝ) 32 16).vertices 448))).dot
      ((vertexAt (Q2.createSphere (⟨Real.pi, Real.sqrt, fun a b => a ^ b, Real.sin, Real.cos⟩
          : CMath ℝ) 32 16).vertices 0).sub ⟨0, 0, -7⟩) < 0 ∧
    0 < (((vertexAt (Q2.createSphere (⟨Real.pi, Real.sqrt, fun a b => a ^ b, Real.sin, Real.cos⟩
          : CMath ℝ) 32 16).vertices 1).sub
        (vertexAt (Q2.createSphere (⟨Real.pi, Real.sqrt, fun a b => a ^ b, Real.sin, Real.cos⟩
          : CMath ℝ) 32 16).vertices 0)).cross
      ((vertexAt (Q2.createSphere (⟨Real.pi, Real.sqrt, fun a b => a ^ b, Real.sin, Real.cos⟩
          : CMath ℝ) 32 16).vertices 33).sub
        (vertexAt (Q2.createSphere (⟨Real.pi, Real.sqrt, fun a b => a ^ b, Real.sin, Real.cos⟩
          : CMath ℝ) 32 16).vertices 0))).dot
      ((vertexAt (Q2.createSphere (⟨Real.pi, Real.sqrt, fun a b => a ^ b, Real.sin, Real.cos⟩
          : CMath ℝ) 32 16).vertices 0).sub ⟨0, 0, -7⟩) := by
  obtain ⟨hV0, hV1, -, -, hV33, hT⟩ := Q2_real_vertices Real.pi
  rw [hV0, hV1, hV33, hT]
  simp only [Vec3.sub, Vec3.cross, Vec3.dot]
  have hpi := Real.pi_pos
  have hs : 0 < Real.sin (Real.pi / 15) :=
    Real.sin_pos_of_pos_of_lt_pi (by positivity) (by linarith)
  have hp : 0 < Real.sin (Real.pi / 16) :=
    Real.sin_pos_of_pos_of_lt_pi (by positivity) (by linarith)
  have harg : 2 * Real.pi / 15 - Real.pi / 15 = Real.pi / 15 := by ring
  have hsub : Real.sin (2 * Real.pi / 15) * Real.cos (Real.pi / 15)
      - Real.cos (2 * Real.pi / 15) * Real.sin (Real.pi / 15) = Real.sin (Real.pi / 15) := by
    rw [← Real.sin_sub, harg]
  generalize Real.sin (Real.pi / 15) = s at hs hsub ⊢
  generalize Real.cos (Real.pi / 15) = c at hsub ⊢
  generalize Real.sin (2 * Real.pi / 15) = s2 at hsub ⊢
  generalize Real.cos (2 * Real.pi / 15) = c2 at hsub ⊢
  generalize Real.sin (Real.pi / 16) = p at hp ⊢
  generalize Real.cos (Real.pi / 16) = q
  have hpos : 0 < s ^ 2 * p := by positivity
  have h2 : s * p * (s2 * c - c2 * s) = s ^ 2 * p := by
    rw [hsub]
    ring
  constructor
  · linarith
  · linarith

/-- Claim C21 fails on the code.  For every width `w >= 3` and height `h >= 4`
(in particular 32 by 16) the mesh of `createSphere(w, h)` is not consistently
wound.  For every segment `i`, the top fan triangle `(top, i, next)` and the quad
triangle `(i, next, w + next)` are both in the index list, and the directed edge
`i -> next` of the first ring is a side of exactly two triangles while its
reverse `next -> i` is a side of none; likewise at the bottom pole for the
directed edge `(h-3)*w + next -> (h-3)*w + i` of the last ring.  `Q1.cpp` on an
empty mesh has the same index list.  And for the default mesh in real
arithmetic, at the shared vertex 0, the geometric normal `(v1-v0) x (v2-v0)` of
the fan triangle `(448, 0, 1)` points to the side of the centre of the sphere,
the one of the quad triangle `(0, 1, 33)` away from it. -/
theorem C21_winding_inconsistent (m : CMath F) (w h i : ℤ) (hw : 3 ≤ w) (hh : 4 ≤ h)
    (hi0 : 0 ≤ i) (hi1 : i < w) :
    ((h - 2) * w, i, (i + 1).tmod w) ∈ (Q2.createSphere m w h).indices ∧
    (0 * w + i, 0 * w + (i + 1).tmod w, (0 + 1) * w + (i + 1).tmod w) ∈
      (Q2.createSphere m w h).indices ∧
    dirEdgeCount (Q2.createSphere m w h).indices (i, (i + 1).tmod w) = 2 ∧
    dirEdgeCount (Q2.createSphere m w h).indices ((i + 1).tmod w, i) = 0 ∧
    dirEdgeCount (Q2.createSphere m w h).indices
      ((h - 3) * w + (i + 1).tmod w, (h - 3) * w + i) = 2 ∧
    dirEdgeCount (Q2.createSphere m w h).indices
      ((h - 3) * w + i, (h - 3) * w + (i + 1).tmod w) = 0 ∧
    (Q1.createSphere m w h ⟨[], []⟩).indices = (Q2.createSphere m w h).indices ∧
    (((vertexAt (Q2.createSphere (⟨Real.pi, Real.sqrt, fun a b => a ^ b, Real.sin, Real.cos⟩
          : CMath ℝ) 32 16).vertices 0).sub
        (vertexAt (Q2.createSphere (⟨Real.pi, Real.sqrt, fun a b => a ^ b, Real.sin, Real.cos⟩
          : CMath ℝ) 32 16).vertices 448)).cross
      ((vertexAt (Q2.createSphere (⟨Real.pi, Real.sqrt, fun a b => a ^ b, Real.sin, Real.cos⟩
          : CMath ℝ) 32 16).vertices 1).sub
        (vertexAt (Q2.createSphere (⟨Real.pi, Real.sqrt, fun a b => a ^ b, Real.sin, Real.cos⟩
          : CMath ℝ) 32 16).vertices 448))).dot
      ((vertexAt (Q2.createSphere (⟨Real.pi, Real.sqrt, fun a b => a ^ b, Real.sin, Real.cos⟩
          : CMath ℝ) 32 16).vertices 0).sub ⟨0, 0, -7⟩) < 0 ∧
    0 < (((vertexAt (Q2.createSphere (⟨Real.pi, Real.sqrt, fun a b => a ^ b, Real.sin, Real.cos⟩
          : CMath ℝ) 32 16).vertices 1).sub
        (vertexAt (Q2.createSphere (⟨Real.pi, Real.sqrt, fun a b => a ^ b, Real.sin, Real.cos⟩
          : CMath ℝ) 32 16).vertices 0)).cross
      ((vertexAt (Q2.createSphere (⟨Real.pi, Real.sqrt, fun a b => a ^ b, Real.sin, Real.cos⟩
          : CMath ℝ) 32 16).vertices 33).sub
        (vertexAt (Q2.createSphere (⟨Real.pi, Real.sqrt, fun a b => a ^ b, Real.sin, Real.cos⟩
          : CMath ℝ) 32 16).vertices 0))).dot
      ((vertexAt (Q2.createSphere (⟨Real.pi, Real.sqrt, fun a b => a ^ b, Real.sin, Real.cos⟩
          : CMath ℝ) 32 16).vertices 0).sub ⟨0, 0, -7⟩) := by
  rw [Q1_createSphere_indices_eq m w h (by omega) (by omega),
    Q2_createSphere_indices_eq m w h (by omega) (by omega)]
  obtain ⟨c1, c2, c3, c4⟩ := sphere_dir_counts w h hw hh i hi0 hi1
  obtain ⟨m1, m2⟩ := fan_and_quad_mem w h hh i hi0 hi1
  exact ⟨m1, m2, c1, c2, c3, c4, rfl, fan_quad_normals_opposite⟩

/-- Claim C21, instance: the default mesh of 32 by 16 segments and segment 0.
The directed edge `0 -> 1` is a side of the two triangles `(448, 0, 1)` and
`(0, 1, 33)`, and `1 -> 0` is a side of none. -/
theorem C21_winding_inconsistent_witness :
    (3 : ℤ) ≤ 32 ∧ (4 : ℤ) ≤ 16 ∧ (0 : ℤ) ≤ 0 ∧ (0 : ℤ) < 32 ∧
    (448, 0, 1) ∈ (Q2.createSphere (⟨3, id, fun a _ => a, id, id⟩ : CMath ℚ) 32 16).indices ∧
    (0, 1, 33) ∈ (Q2.createSphere (⟨3, id, fun a _ => a, id, id⟩ : CMath ℚ) 32 16).indices ∧
    dirEdgeCount (Q2.createSphere (⟨3, id, fun a _ => a, id, id⟩ : CMath ℚ) 32 16).indices
      (0, 1) = 2 ∧
    dirEdgeCount (Q2.createSphere (⟨3, id, fun a _ => a, id, id⟩ : CMath ℚ) 32 16).indices
      (1, 0) = 0 :=
  ⟨by decide, by decide, by decide, by decide,
    (C21_winding_inconsistent (⟨3, id, fun a _ => a, id, id⟩ : CMath ℚ) 32 16 0 (by decide)
      (by decide) (by decide) (by decide)).1,
    (C21_winding_inconsistent (⟨3, id, fun a _ => a, id, id⟩ : CMath ℚ) 32 16 0 (by decide)
      (by decide) (by decide) (by decide)).2.1,
    (C21_winding_inconsistent (⟨3, id, fun a _ => a, id, id⟩ : CMath ℚ) 32 16 0 (by decide)
      (by decide) (by decide) (by decide)).2.2.1,
    (C21_winding_inconsistent (⟨3, id, fun a _ => a, id, id⟩ : CMath ℚ) 32 16 0 (by decide)
      (by decide) (by decide) (by decide)).2.2.2.1⟩

/-! ## The meshes of the three programs -/

theorem Q1_indices_eq_Q2 (m : CMath F) (w h : ℤ)
    (hv : (Q1.createSphere m w h ⟨[], []⟩).vertices = (Q2.createSphere m w h).vertices) :
    (Q1.createSphere m w h ⟨[], []⟩).indices = (Q2.createSphere m w h).indices := by
  have e1 : (Q1.createSphere m w h ⟨[], []⟩).indices =
      sphereIndices w h (((Q1.createSphere m w h ⟨[], []⟩).vertices.length : ℤ) - 2)
        (((Q1.createSphere m w h ⟨[], []⟩).vertices.length : ℤ) - 1) [] := rfl
  have e2 : (Q2.createSphere m w h).indices =
      sphereIndices w h (((Q2.createSphere m w h).vertices.length : ℤ) - 2)
        (((Q2.createSphere m w h).vertices.length : ℤ) - 1) [] := rfl
  rw [e1, e2, hv]

/-! ## The loops with computed values; the strict depth test -/

theorem pixelStepOf_cell (m : CMath F) (inside : Bool) (z : F) (colour : Vec3 F)
    (b : Buffers F) (x y : ℤ) (r : Fin HEIGHT) (c : Fin WIDTH) :
    (pixelStepOf m inside z colour b x y).cell r c =
      if (r.val : ℤ) = y ∧ (c.val : ℤ) = x then stepCellOf m inside z colour (b.cell r c)
      else b.cell r c := by
  by_cases hrc : (r.val : ℤ) = y ∧ (c.val : ℤ) = x
  · obtain ⟨hy, hx⟩ := hrc
    subst hy
    subst hx
    simp only [and_self, if_true]
    unfold pixelStepOf stepCellOf
    by_cases hin : inside = true
    · rw [if_pos hin, Grid.get?_coe, setPixel_coe]
      by_cases hz : (z : WithTop F) < b.zbuffer r c
      · simp [Buffers.cell, hz, hin, Grid.set]
      · simp [Buffers.cell, hz, hin]
    · simp [hin]
  · rw [if_neg hrc]
    unfold pixelStepOf
    by_cases hin : inside = true
    · simp only [hin, if_true]
      cases hg : b.zbuffer.get? y x with
      | none => rfl
      | some d =>
        simp only
        by_cases hz : (z : WithTop F) < d
        · simp only [hz, if_true]
          have hs : setPixel m b.framebuffer x y colour r c = b.framebuffer r c := by
            unfold setPixel
            split
            · rfl
            · simp [Grid.set, hrc]
          simp [Buffers.cell, Grid.set, hrc, hs]
        · simp [hz]
    · simp [hin]

theorem rasterizeOf_cell (m : CMath F) (inside : ℤ → ℤ → Bool) (depth : ℤ → ℤ → F)
    (colour : ℤ → ℤ → Vec3 F) (minX maxX minY maxY : ℤ) (b : Buffers F)
    (r : Fin HEIGHT) (c : Fin WIDTH) :
    (rasterizeOf m inside depth colour minX maxX minY maxY b).cell r c =
      if (minY ≤ (r.val : ℤ) ∧ (r.val : ℤ) ≤ maxY) ∧ (minX ≤ (c.val : ℤ) ∧ (c.val : ℤ) ≤ maxX)
      then stepCellOf m (inside c r) (depth c r) (colour c r) (b.cell r c)
      else b.cell r c := by
  unfold rasterizeOf
  rw [foldl_grid_cell
    (fun b x y => pixelStepOf m (inside x y) (depth x y) (colour x y) b x y)
    (fun x y old => stepCellOf m (inside x y) (depth x y) (colour x y) old)
    (fun b x y r c => pixelStepOf_cell m _ _ _ b x y r c) _ _
    (nodup_loopLe _ _) (nodup_loopLe _ _)]
  simp only [mem_loopLe]

theorem rasterizeScreen_eq_rasterizeOf (m : CMath F) (shade : F → F → F → Vec3 F)
    (s0 s1 s2 : Vec3 F) (b : Buffers F) :
    rasterizeScreen m shade s0 s1 s2 b =
      rasterizeOf m (fun x y => baryInside s0 s1 s2 x y) (fun x y => interpDepth s0 s1 s2 x y)
        (fun x y => shade (baryW0 s0 s1 s2 x y).val (baryW1 s0 s1 s2 x y).val
          (baryW2 s0 s1 s2 x y).val)
        (boxMinX s0 s1 s2) (boxMaxX s0 s1 s2) (boxMinY s0 s1 s2) (boxMaxY s0 s1 s2) b := rfl

theorem stepCellOf_of_le (m : CMath F) (inside : Bool) (z : F) (colour : Vec3 F)
    (old : (ℕ × ℕ × ℕ) × WithTop F) (h : old.2 ≤ (z : WithTop F)) :
    stepCellOf m inside z colour old = old := by
  unfold stepCellOf
  rw [if_neg (fun hh => not_lt.mpr h hh.2)]

theorem rasterizeOf_cell_of_le (m : CMath F) (inside : ℤ → ℤ → Bool) (depth : ℤ → ℤ → F)
    (colour : ℤ → ℤ → Vec3 F) (minX maxX minY maxY : ℤ) (b : Buffers F)
    (r : Fin HEIGHT) (c : Fin WIDTH) (h : b.zbuffer r c ≤ ((depth c r : F) : WithTop F)) :
    (rasterizeOf m inside depth colour minX maxX minY maxY b).cell r c = b.cell r c := by
  rw [rasterizeOf_cell]
  split
  · exact stepCellOf_of_le m _ _ _ _ h
  · rfl

theorem rasterizeOf_zbuffer_le (m : CMath F) (inside : ℤ → ℤ → Bool) (depth : ℤ → ℤ → F)
    (colour : ℤ → ℤ → Vec3 F) (minX maxX minY maxY : ℤ) (b : Buffers F)
    (r : Fin HEIGHT) (c : Fin WIDTH)
    (hbox : (minY ≤ (r.val : ℤ) ∧ (r.val : ℤ) ≤ maxY) ∧
      (minX ≤ (c.val : ℤ) ∧ (c.val : ℤ) ≤ maxX))
    (hin : inside c r = true) :
    (rasterizeOf m inside depth colour minX maxX minY maxY b).zbuffer r c ≤
      ((depth c r : F) : WithTop F) := by
  have h := rasterizeOf_cell m inside depth colour minX maxX minY maxY b r c
  rw [if_pos hbox] at h
  have h2 : (rasterizeOf m inside depth colour minX maxX minY maxY b).zbuffer r c =
      (stepCellOf m (inside c r) (depth c r) (colour c r) (b.cell r c)).2 :=
    congrArg Prod.snd h
  rw [h2]
  unfold stepCellOf
  by_cases hz : ((depth c r : F) : WithTop F) < (b.cell r c).2
  · rw [if_pos ⟨hin, hz⟩]
  · rw [if_neg (fun hh => hz hh.2)]
    exact not_lt.mp hz

/-- Claim C2.  The depth test is strict: when the depth stored for a pixel is
less than or equal to the triangle's interpolated depth there, rasterizing the
triangle (flat-shaded as in `Q1.cpp`, or with interpolated colours as in
`Q2.cpp`) leaves the pixel's colour and depth unchanged.  This does not depend
on how the inside test, the depth and the colour are computed: it holds for
the two loops with any computed values `inside`, `depth`, `colour` and any loop
bounds, of which `rasterizeTriangle` in exact arithmetic is an instance.  In
particular, after a first triangle that passes the inside test at a pixel of
its bounding box, a second one whose computed depth there is larger than or
equal to the computed depth of the first changes nothing at that pixel: a tie
of the two computed depths keeps the first-written triangle. -/
theorem C2_depth_test_strict (m : CMath F) (v0 v1 v2 color c0 c1 c2 : Vec3 F) (b : Buffers F)
    (r : Fin HEIGHT) (c : Fin WIDTH)
    (h : b.zbuffer r c ≤ ((triDepth v0 v1 v2 (c.val : ℤ) (r.val : ℤ) : F) : WithTop F)) :
    (Q1.rasterizeTriangle m v0 v1 v2 color b).cell r c = b.cell r c ∧
    (Q2.rasterizeTriangle m v0 c0 v1 c1 v2 c2 b).cell r c = b.cell r c ∧
    (∀ (inside : ℤ → ℤ → Bool) (depth : ℤ → ℤ → F) (colour : ℤ → ℤ → Vec3 F)
      (minX maxX minY maxY : ℤ) (bb : Buffers F),
      bb.zbuffer r c ≤ ((depth (c.val : ℤ) (r.val : ℤ) : F) : WithTop F) →
      (rasterizeOf m inside depth colour minX maxX minY maxY bb).cell r c = bb.cell r c) ∧
    (∀ (insideA inside : ℤ → ℤ → Bool) (depthA depth : ℤ → ℤ → F)
      (colourA colour : ℤ → ℤ → Vec3 F) (minXA maxXA minYA maxYA minX maxX minY maxY : ℤ)
      (bb : Buffers F),
      (minYA ≤ (r.val : ℤ) ∧ (r.val : ℤ) ≤ maxYA) ∧ (minXA ≤ (c.val : ℤ) ∧ (c.val : ℤ) ≤ maxXA) →
      insideA (c.val : ℤ) (r.val : ℤ) = true →
      depthA (c.val : ℤ) (r.val : ℤ) ≤ depth (c.val : ℤ) (r.val : ℤ) →
      (rasterizeOf m inside depth colour minX maxX minY maxY
        (rasterizeOf m insideA depthA colourA minXA maxXA minYA maxYA bb)).cell r c =
      (rasterizeOf m insideA depthA colourA minXA maxXA minYA maxYA bb).cell r c) ∧
    Q1.rasterizeTriangle m v0 v1 v2 color b =
      rasterizeOf m
        (fun x y => baryInside (applyTransform v0) (applyTransform v1) (applyTransform v2) x y)
        (fun x y => triDepth v0 v1 v2 x y) (fun _ _ => color)
        (boxMinX (applyTransform v0) (applyTransform v1) (applyTransform v2))
        (boxMaxX (applyTransform v0) (applyTransform v1) (applyTransform v2))
        (boxMinY (applyTransform v0) (applyTransform v1) (applyTransform v2))
        (boxMaxY (applyTransform v0) (applyTransform v1) (applyTransform v2)) b := by
  have key : ∀ (shade : F → F → F → Vec3 F),
      (rasterizeScreen m shade (applyTransform v0) (applyTransform v1) (applyTransform v2)
        b).cell r c = b.cell r c := by
    intro shade
    rw [rasterizeScreen_cell]
    split
    · exact stepCell_of_le _ _ _ _ _ _ _ _ h
    · rfl
  refine ⟨key _, key _, ?_, ?_, rfl⟩
  · intro inside depth colour minX maxX minY maxY bb hbb
    exact rasterizeOf_cell_of_le m inside depth colour minX maxX minY maxY bb r c hbb
  · intro insideA inside depthA depth colourA colour minXA maxXA minYA maxYA minX maxX minY maxY
      bb hbox hin hle
    apply rasterizeOf_cell_of_le
    exact le_trans (rasterizeOf_zbuffer_le m insideA depthA colourA minXA maxXA minYA maxYA bb
      r c hbox hin) (WithTop.coe_le_coe.mpr hle)

/-- Claim C2, instance: the pixel `(256, 300)`, which the projected triangle
covers, in a buffer whose depth there is `-2`, below the depth the triangle has
at that pixel: the depth test is reached and fails, and the pixel keeps its
colour `(9, 9, 9)` and its depth `-2`. -/
theorem C2_depth_test_strict_witness :
    triCovers (⟨-2, -2, -5⟩ : Vec3 ℚ) ⟨2, -2, -5⟩ ⟨0, 2, -5⟩
      ((⟨256, by decide⟩ : Fin WIDTH).val : ℤ) ((⟨300, by decide⟩ : Fin HEIGHT).val : ℤ) ∧
    (⟨fun _ _ => (9, 9, 9), fun _ _ => ((-2 : ℚ) : WithTop ℚ)⟩ : Buffers ℚ).zbuffer
        ⟨300, by decide⟩ ⟨256, by decide⟩ ≤
      ((triDepth (⟨-2, -2, -5⟩ : Vec3 ℚ) ⟨2, -2, -5⟩ ⟨0, 2, -5⟩
        ((⟨256, by decide⟩ : Fin WIDTH).val : ℤ) ((⟨300, by decide⟩ : Fin HEIGHT).val : ℤ) : ℚ)
        : WithTop ℚ) ∧
    (Q1.rasterizeTriangle ⟨3, id, fun a _ => a, id, id⟩ (⟨-2, -2, -5⟩ : Vec3 ℚ) ⟨2, -2, -5⟩
        ⟨0, 2, -5⟩ ⟨1, 0, 0⟩ ⟨fun _ _ => (9, 9, 9), fun _ _ => ((-2 : ℚ) : WithTop ℚ)⟩).cell
        ⟨300, by decide⟩ ⟨256, by decide⟩ = ((9, 9, 9), ((-2 : ℚ) : WithTop ℚ)) := by
  have hs0 : applyTransform (⟨-2, -2, -5⟩ : Vec3 ℚ) = ⟨1792 / 5, 1792 / 5, -10401 / 9999⟩ := by
    norm_num [applyTransform, WIDTH, HEIGHT]
  have hs1 : applyTransform (⟨2, -2, -5⟩ : Vec3 ℚ) = ⟨768 / 5, 1792 / 5, -10401 / 9999⟩ := by
    norm_num [applyTransform, WIDTH, HEIGHT]
  have hs2 : applyTransform (⟨0, 2, -5⟩ : Vec3 ℚ) = ⟨256, 768 / 5, -10401 / 9999⟩ := by
    norm_num [applyTransform, WIDTH, HEIGHT]
  have hin : baryInside (⟨1792 / 5, 1792 / 5, -10401 / 9999⟩ : Vec3 ℚ)
      ⟨768 / 5, 1792 / 5, -10401 / 9999⟩ ⟨256, 768 / 5, -10401 / 9999⟩ 256 300 = true := by
    norm_num [baryInside, baryW0, baryW1, baryW2, baryDenom, Ieee.div, Ieee.sub, Ieee.ge0]
  have hc : triCovers (⟨-2, -2, -5⟩ : Vec3 ℚ) ⟨2, -2, -5⟩ ⟨0, 2, -5⟩
      ((⟨256, by decide⟩ : Fin WIDTH).val : ℤ) ((⟨300, by decide⟩ : Fin HEIGHT).val : ℤ) := by
    unfold triCovers covers inBox boxMinX boxMaxX boxMinY boxMaxY
    rw [hs0, hs1, hs2]
    refine ⟨⟨?_, ?_, ?_, ?_⟩, hin⟩
    · rw [max_le_iff]
      refine ⟨by norm_num, ?_⟩
      rw [Int.floor_le_iff]
      norm_num
    · rw [le_min_iff]
      refine ⟨by norm_num [WIDTH], ?_⟩
      rw [Int.le_ceil_iff]
      norm_num
    · rw [max_le_iff]
      refine ⟨by norm_num, ?_⟩
      rw [Int.floor_le_iff]
      norm_num
    · rw [le_min_iff]
      refine ⟨by norm_num [HEIGHT], ?_⟩
      rw [Int.le_ceil_iff]
      norm_num
  have hw : (⟨fun _ _ => (9, 9, 9), fun _ _ => ((-2 : ℚ) : WithTop ℚ)⟩ : Buffers ℚ).zbuffer
        ⟨300, by decide⟩ ⟨256, by decide⟩ ≤
      ((triDepth (⟨-2, -2, -5⟩ : Vec3 ℚ) ⟨2, -2, -5⟩ ⟨0, 2, -5⟩
        ((⟨256, by decide⟩ : Fin WIDTH).val : ℤ) ((⟨300, by decide⟩ : Fin HEIGHT).val : ℤ) : ℚ)
        : WithTop ℚ) := by
    rw [WithTop.coe_le_coe]
    unfold triDepth
    rw [hs0, hs1, hs2]
    change (-2 : ℚ) ≤ interpDepth _ _ _ 256 300
    rw [interpDepth_const _ _ _ _ _ hin rfl rfl]
    norm_num
  exact ⟨hc, hw, (C2_depth_test_strict ⟨3, id, fun a _ => a, id, id⟩ (⟨-2, -2, -5⟩ : Vec3 ℚ)
    ⟨2, -2, -5⟩ ⟨0, 2, -5⟩ ⟨1, 0, 0⟩ ⟨0, 0, 0⟩ ⟨0, 0, 0⟩ ⟨0, 0, 0⟩ _ _ _ hw).1⟩

/-! ## Zero denominators, and collinear triangles in binary32 -/

set_option maxRecDepth 100000 in
theorem binary32_collinear_values :
    (baryDenom32 (applyTransform32 ⟨⟨0, 0⟩, ⟨0, 0⟩, ⟨-5, 0⟩⟩)
      (applyTransform32 ⟨⟨-1, -3⟩, ⟨1, -3⟩, ⟨-5, 0⟩⟩)
      (applyTransform32 ⟨⟨-1, -2⟩, ⟨1, -2⟩, ⟨-5, 0⟩⟩)).m = -12 ∧
    (baryDenom32 (applyTransform32 ⟨⟨0, 0⟩, ⟨0, 0⟩, ⟨-5, 0⟩⟩)
      (applyTransform32 ⟨⟨-1, -3⟩, ⟨1, -3⟩, ⟨-5, 0⟩⟩)
      (applyTransform32 ⟨⟨-1, -2⟩, ⟨1, -2⟩, ⟨-5, 0⟩⟩)).e = -17 ∧
    baryInside32 (applyTransform32 ⟨⟨0, 0⟩, ⟨0, 0⟩, ⟨-5, 0⟩⟩)
      (applyTransform32 ⟨⟨-1, -3⟩, ⟨1, -3⟩, ⟨-5, 0⟩⟩)
      (applyTransform32 ⟨⟨-1, -2⟩, ⟨1, -2⟩, ⟨-5, 0⟩⟩) 257 255 = true := by
  refine ⟨by decide, by decide, by decide⟩

theorem div_zero_not_finite (a : F) :
    (Ieee.div a 0).isFin = false ∧ (Ieee.divNeg a 0).isFin = false := by
  unfold Ieee.div Ieee.divNeg
  simp only [if_true]
  constructor <;> split_ifs <;> rfl

theorem insideTest_of_not_finite (w0 w1 : Ieee F) (h0 : w0.isFin = false)
    (h1 : w1.isFin = false) :
    insideTest w0 w1 (Ieee.sub (Ieee.sub (Ieee.fin 1) w0) w1) = false := by
  cases w0 <;> cases w1 <;> simp_all [insideTest, Ieee.isFin, Ieee.sub, Ieee.ge0]

theorem rasterizeOf_of_not_inside (m : CMath F) (inside : ℤ → ℤ → Bool) (depth : ℤ → ℤ → F)
    (colour : ℤ → ℤ → Vec3 F) (minX maxX minY maxY : ℤ) (b : Buffers F)
    (h : ∀ x y, inside x y = false) :
    rasterizeOf m inside depth colour minX maxX minY maxY b = b := by
  apply Buffers.ext_cell
  intro r c
  rw [rasterizeOf_cell]
  split
  · unfold stepCellOf
    rw [if_neg]
    rw [h]
    simp
  · rfl

theorem rasterizeOf_cell_written (m : CMath F) (inside : ℤ → ℤ → Bool) (depth : ℤ → ℤ → F)
    (colour : ℤ → ℤ → Vec3 F) (minX maxX minY maxY : ℤ) (b : Buffers F)
    (r : Fin HEIGHT) (c : Fin WIDTH)
    (hbox : (minY ≤ (r.val : ℤ) ∧ (r.val : ℤ) ≤ maxY) ∧
      (minX ≤ (c.val : ℤ) ∧ (c.val : ℤ) ≤ maxX))
    (hin : inside c r = true) (hz : ((depth c r : F) : WithTop F) < b.zbuffer r c) :
    (rasterizeOf m inside depth colour minX maxX minY maxY b).cell r c =
      (encodeColor m (colour c r), ((depth c r : F) : WithTop F)) := by
  rw [rasterizeOf_cell, if_pos hbox]
  unfold stepCellOf
  rw [if_pos ⟨hin, hz⟩]

theorem rasterizeTriangle32_written (m : CMath ℚ) (v0 v1 v2 : BVec) (color : Vec3 ℚ)
    (b : Buffers ℚ) (r : Fin HEIGHT) (c : Fin WIDTH)
    (hbox : (max 1 (Bin.floor (Bin.min2 (applyTransform32 v0).y
          (Bin.min2 (applyTransform32 v1).y (applyTransform32 v2).y))) ≤ (r.val : ℤ) ∧
        (r.val : ℤ) ≤ min ((HEIGHT : ℤ) - 2) (Bin.ceil (Bin.max2 (applyTransform32 v0).y
          (Bin.max2 (applyTransform32 v1).y (applyTransform32 v2).y)))) ∧
      (max 1 (Bin.floor (Bin.min2 (applyTransform32 v0).x
          (Bin.min2 (applyTransform32 v1).x (applyTransform32 v2).x))) ≤ (c.val : ℤ) ∧
        (c.val : ℤ) ≤ min ((WIDTH : ℤ) - 2) (Bin.ceil (Bin.max2 (applyTransform32 v0).x
          (Bin.max2 (applyTransform32 v1).x (applyTransform32 v2).x)))))
    (hin : baryInside32 (applyTransform32 v0) (applyTransform32 v1) (applyTransform32 v2)
      (c.val : ℤ) (r.val : ℤ) = true) :
    (Q1.rasterizeTriangle32 m v0 v1 v2 color (clearBuffers b)).zbuffer r c ≠ ⊤ ∧
    (Q1.rasterizeTriangle32 m v0 v1 v2 color (clearBuffers b)).framebuffer r c =
      encodeColor m color := by
  have hcell := rasterizeOf_cell_written m
    (fun x y => baryInside32 (applyTransform32 v0) (applyTransform32 v1) (applyTransform32 v2) x y)
    (fun x y => (interpDepth32 (applyTransform32 v0) (applyTransform32 v1)
      (applyTransform32 v2) x y).toRat)
    (fun _ _ => color) _ _ _ _ (clearBuffers b) r c hbox hin
    (by rw [clearBuffers_zbuffer]; exact WithTop.coe_lt_top _)
  unfold Q1.rasterizeTriangle32
  unfold Buffers.cell at hcell
  have h1 := congrArg Prod.fst hcell
  have h2 := congrArg Prod.snd hcell
  simp only at h1 h2
  exact ⟨by rw [h2]; exact WithTop.coe_ne_top, h1⟩

set_option maxRecDepth 100000 in
theorem binary32_collinear_box :
    (max 1 (Bin.floor (Bin.min2 (applyTransform32 ⟨⟨0, 0⟩, ⟨0, 0⟩, ⟨-5, 0⟩⟩).y
          (Bin.min2 (applyTransform32 ⟨⟨-1, -3⟩, ⟨1, -3⟩, ⟨-5, 0⟩⟩).y
            (applyTransform32 ⟨⟨-1, -2⟩, ⟨1, -2⟩, ⟨-5, 0⟩⟩).y))) ≤ (255 : ℤ) ∧
        (255 : ℤ) ≤ min ((HEIGHT : ℤ) - 2) (Bin.ceil (Bin.max2
            (applyTransform32 ⟨⟨0, 0⟩, ⟨0, 0⟩, ⟨-5, 0⟩⟩).y
            (Bin.max2 (applyTransform32 ⟨⟨-1, -3⟩, ⟨1, -3⟩, ⟨-5, 0⟩⟩).y
              (applyTransform32 ⟨⟨-1, -2⟩, ⟨1, -2⟩, ⟨-5, 0⟩⟩).y)))) ∧
      (max 1 (Bin.floor (Bin.min2 (applyTransform32 ⟨⟨0, 0⟩, ⟨0, 0⟩, ⟨-5, 0⟩⟩).x
          (Bin.min2 (applyTransform32 ⟨⟨-1, -3⟩, ⟨1, -3⟩, ⟨-5, 0⟩⟩).x
            (applyTransform32 ⟨⟨-1, -2⟩, ⟨1, -2⟩, ⟨-5, 0⟩⟩).x))) ≤ (257 : ℤ) ∧
        (257 : ℤ) ≤ min ((WIDTH : ℤ) - 2) (Bin.ceil (Bin.max2
            (applyTransform32 ⟨⟨0, 0⟩, ⟨0, 0⟩, ⟨-5, 0⟩⟩).x
            (Bin.max2 (applyTransform32 ⟨⟨-1, -3⟩, ⟨1, -3⟩, ⟨-5, 0⟩⟩).x
              (applyTransform32 ⟨⟨-1, -2⟩, ⟨1, -2⟩, ⟨-5, 0⟩⟩).x)))) := by
  decide

/-- Claim C13 fails for a triangle whose vertices are collinear but whose
computed denominator is not exactly zero.  The camera-space points `(0, 0, -5)`,
`(-1/8, 1/8, -5)` and `(-1/4, 1/4, -5)` are collinear, and so are their
projections in exact arithmetic: the barycentric denominator is zero.  In
binary32 arithmetic the denominator `rasterizeTriangle` computes for them is
`-12 * 2^-17`, about `-9.2e-5`; the pixel `(257, 255)` passes the inside test,
and `rasterizeTriangle` of `Q1.cpp`, called on cleared buffers, stores a depth
and a colour for it. -/
theorem C13_collinear_triangle_written :
    baryDenom (applyTransform (⟨0, 0, -5⟩ : Vec3 ℚ)) (applyTransform ⟨-1 / 8, 1 / 8, -5⟩)
      (applyTransform ⟨-1 / 4, 1 / 4, -5⟩) = 0 ∧
    (baryDenom32 (applyTransform32 ⟨⟨0, 0⟩, ⟨0, 0⟩, ⟨-5, 0⟩⟩)
      (applyTransform32 ⟨⟨-1, -3⟩, ⟨1, -3⟩, ⟨-5, 0⟩⟩)
      (applyTransform32 ⟨⟨-1, -2⟩, ⟨1, -2⟩, ⟨-5, 0⟩⟩)).toRat = -12 / 131072 ∧
    ∀ (m : CMath ℚ) (color : Vec3 ℚ) (b : Buffers ℚ),
      (Q1.rasterizeTriangle32 m ⟨⟨0, 0⟩, ⟨0, 0⟩, ⟨-5, 0⟩⟩ ⟨⟨-1, -3⟩, ⟨1, -3⟩, ⟨-5, 0⟩⟩
        ⟨⟨-1, -2⟩, ⟨1, -2⟩, ⟨-5, 0⟩⟩ color (clearBuffers b)).zbuffer
          ⟨255, by decide⟩ ⟨257, by decide⟩ ≠ ⊤ ∧
      (Q1.rasterizeTriangle32 m ⟨⟨0, 0⟩, ⟨0, 0⟩, ⟨-5, 0⟩⟩ ⟨⟨-1, -3⟩, ⟨1, -3⟩, ⟨-5, 0⟩⟩
        ⟨⟨-1, -2⟩, ⟨1, -2⟩, ⟨-5, 0⟩⟩ color (clearBuffers b)).framebuffer
          ⟨255, by decide⟩ ⟨257, by decide⟩ = encodeColor m color := by
  obtain ⟨hm, he, hin⟩ := binary32_collinear_values
  refine ⟨by norm_num [baryDenom, applyTransform, WIDTH, HEIGHT], ?_, ?_⟩
  · unfold Bin.toRat
    rw [hm, he]
    norm_num
  · intro m color b
    exact rasterizeTriangle32_written m _ _ _ color b ⟨255, by decide⟩ ⟨257, by decide⟩
      binary32_collinear_box hin

/-- Claim C13, amended.  A triangle is skipped when the denominator the pixel
loop computes is exactly zero, of either sign: the quotients `w0` and `w1` are
then infinities or not-a-number, the inside test `w0 >= 0 && w1 >= 0 && w2 >= 0`
is false at every pixel whatever the numerators, and the two loops leave the
colour buffer and the depth buffer unchanged; this holds for the loops of all
three rasterizers, however the numerators, the depth and the colour are
computed.  There is no other guard: at a pixel of the loop bounds where the
computed test passes and the computed depth is below the stored one, the pixel
is written, however small the non-zero denominator is. -/
theorem C13_zero_denominator_skipped (m : CMath F) (w0 w1 : ℤ → ℤ → Ieee F)
    (depth : ℤ → ℤ → F) (colour : ℤ → ℤ → Vec3 F) (minX maxX minY maxY : ℤ) (b : Buffers F)
    (h0 : ∀ x y, (w0 x y).isFin = false) (h1 : ∀ x y, (w1 x y).isFin = false) :
    rasterizeOf m
      (fun x y => insideTest (w0 x y) (w1 x y)
        (Ieee.sub (Ieee.sub (Ieee.fin 1) (w0 x y)) (w1 x y)))
      depth colour minX maxX minY maxY b = b ∧
    (∀ a : F, (Ieee.div a 0).isFin = false ∧ (Ieee.divNeg a 0).isFin = false) ∧
    (∀ num0 num1 : ℤ → ℤ → F,
      rasterizeOf m
        (fun x y => insideTest (Ieee.div (num0 x y) 0) (Ieee.div (num1 x y) 0)
          (Ieee.sub (Ieee.sub (Ieee.fin 1) (Ieee.div (num0 x y) 0)) (Ieee.div (num1 x y) 0)))
        depth colour minX maxX minY maxY b = b ∧
      rasterizeOf m
        (fun x y => insideTest (Ieee.divNeg (num0 x y) 0) (Ieee.divNeg (num1 x y) 0)
          (Ieee.sub (Ieee.sub (Ieee.fin 1) (Ieee.divNeg (num0 x y) 0))
            (Ieee.divNeg (num1 x y) 0)))
        depth colour minX maxX minY maxY b = b) ∧
    (∀ (inside : ℤ → ℤ → Bool) (r : Fin HEIGHT) (c : Fin WIDTH),
      (minY ≤ (r.val : ℤ) ∧ (r.val : ℤ) ≤ maxY) ∧ (minX ≤ (c.val : ℤ) ∧ (c.val : ℤ) ≤ maxX) →
      inside (c.val : ℤ) (r.val : ℤ) = true →
      ((depth (c.val : ℤ) (r.val : ℤ) : F) : WithTop F) < b.zbuffer r c →
      (rasterizeOf m inside depth colour minX maxX minY maxY b).cell r c =
        (encodeColor m (colour (c.val : ℤ) (r.val : ℤ)),
          ((depth (c.val : ℤ) (r.val : ℤ) : F) : WithTop F))) ∧
    (∀ (v0 v1 v2 s0 s1 s2 color c0 c1 c2 n0 n1 n2 : Vec3 F),
      (∀ x y : ℤ, baryInside s0 s1 s2 x y =
        insideTest (baryW0 s0 s1 s2 x y) (baryW1 s0 s1 s2 x y)
          (Ieee.sub (Ieee.sub (Ieee.fin 1) (baryW0 s0 s1 s2 x y)) (baryW1 s0 s1 s2 x y))) ∧
      Q1.rasterizeTriangle m v0 v1 v2 color b =
        rasterizeOf m
          (fun x y => baryInside (applyTransform v0) (applyTransform v1) (applyTransform v2) x y)
          (fun x y => triDepth v0 v1 v2 x y) (fun _ _ => color)
          (boxMinX (applyTransform v0) (applyTransform v1) (applyTransform v2))
          (boxMaxX (applyTransform v0) (applyTransform v1) (applyTransform v2))
          (boxMinY (applyTransform v0) (applyTransform v1) (applyTransform v2))
          (boxMaxY (applyTransform v0) (applyTransform v1) (applyTransform v2)) b ∧
      Q2.rasterizeTriangle m v0 c0 v1 c1 v2 c2 b =
        rasterizeOf m
          (fun x y => baryInside (applyTransform v0) (applyTransform v1) (applyTransform v2) x y)
          (fun x y => triDepth v0 v1 v2 x y)
          (fun x y => ((c0.scale
              (baryW0 (applyTransform v0) (applyTransform v1) (applyTransform v2) x y).val).add
            (c1.scale
              (baryW1 (applyTransform v0) (applyTransform v1) (applyTransform v2) x y).val)).add
            (c2.scale
              (baryW2 (applyTransform v0) (applyTransform v1) (applyTransform v2) x y).val))
          (boxMinX (applyTransform v0) (applyTransform v1) (applyTransform v2))
          (boxMaxX (applyTransform v0) (applyTransform v1) (applyTransform v2))
          (boxMinY (applyTransform v0) (applyTransform v1) (applyTransform v2))
          (boxMaxY (applyTransform v0) (applyTransform v1) (applyTransform v2)) b ∧
      Q3.rasterizePhong m s0 n0 s1 n1 s2 n2 v0 v1 v2 b =
        rasterizeOf m (fun x y => baryInside s0 s1 s2 x y)
          (fun x y => interpDepth s0 s1 s2 x y)
          (fun x y => Q3.computeLighting m
            (((v0.scale (baryW0 s0 s1 s2 x y).val).add
              (v1.scale (baryW1 s0 s1 s2 x y).val)).add (v2.scale (baryW2 s0 s1 s2 x y).val))
            ((((n0.scale (baryW0 s0 s1 s2 x y).val).add
              (n1.scale (baryW1 s0 s1 s2 x y).val)).add
              (n2.scale (baryW2 s0 s1 s2 x y).val)).normalize m))
          (boxMinX s0 s1 s2) (boxMaxX s0 s1 s2) (boxMinY s0 s1 s2) (boxMaxY s0 s1 s2) b) := by
  have key : ∀ u0 u1 : ℤ → ℤ → Ieee F, (∀ x y, (u0 x y).isFin = false) →
      (∀ x y, (u1 x y).isFin = false) →
      rasterizeOf m
        (fun x y => insideTest (u0 x y) (u1 x y)
          (Ieee.sub (Ieee.sub (Ieee.fin 1) (u0 x y)) (u1 x y)))
        depth colour minX maxX minY maxY b = b := by
    intro u0 u1 hu0 hu1
    apply rasterizeOf_of_not_inside
    intro x y
    exact insideTest_of_not_finite _ _ (hu0 x y) (hu1 x y)
  refine ⟨key w0 w1 h0 h1, div_zero_not_finite, ?_, ?_, ?_⟩
  · intro num0 num1
    exact ⟨key _ _ (fun x y => (div_zero_not_finite (num0 x y)).1)
        (fun x y => (div_zero_not_finite (num1 x y)).1),
      key _ _ (fun x y => (div_zero_not_finite (num0 x y)).2)
        (fun x y => (div_zero_not_finite (num1 x y)).2)⟩
  · intro inside r c hbox hin hz
    exact rasterizeOf_cell_written m inside depth colour minX maxX minY maxY b r c hbox hin hz
  · intro v0 v1 v2 s0 s1 s2 color c0 c1 c2 n0 n1 n2
    exact ⟨fun _ _ => rfl, rfl, rfl, rfl⟩

/-- Claim C13, amended, instance: weights that are quotients by a zero
denominator, over loop bounds that take in the whole picture. -/
theorem C13_zero_denominator_skipped_witness :
    (∀ x y : ℤ, (Ieee.div ((x : ℚ) - (y : ℚ)) 0).isFin = false) ∧
    (∀ x y : ℤ, (Ieee.div ((x : ℚ) + (y : ℚ)) 0).isFin = false) ∧
    ∀ b : Buffers ℚ,
      rasterizeOf ⟨3, id, fun a _ => a, id, id⟩
        (fun x y => insideTest (Ieee.div ((x : ℚ) - (y : ℚ)) 0) (Ieee.div ((x : ℚ) + (y : ℚ)) 0)
          (Ieee.sub (Ieee.sub (Ieee.fin 1) (Ieee.div ((x : ℚ) - (y : ℚ)) 0))
            (Ieee.div ((x : ℚ) + (y : ℚ)) 0)))
        (fun _ _ => -1) (fun _ _ => ⟨1, 0, 0⟩) 1 510 1 510 b = b :=
  ⟨fun _ _ => (div_zero_not_finite _).1, fun _ _ => (div_zero_not_finite _).1,
    fun b => (C13_zero_denominator_skipped ⟨3, id, fun a _ => a, id, id⟩
      (fun x y => Ieee.div ((x : ℚ) - (y : ℚ)) 0) (fun x y => Ieee.div ((x : ℚ) + (y : ℚ)) 0)
      (fun _ _ => -1) (fun _ _ => ⟨1, 0, 0⟩) 1 510 1 510 b
      (fun _ _ => (div_zero_not_finite _).1) (fun _ _ => (div_zero_not_finite _).1)).1⟩

/-! ## The meshes of the three programs, compared -/

end Theorems

end Raster
